import Mathlib

/-!
Scene layers, layer collections and object bases (blenkernel/intern/layer.c)

A shallow embedding of `source/blender/blenkernel/intern/layer.c`.

Memory model.
* An `ObjectBase` lives in the registry `sl->object_bases` and is referenced from
  link entries and from `sl->basact`, so it carries its address (`addr`); a write
  through a base pointer `p` rewrites the registry entries whose address is `p`.
* A `LayerCollection` pointer is only ever passed around transiently (argument or
  return value); it is represented by the path of child indices that leads from
  the root list `sl->layer_collections` to the node.  A pointer to a `ListBase` of
  nodes is the path of the node owning it (`[]` for `sl->layer_collections`).
* An `Object` and a `SceneCollection` are compared by identity only: an object is
  its address, a scene collection carries its address in `id`.
* `MEM_callocN` is external: base allocation takes an allocator `alloc` that maps
  the addresses in use to the address of the new block.
* An iterator walks the registry without changing it: the ObjectBase pointer it keeps in
  `iter->data` is given as the registry from that base on.
* `flag` fields are bit sets over `Nat`; `refcount` and `active_collection` are
  integers (`refcount--` on `0` gives `-1`, which the code compares with `0`).
-/

namespace Layer

/-! ## Constants of DNA_layer_types.h -/

/-- Modelled from the spec: `DNA_layer_types.h` is absent; the spec gives ObjectBase
`flag` as a bitset of SELECTED, SELECTABLED, VISIBLED, here three distinct bits. -/
def BASE_SELECTED : Nat := 1

/-- Modelled from the spec: `DNA_layer_types.h` is absent; second bit of the
ObjectBase bitset. -/
def BASE_VISIBLED : Nat := 2

/-- Modelled from the spec: `DNA_layer_types.h` is absent; third bit of the
ObjectBase bitset. -/
def BASE_SELECTABLED : Nat := 4

/-- Modelled from the spec: `DNA_layer_types.h` is absent; the spec gives
LayerCollection `flag` as a bitset of VISIBLE, SELECTABLE, FOLDED. -/
def COLLECTION_VISIBLE : Nat := 1

/-- Modelled from the spec: `DNA_layer_types.h` is absent; second bit of the
LayerCollection bitset. -/
def COLLECTION_SELECTABLE : Nat := 2

/-- Modelled from the spec: `DNA_layer_types.h` is absent; third bit of the
LayerCollection bitset. -/
def COLLECTION_FOLDED : Nat := 4

/-- Modelled from the spec: `DNA_layer_types.h` is absent; the render bit of
`SceneLayer.flag`. -/
def SCENE_LAYER_RENDER : Nat := 1

/-! ## Data model -/

/-- The struct `ObjectBase`: `object` is the address of the scene object. -/
structure ObjectBase where
  addr : Nat
  object : Nat
  flag : Nat
  refcount : Int
deriving DecidableEq, Repr

/-- The struct `SceneCollection` (external, read only): `id` is its address. -/
inductive SceneCollection where
  | mk (id : Nat) (objects : List Nat) (filter_objects : List Nat)
      (scene_collections : List SceneCollection)

/-- The struct `LayerCollection`: `scene_collection` is the address of the mirrored
SceneCollection, `object_bases` the `data` pointers of its `LinkData` entries. -/
inductive LayerCollection where
  | mk (scene_collection : Nat) (flag : Nat) (object_bases : List Nat)
      (layer_collections : List LayerCollection)

namespace SceneCollection

/-- Field `id` (the address). -/
def id : SceneCollection → Nat
  | mk i _ _ _ => i

/-- Field `objects`. -/
def objects : SceneCollection → List Nat
  | mk _ o _ _ => o

/-- Field `filter_objects`. -/
def filter_objects : SceneCollection → List Nat
  | mk _ _ f _ => f

/-- Field `scene_collections`. -/
def scene_collections : SceneCollection → List SceneCollection
  | mk _ _ _ c => c

end SceneCollection

namespace LayerCollection

/-- Field `scene_collection`. -/
def scene_collection : LayerCollection → Nat
  | mk s _ _ _ => s

/-- Field `flag`. -/
def flag : LayerCollection → Nat
  | mk _ f _ _ => f

/-- Field `object_bases`. -/
def object_bases : LayerCollection → List Nat
  | mk _ _ l _ => l

/-- Field `layer_collections`. -/
def layer_collections : LayerCollection → List LayerCollection
  | mk _ _ _ c => c

/-- Dereference of a node pointer given relative to `t`. -/
def get : LayerCollection → List Nat → Option LayerCollection
  | t, [] => some t
  | mk _ _ _ cs, i :: p =>
    match cs[i]? with
    | none => none
    | some c => c.get p

/-- In-place update `f` of the node a pointer relative to `t` designates. -/
def modify (f : LayerCollection → LayerCollection) : LayerCollection → List Nat → LayerCollection
  | t, [] => f t
  | mk s fl ls cs, i :: p =>
    match cs[i]? with
    | none => mk s fl ls cs
    | some c => mk s fl ls (cs.set i (c.modify f p))

/-- `BLI_addtail(&lc->layer_collections, n)`. -/
def appendChild (n : LayerCollection) : LayerCollection → LayerCollection
  | mk s fl ls cs => mk s fl ls (cs ++ [n])

/-- `BLI_addtail(&lc->object_bases, BLI_genericNodeN(base))`. -/
def appendLink (base : Nat) : LayerCollection → LayerCollection
  | mk s fl ls cs => mk s fl (ls ++ [base]) cs

/-- `BLI_remlink` of the first link entry whose `data` is `base`. -/
def removeLink (base : Nat) : LayerCollection → LayerCollection
  | mk s fl ls cs => mk s fl (ls.erase base) cs

/-- What `layer_collection_free` leaves of the node itself: both lists freed. -/
def freed : LayerCollection → LayerCollection
  | mk s fl _ _ => mk s fl [] []

end LayerCollection

/-- The struct `SceneLayer` (name and engine strings are not modelled). -/
structure SceneLayer where
  addr : Nat
  flag : Nat
  layer_collections : List LayerCollection
  object_bases : List ObjectBase
  basact : Option Nat
  active_collection : Int

/-- The part of `Scene` this file uses; `collection` is `BKE_collection_master`. -/
structure Scene where
  render_layers : List SceneLayer
  active_layer : Int
  collection : SceneCollection

/-! ## Pointers into the forest -/

/-- Dereference of a node pointer: `none` for a pointer to no node of the forest. -/
def forest_get (forest : List LayerCollection) : List Nat → Option LayerCollection
  | [] => none
  | i :: p =>
    match forest[i]? with
    | none => none
    | some t => t.get p

/-- In-place update of the node a pointer designates. -/
def forest_modify (f : LayerCollection → LayerCollection) (forest : List LayerCollection) :
    List Nat → List LayerCollection
  | [] => forest
  | i :: p =>
    match forest[i]? with
    | none => forest
    | some t => forest.set i (t.modify f p)

/-- `BLI_addtail(lb, n)` where `lb` is the root list (`[]`) or the child list of a node. -/
def forest_addtail (forest : List LayerCollection) (lb : List Nat) (n : LayerCollection) :
    List LayerCollection :=
  match lb with
  | [] => forest ++ [n]
  | i :: p => forest_modify (LayerCollection.appendChild n) forest (i :: p)

/-- Number of nodes in the list `lb`: the index a node added at its tail gets. -/
def forest_listlen (forest : List LayerCollection) (lb : List Nat) : Nat :=
  match lb with
  | [] => forest.length
  | i :: p =>
    match forest_get forest (i :: p) with
    | none => 0
    | some n => n.layer_collections.length

mutual
/-- All link entries of a tree, in pre-order. -/
def tree_links : LayerCollection → List Nat
  | .mk _ _ ls cs => ls ++ forest_links cs
/-- All link entries of a forest, in pre-order. -/
def forest_links : List LayerCollection → List Nat
  | [] => []
  | c :: cs => tree_links c ++ forest_links cs
end

mutual
/-- The scene collections mirrored by the nodes of a tree, in pre-order. -/
def tree_mirrored : LayerCollection → List Nat
  | .mk s _ _ cs => s :: forest_mirrored cs
/-- The scene collections mirrored by the nodes of a forest, in pre-order. -/
def forest_mirrored : List LayerCollection → List Nat
  | [] => []
  | c :: cs => tree_mirrored c ++ forest_mirrored cs
end

/-! ## ObjectBase registry -/

/-- A write through the base pointer `p`. -/
def base_update (p : Nat) (f : ObjectBase → ObjectBase) (bases : List ObjectBase) :
    List ObjectBase :=
  bases.map (fun b => if b.addr = p then f b else b)

/-- `f & ~m` on a bit set. -/
def flag_clear (f m : Nat) : Nat := f ^^^ (f &&& m)

/-- `BKE_scene_layer_base_find`: `BLI_findptr` on the `object` field. -/
def BKE_scene_layer_base_find (sl : SceneLayer) (ob : Nat) : Option ObjectBase :=
  sl.object_bases.find? (fun b => b.object == ob)

/-- `BKE_scene_layer_base_deselect_all`. -/
def BKE_scene_layer_base_deselect_all (sl : SceneLayer) : SceneLayer :=
  { sl with object_bases :=
      sl.object_bases.map (fun b => { b with flag := flag_clear b.flag BASE_SELECTED }) }

/-- `BKE_scene_layer_base_select`. -/
def BKE_scene_layer_base_select (sl : SceneLayer) (selbase : Nat) : SceneLayer :=
  { sl with
    basact := some selbase
    object_bases := base_update selbase
      (fun b => if b.flag &&& BASE_SELECTABLED ≠ 0 then { b with flag := b.flag ||| BASE_SELECTED }
                else b)
      sl.object_bases }

/-- `scene_layer_object_base_unref`; a pointer to no base of the registry is outside
the function's precondition and leaves the layer as it is. -/
def scene_layer_object_base_unref (sl : SceneLayer) (base : Nat) : SceneLayer :=
  let bases := base_update base (fun b => { b with refcount := b.refcount - 1 }) sl.object_bases
  match bases.find? (fun b => b.addr == base) with
  | none => sl
  | some b =>
    if b.refcount = 0 then
      { sl with
        basact := if sl.basact = some base then none else sl.basact
        object_bases := bases.filter (fun x => x.addr != base) }
    else { sl with object_bases := bases }

/-- The two flag writes of the link loop of `layer_collection_base_flag_recalculate`. -/
def base_set_derived (is_visible is_selectable : Bool) (b : ObjectBase) : ObjectBase :=
  let f1 := if is_visible then b.flag ||| BASE_VISIBLED else flag_clear b.flag BASE_VISIBLED
  let f2 := if is_selectable then f1 ||| BASE_SELECTABLED else flag_clear f1 BASE_SELECTABLED
  { b with flag := f2 }

mutual
/-- `layer_collection_base_flag_recalculate`, on the registry it writes to. -/
def layer_collection_base_flag_recalculate :
    LayerCollection → Bool → Bool → List ObjectBase → List ObjectBase
  | .mk _ flag links children, tree_is_visible, tree_is_selectable, bases =>
    let is_visible := tree_is_visible && (flag &&& COLLECTION_VISIBLE != 0)
    let is_selectable := tree_is_selectable && is_visible && (flag &&& COLLECTION_SELECTABLE != 0)
    let bases1 :=
      links.foldl (fun bs link => base_update link (base_set_derived is_visible is_selectable) bs)
        bases
    layer_collections_base_flag_recalculate children is_visible is_selectable bases1
/-- The loop over a list of nodes calling `layer_collection_base_flag_recalculate`. -/
def layer_collections_base_flag_recalculate :
    List LayerCollection → Bool → Bool → List ObjectBase → List ObjectBase
  | [], _, _, bases => bases
  | lcn :: rest, v, s, bases =>
    layer_collections_base_flag_recalculate rest v s
      (layer_collection_base_flag_recalculate lcn v s bases)
end

/-- `BKE_scene_layer_base_flag_recalculate`. -/
def BKE_scene_layer_base_flag_recalculate (sl : SceneLayer) : SceneLayer :=
  let bases := layer_collections_base_flag_recalculate sl.layer_collections true true sl.object_bases
  { sl with object_bases :=
      bases.map (fun b =>
        if b.flag &&& BASE_SELECTABLED = 0 then { b with flag := flag_clear b.flag BASE_SELECTED }
        else b) }

/-- `object_base_add`: returns the layer and the base pointer. -/
def object_base_add (alloc : List Nat → Nat) (sl : SceneLayer) (ob : Nat) : SceneLayer × Nat :=
  match BKE_scene_layer_base_find sl ob with
  | some base =>
    ({ sl with object_bases :=
        base_update base.addr (fun b => { b with refcount := b.refcount + 1 }) sl.object_bases },
     base.addr)
  | none =>
    let a := alloc (sl.object_bases.map (fun b => b.addr))
    let bases := sl.object_bases ++ [{ addr := a, object := ob, flag := 0, refcount := 0 }]
    ({ sl with object_bases :=
        base_update a (fun b => { b with refcount := b.refcount + 1 }) bases }, a)

mutual
/-- `layer_collection_free` with a SceneLayer: the unref of every link of the subtree, in
the order the code visits them.  The lists it frees are dropped by the caller's
`LayerCollection.freed`. -/
def layer_collection_free : LayerCollection → SceneLayer → SceneLayer
  | .mk _ _ links children, sl =>
    layer_collections_free children (links.foldl scene_layer_object_base_unref sl)
/-- The loop over the child nodes in `layer_collection_free`. -/
def layer_collections_free : List LayerCollection → SceneLayer → SceneLayer
  | [], sl => sl
  | nlc :: rest, sl => layer_collections_free rest (layer_collection_free nlc sl)
end

/-- `BKE_layer_collection_free(sl, lc)`: unref of the links of the subtree, after which the
node is left with no links and no children.  A pointer to no node is outside the
precondition and leaves the layer as it is. -/
def BKE_layer_collection_free (sl : SceneLayer) (lc : List Nat) : SceneLayer :=
  match forest_get sl.layer_collections lc with
  | none => sl
  | some node =>
    let sl1 := layer_collection_free node sl
    { sl1 with
      layer_collections := forest_modify LayerCollection.freed sl1.layer_collections lc }

/-! ## Flattened pre-order index -/

mutual
/-- `collection_from_index`: `here` is the owner of the list `lb`, `k` the position of its
first remaining node; returns the node pointer and the final `*i`. -/
def collection_from_index (number : Int) :
    List LayerCollection → List Nat → Nat → Int → Option (List Nat) × Int
  | [], _, _, i => (none, i)
  | lc :: rest, here, k, i =>
    if i = number then (some (here ++ [k]), i)
    else
      let r := collection_from_index_nested number lc (here ++ [k]) (i + 1)
      match r.1 with
      | some p => (some p, r.2)
      | none => collection_from_index number rest here (k + 1) r.2
/-- The nested call of `collection_from_index` on `&lc->layer_collections`. -/
def collection_from_index_nested (number : Int) :
    LayerCollection → List Nat → Int → Option (List Nat) × Int
  | .mk _ _ _ cs, here, i => collection_from_index number cs here 0 i
end

/-- `BKE_layer_collection_active`. -/
def BKE_layer_collection_active (sl : SceneLayer) : Option (List Nat) :=
  (collection_from_index sl.active_collection sl.layer_collections [] 0 0).1

mutual
/-- `collection_count`. -/
def collection_count : List LayerCollection → Int
  | [] => 0
  | lc :: rest => (collection_count_nested lc + 1) + collection_count rest
/-- The nested call of `collection_count` on `&lc->layer_collections`. -/
def collection_count_nested : LayerCollection → Int
  | .mk _ _ _ cs => collection_count cs
end

/-- `BKE_layer_collection_count`. -/
def BKE_layer_collection_count (sl : SceneLayer) : Int :=
  collection_count sl.layer_collections

mutual
/-- `index_from_collection`: `lcol == lc` compares the pointer of the node at position
`k` of the list owned by `here` with `lc`; returns the result and the final `*i`. -/
def index_from_collection (lc : List Nat) :
    List LayerCollection → List Nat → Nat → Int → Int × Int
  | [], _, _, i => (-1, i)
  | lcol :: rest, here, k, i =>
    if here ++ [k] = lc then (i, i)
    else
      let r := index_from_collection_nested lc lcol (here ++ [k]) (i + 1)
      if r.1 ≠ -1 then r else index_from_collection lc rest here (k + 1) r.2
/-- The nested call of `index_from_collection` on `&lcol->layer_collections`. -/
def index_from_collection_nested (lc : List Nat) :
    LayerCollection → List Nat → Int → Int × Int
  | .mk _ _ _ cs, here, i => index_from_collection lc cs here 0 i
end

/-- `BKE_layer_collection_findindex`. -/
def BKE_layer_collection_findindex (sl : SceneLayer) (lc : List Nat) : Int :=
  (index_from_collection lc sl.layer_collections [] 0 0).1

/-! ## Building and removing nodes -/

/-- `layer_collection_object_add`. -/
def layer_collection_object_add (alloc : List Nat → Nat) (sl : SceneLayer) (lc : List Nat)
    (ob : Nat) : SceneLayer :=
  let r := object_base_add alloc sl ob
  let links :=
    match forest_get r.1.layer_collections lc with
    | some n => n.object_bases
    | none => []
  if r.2 ∈ links then r.1
  else
    let sl2 := BKE_scene_layer_base_flag_recalculate r.1
    { sl2 with
      layer_collections := forest_modify (LayerCollection.appendLink r.2) sl2.layer_collections lc }

/-- `layer_collection_object_remove`; an object without a base is outside the
precondition and leaves the layer as it is. -/
def layer_collection_object_remove (sl : SceneLayer) (lc : List Nat) (ob : Nat) : SceneLayer :=
  match BKE_scene_layer_base_find sl ob with
  | none => sl
  | some base =>
    scene_layer_object_base_unref
      { sl with
        layer_collections :=
          forest_modify (LayerCollection.removeLink base.addr) sl.layer_collections lc }
      base.addr

/-- `layer_collection_objects_populate`. -/
def layer_collection_objects_populate (alloc : List Nat → Nat) (sl : SceneLayer)
    (lc : List Nat) (objects : List Nat) : SceneLayer :=
  objects.foldl (fun s ob => layer_collection_object_add alloc s lc ob) sl

mutual
/-- `layer_collection_add` with the body of `layer_collection_populate` in place; returns
the layer and the pointer to the new node. -/
def layer_collection_add (alloc : List Nat → Nat) :
    SceneCollection → SceneLayer → List Nat → SceneLayer × List Nat
  | .mk id objects filter_objects children, sl, lb =>
    let lc := lb ++ [forest_listlen sl.layer_collections lb]
    let sl1 : SceneLayer :=
      { sl with
        layer_collections := forest_addtail sl.layer_collections lb
          (.mk id (COLLECTION_VISIBLE + COLLECTION_SELECTABLE + COLLECTION_FOLDED) [] []) }
    let sl2 := layer_collection_objects_populate alloc sl1 lc objects
    let sl3 := layer_collection_objects_populate alloc sl2 lc filter_objects
    (layer_collection_add_children alloc children sl3 lc, lc)
/-- The loop of `layer_collection_populate` over `sc->scene_collections`. -/
def layer_collection_add_children (alloc : List Nat → Nat) :
    List SceneCollection → SceneLayer → List Nat → SceneLayer
  | [], sl, _ => sl
  | nsc :: rest, sl, lc =>
    layer_collection_add_children alloc rest (layer_collection_add alloc nsc sl lc).1 lc
end

/-- `layer_collection_populate`. -/
def layer_collection_populate (alloc : List Nat → Nat) (sl : SceneLayer) (lc : List Nat)
    (sc : SceneCollection) : SceneLayer :=
  let sl2 := layer_collection_objects_populate alloc sl lc sc.objects
  let sl3 := layer_collection_objects_populate alloc sl2 lc sc.filter_objects
  layer_collection_add_children alloc sc.scene_collections sl3 lc

/-- `BKE_collection_link`. -/
def BKE_collection_link (alloc : List Nat → Nat) (sl : SceneLayer) (sc : SceneCollection) :
    SceneLayer × List Nat :=
  let r := layer_collection_add alloc sc sl []
  ({ r.1 with active_collection := BKE_layer_collection_findindex r.1 r.2 }, r.2)

/-- `BKE_collection_unlink`; `lc` is a root of the forest (`BLI_remlink` on the root list). -/
def BKE_collection_unlink (sl : SceneLayer) (lc : List Nat) : SceneLayer :=
  let sl1 := BKE_layer_collection_free sl lc
  let sl2 := BKE_scene_layer_base_flag_recalculate sl1
  { sl2 with
    layer_collections :=
      match lc with
      | [i] => sl2.layer_collections.eraseIdx i
      | _ => sl2.layer_collections
    active_collection := 0 }

/-! ## Scene layers of a scene -/

/-- `BKE_scene_layer_add`: returns the scene and the pointer to the new layer. -/
def BKE_scene_layer_add (alloc : List Nat → Nat) (scene : Scene) : Scene × Nat :=
  let a := alloc (scene.render_layers.map (fun l => l.addr))
  let sl : SceneLayer :=
    { addr := a, flag := 0 ||| SCENE_LAYER_RENDER, layer_collections := [], object_bases := [],
      basact := none, active_collection := 0 }
  let sl1 := (layer_collection_add alloc scene.collection sl []).1
  ({ scene with render_layers := scene.render_layers ++ [sl1] }, a)

/-- `BLI_findindex` on `scene->render_layers`. -/
def BLI_findindex (layers : List SceneLayer) (sl : Nat) : Int :=
  match layers.findIdx? (fun l => l.addr == sl) with
  | some i => (i : Int)
  | none => -1

/-- `BKE_scene_layer_remove`: the result and the scene; the node tree notification of
`bmain` touches neither `render_layers` nor `active_layer`. -/
def BKE_scene_layer_remove (scene : Scene) (sl : Nat) : Bool × Scene :=
  let act := BLI_findindex scene.render_layers sl
  let first := scene.render_layers.head?.map (fun l => l.addr)
  let last := scene.render_layers.getLast?.map (fun l => l.addr)
  if act = -1 then (false, scene)
  else if first = last ∧ first = some sl then (false, scene)
  else
    (true,
     { scene with
       render_layers := scene.render_layers.eraseP (fun l => l.addr == sl)
       active_layer := 0 })

/-! ## Syncing -/

mutual
/-- `find_layer_collection_by_scene_collection`: the pointer to the found node, relative
to `lc`. -/
def find_layer_collection_by_scene_collection : LayerCollection → Nat → Option (List Nat)
  | .mk s _ _ cs, sc => if s = sc then some [] else find_in_layer_collections cs sc 0
/-- The loop of `find_layer_collection_by_scene_collection` over the child nodes, `k` being
the position of the first remaining one. -/
def find_in_layer_collections : List LayerCollection → Nat → Nat → Option (List Nat)
  | [], _, _ => none
  | nlc :: rest, sc, k =>
    match find_layer_collection_by_scene_collection nlc sc with
    | some p => some (k :: p)
    | none => find_in_layer_collections rest sc (k + 1)
end

/-- `BKE_scene_layer_has_collection`. -/
def BKE_scene_layer_has_collection (sl : SceneLayer) (sc : Nat) : Bool :=
  sl.layer_collections.any (fun lc => (find_layer_collection_by_scene_collection lc sc).isSome)

/-- `BKE_scene_has_object`. -/
def BKE_scene_has_object (scene : Scene) (ob : Nat) : Bool :=
  scene.render_layers.any (fun sl => (BKE_scene_layer_base_find sl ob).isSome)

/-- One round of the loop `for (lc = sl->layer_collections.first; lc; lc = lc->next)` of
the three sync functions: the root at position `i`, read from the layer as it is then, is
searched for `sc` and `body` runs on the node found. -/
def sync_round (sc : Nat) (body : SceneLayer → List Nat → SceneLayer) (s : SceneLayer)
    (i : Nat) : SceneLayer :=
  match s.layer_collections[i]? with
  | none => s
  | some lc =>
    match find_layer_collection_by_scene_collection lc sc with
    | none => s
    | some p => body s (i :: p)

/-- The loop over the roots of the three sync functions.  The bodies change no root list,
so the roots are visited by position. -/
def sync_layer_collections (sc : Nat) (body : SceneLayer → List Nat → SceneLayer)
    (sl : SceneLayer) : SceneLayer :=
  (List.range sl.layer_collections.length).foldl (sync_round sc body) sl

/-- `BKE_layer_sync_new_scene_collection`. -/
def BKE_layer_sync_new_scene_collection (alloc : List Nat → Nat) (scene : Scene)
    (sc_parent : Nat) (sc : SceneCollection) : Scene :=
  { scene with
    render_layers := scene.render_layers.map
      (sync_layer_collections sc_parent
        (fun s lc_parent => (layer_collection_add alloc sc s lc_parent).1)) }

/-- `BKE_layer_sync_object_link`. -/
def BKE_layer_sync_object_link (alloc : List Nat → Nat) (scene : Scene) (sc : Nat)
    (ob : Nat) : Scene :=
  { scene with
    render_layers := scene.render_layers.map
      (sync_layer_collections sc (fun s found => layer_collection_object_add alloc s found ob)) }

/-- `BKE_layer_sync_object_unlink`. -/
def BKE_layer_sync_object_unlink (scene : Scene) (sc : Nat) (ob : Nat) : Scene :=
  { scene with
    render_layers := scene.render_layers.map
      (fun sl =>
        BKE_scene_layer_base_flag_recalculate
          (sync_layer_collections sc (fun s found => layer_collection_object_remove s found ob)
            sl)) }

/-! ## Iterators -/

/-- What `iter->current` points to: nothing, an ObjectBase of the registry, or an Object. -/
inductive IterCurrent where
  | null
  | base (b : ObjectBase)
  | object (ob : Nat)
deriving DecidableEq, Repr

/-- The struct `Iterator`: `data` is the ObjectBase pointer kept for the traversal, given as
the registry from that base on (`[]` for no base). -/
structure Iterator where
  current : IterCurrent
  data : List ObjectBase
  valid : Bool
deriving DecidableEq, Repr

/-- The loop `while (base)` of `object_bases_Iterator_next`: the registry from the first
base on whose `flag & flag` is not zero, `[]` when the end is reached. -/
def object_bases_Iterator_scan (flag : Nat) : List ObjectBase → List ObjectBase
  | [] => []
  | base :: rest =>
    if base.flag &&& flag ≠ 0 then base :: rest else object_bases_Iterator_scan flag rest

/-- `object_bases_Iterator_next`. -/
def object_bases_Iterator_next (iter : Iterator) (flag : Nat) : Iterator :=
  match object_bases_Iterator_scan flag iter.data.tail with
  | base :: rest => { iter with current := .base base, data := base :: rest }
  | [] => { iter with current := .null, valid := false }

/-- `object_bases_Iterator_begin`. -/
def object_bases_Iterator_begin (iter : Iterator) (data_in : SceneLayer) (flag : Nat) :
    Iterator :=
  match data_in.object_bases with
  | [] => { iter with valid := false }
  | base :: rest =>
    let iter1 : Iterator := { iter with valid := true, data := base :: rest }
    if base.flag &&& flag = 0 then object_bases_Iterator_next iter1 flag
    else { iter1 with current := .base base }

/-- The assignment `iter->current = ((ObjectBase *)iter->current)->object`. -/
def iterator_current_object (iter : Iterator) : Iterator :=
  match iter.current with
  | .base b => { iter with current := .object b.object }
  | _ => iter

/-- `objects_Iterator_begin`. -/
def objects_Iterator_begin (iter : Iterator) (data_in : SceneLayer) (flag : Nat) : Iterator :=
  let iter1 := object_bases_Iterator_begin iter data_in flag
  if iter1.valid then iterator_current_object iter1 else iter1

/-- `objects_Iterator_next`. -/
def objects_Iterator_next (iter : Iterator) (flag : Nat) : Iterator :=
  let iter1 := object_bases_Iterator_next iter flag
  if iter1.valid then iterator_current_object iter1 else iter1

/-- `BKE_selected_objects_Iterator_begin`. -/
def BKE_selected_objects_Iterator_begin (iter : Iterator) (data_in : SceneLayer) : Iterator :=
  objects_Iterator_begin iter data_in BASE_SELECTED

/-- `BKE_selected_objects_Iterator_next`. -/
def BKE_selected_objects_Iterator_next (iter : Iterator) : Iterator :=
  objects_Iterator_next iter BASE_SELECTED

/-- `BKE_visible_objects_Iterator_begin`. -/
def BKE_visible_objects_Iterator_begin (iter : Iterator) (data_in : SceneLayer) : Iterator :=
  objects_Iterator_begin iter data_in BASE_VISIBLED

/-- `BKE_visible_objects_Iterator_next`. -/
def BKE_visible_objects_Iterator_next (iter : Iterator) : Iterator :=
  objects_Iterator_next iter BASE_VISIBLED

/-- `BKE_visible_bases_Iterator_begin`. -/
def BKE_visible_bases_Iterator_begin (iter : Iterator) (data_in : SceneLayer) : Iterator :=
  object_bases_Iterator_begin iter data_in BASE_VISIBLED

/-- `BKE_visible_bases_Iterator_next`. -/
def BKE_visible_bases_Iterator_next (iter : Iterator) : Iterator :=
  object_bases_Iterator_next iter BASE_VISIBLED

/-- An allocator handing out one more than the largest address in use. -/
def bump_alloc (used : List Nat) : Nat := used.foldl max 0 + 1

/-! ## Definitions used to state and prove the properties -/

/-- The forest as the child list of a node standing for the scene layer. -/
def forest_root (forest : List LayerCollection) : LayerCollection := .mk 0 0 [] forest

/-- What the link loop of one node does to a single base. -/
def links_write (links : List Nat) (v s : Bool) (b : ObjectBase) : ObjectBase :=
  links.foldl (fun x link => if x.addr = link then base_set_derived v s x else x) b

mutual
/-- What `layer_collection_base_flag_recalculate` does to a single base. -/
def tree_write : LayerCollection → Bool → Bool → ObjectBase → ObjectBase
  | .mk _ flag links children, tv, ts, b =>
    forest_write children (tv && (flag &&& COLLECTION_VISIBLE != 0))
      (ts && (tv && (flag &&& COLLECTION_VISIBLE != 0)) && (flag &&& COLLECTION_SELECTABLE != 0))
      (links_write links (tv && (flag &&& COLLECTION_VISIBLE != 0))
        (ts && (tv && (flag &&& COLLECTION_VISIBLE != 0)) && (flag &&& COLLECTION_SELECTABLE != 0)) b)
/-- What the recalculation of a list of nodes does to a single base. -/
def forest_write : List LayerCollection → Bool → Bool → ObjectBase → ObjectBase
  | [], _, _, b => b
  | c :: cs, v, s, b => forest_write cs v s (tree_write c v s b)
end

/-- The derived flags of a base are consistent: selectable only if visible. -/
def SelectableVisible (b : ObjectBase) : Prop :=
  b.flag &&& BASE_SELECTABLED ≠ 0 → b.flag &&& BASE_VISIBLED ≠ 0

mutual
/-- The tree under a node mirrors a scene collection: same collection at the node, and
the children mirror the child collections one to one, in order. -/
def mirrors : LayerCollection → SceneCollection → Bool
  | .mk s _ _ cs, sc => s == sc.id && mirrors_list cs sc.scene_collections
/-- The nodes of a list mirror the scene collections of a list, one to one, in order. -/
def mirrors_list : List LayerCollection → List SceneCollection → Bool
  | [], scs => scs.isEmpty
  | c :: cs, scs =>
    match scs with
    | [] => false
    | sc :: rest => mirrors c sc && mirrors_list cs rest
end

/-- The statement proved of `layer_collection_add` by induction over the scene collection. -/
def AddsMirror (alloc : List Nat → Nat) (sc : SceneCollection) : Prop :=
  ∀ (sl : SceneLayer) (lb : List Nat), ∃ t,
    (layer_collection_add alloc sc sl lb).1.layer_collections
      = forest_addtail sl.layer_collections lb t ∧ mirrors t sc = true

/-- Two bases that differ in their flags at most. -/
def SameBase (b b' : ObjectBase) : Prop :=
  b'.addr = b.addr ∧ b'.object = b.object ∧ b'.refcount = b.refcount

/-- What `BKE_scene_layer_base_flag_recalculate` does to a single base of a layer with the
given forest. -/
def recalculate_base (forest : List LayerCollection) (b : ObjectBase) : ObjectBase :=
  if (forest_write forest true true b).flag &&& BASE_SELECTABLED = 0 then
    { forest_write forest true true b with
      flag := flag_clear (forest_write forest true true b).flag BASE_SELECTED }
  else forest_write forest true true b

/-- Root `j` is the only root under which `find_layer_collection_by_scene_collection`
finds a node for `sc`. -/
def RootsShape (forest : List LayerCollection) (sc : Nat) (j : Nat) : Prop :=
  (∃ (t : LayerCollection) (p : List Nat), forest[j]? = some t ∧
    find_layer_collection_by_scene_collection t sc = some p) ∧
  ∀ (k : Nat) (lc : LayerCollection), k ≠ j → forest[k]? = some lc →
    find_layer_collection_by_scene_collection lc sc = none

mutual
/-- The nodes of a tree, in pre-order. -/
def tree_nodes : LayerCollection → List LayerCollection
  | .mk s fl ls cs => .mk s fl ls cs :: forest_nodes cs
/-- The nodes of a forest, in pre-order. -/
def forest_nodes : List LayerCollection → List LayerCollection
  | [] => []
  | c :: cs => tree_nodes c ++ forest_nodes cs
end

/-- Neither of the derived flags of a base is set. -/
def Hidden (b : ObjectBase) : Prop :=
  b.flag &&& BASE_VISIBLED = 0 ∧ b.flag &&& BASE_SELECTABLED = 0

mutual
/-- The pointers to the nodes of a tree whose root has the pointer `here`, in pre-order. -/
def tree_paths : LayerCollection → List Nat → List (List Nat)
  | .mk _ _ _ cs, here => here :: forest_paths cs here 0
/-- The pointers to the nodes under a list of nodes owned by `here`, the first of them at
position `k`, in pre-order. -/
def forest_paths : List LayerCollection → List Nat → Nat → List (List Nat)
  | [], _, _ => []
  | c :: cs, here, k => tree_paths c (here ++ [k]) ++ forest_paths cs here (k + 1)
end

/-- The position of the first occurrence of a pointer in a list of pointers, the length of
the list when there is none. -/
def path_index (lc : List Nat) : List (List Nat) → Nat
  | [] => 0
  | p :: ps => if p = lc then 0 else path_index lc ps + 1

/-- What `collection_from_index` returns, in terms of the pre-order list of pointers. -/
def FromIndexSpec (number : Int) (cs : List LayerCollection) : Prop :=
  ∀ (here : List Nat) (k : Nat) (i : Int),
    ((number < i ∨ i + (forest_paths cs here k).length ≤ number) →
      collection_from_index number cs here k i
        = (none, i + (forest_paths cs here k).length)) ∧
    (∀ j : Nat, number = i + j → j < (forest_paths cs here k).length →
      collection_from_index number cs here k i = ((forest_paths cs here k)[j]?, number))

/-- What `index_from_collection` returns, in terms of the pre-order list of pointers. -/
def IndexOfSpec (lc : List Nat) (cs : List LayerCollection) : Prop :=
  ∀ (here : List Nat) (k : Nat) (i : Int), 0 ≤ i →
    (lc ∉ forest_paths cs here k →
      index_from_collection lc cs here k i = (-1, i + (forest_paths cs here k).length)) ∧
    (lc ∈ forest_paths cs here k →
      index_from_collection lc cs here k i
        = (i + path_index lc (forest_paths cs here k),
           i + path_index lc (forest_paths cs here k)))

/-- The pre-order list of pointers holds exactly the pointers to nodes. -/
def PathsSpec (cs : List LayerCollection) : Prop :=
  ∀ (here : List Nat) (k : Nat) (p : List Nat),
    p ∈ forest_paths cs here k ↔
      ∃ (j : Nat) (c : LayerCollection) (q : List Nat),
        p = here ++ (k + j) :: q ∧ cs[j]? = some c ∧ (c.get q).isSome = true

/-- The values of `iter->current` seen by a loop that starts from `iter` and calls `next`
while `iter->valid`, at most `fuel` of them. -/
def iterator_sequence (next : Iterator → Iterator) : Nat → Iterator → List IterCurrent
  | 0, _ => []
  | fuel + 1, iter =>
    if iter.valid then iter.current :: iterator_sequence next fuel (next iter) else []

/-- What becomes of a base when the links `links` are unreferenced one by one: its refcount
is lowered by the number of links to it, and it is gone when that brings it to 0. -/
def base_after_unlink (links : List Nat) (b : ObjectBase) : Option ObjectBase :=
  if 0 < links.count b.addr ∧ b.refcount = (links.count b.addr : Int) then none
  else some { b with refcount := b.refcount - (links.count b.addr : Int) }

/-- The write of the last pass of the recalculation: `base->flag &= ~BASE_SELECTED`. -/
def clear_selected (b : ObjectBase) : ObjectBase :=
  { b with flag := flag_clear b.flag BASE_SELECTED }

/-- Two bases that any write of the link loop makes equal. -/
def WriteAlike (b b' : ObjectBase) : Prop :=
  ∀ v s, base_set_derived v s b = base_set_derived v s b'

/-- A function on bases that behaves as a sequence of link loop writes to one base: bases
that a write makes equal come out equal or both untouched, the result is made equal to the
argument by any further write, clearing `BASE_SELECTED` commutes with it, and bits other
than the two derived ones are kept. -/
structure FlagWrite (f : ObjectBase → ObjectBase) : Prop where
  alike : ∀ b b', WriteAlike b b' → f b = f b' ∨ (f b = b ∧ f b' = b')
  absorbed : ∀ b, WriteAlike b (f b)
  clear_comm : ∀ b, f (clear_selected b) = clear_selected (f b)
  other : ∀ b k, BASE_VISIBLED &&& k = 0 → BASE_SELECTABLED &&& k = 0 →
    (f b).flag &&& k = b.flag &&& k

mutual
/-- The nodes of a tree whose root has the pointer `here`, each with its pointer, in
pre-order: a node before its children, the children in list order. -/
def tree_entries : LayerCollection → List Nat → List (List Nat × LayerCollection)
  | .mk s f ls cs, here => (here, .mk s f ls cs) :: forest_entries cs here 0
/-- The nodes under a list of nodes owned by `here`, the first of them at position `k`, each
with its pointer, in pre-order. -/
def forest_entries :
    List LayerCollection → List Nat → Nat → List (List Nat × LayerCollection)
  | [], _, _ => []
  | c :: cs, here, k => tree_entries c (here ++ [k]) ++ forest_entries cs here (k + 1)
end

/-- The last node, in the order of `entries`, that holds a link to the base at `a`. -/
def last_link (a : Nat) (entries : List (List Nat × LayerCollection)) :
    Option (List Nat × LayerCollection) :=
  (entries.filter (fun e => decide (a ∈ e.2.object_bases))).getLast?

/-- Every node on the way from `t` down to the node the pointer designates, both included,
satisfies `pred`. -/
def tree_path_all (pred : LayerCollection → Bool) : LayerCollection → List Nat → Bool
  | t, [] => pred t
  | .mk s f ls cs, i :: q =>
    pred (.mk s f ls cs) &&
      (match cs[i]? with
       | none => false
       | some c => tree_path_all pred c q)

/-- Every node on the way from a root of the forest down to the node the pointer designates
satisfies `pred`. -/
def forest_path_all (pred : LayerCollection → Bool) (forest : List LayerCollection) :
    List Nat → Bool
  | [] => false
  | i :: q =>
    match forest[i]? with
    | none => false
    | some t => tree_path_all pred t q

/-- Each entry of the pre-order list pairs a pointer with the node it designates. -/
def EntriesSpec (cs : List LayerCollection) : Prop :=
  ∀ (here : List Nat) (k : Nat) (e : List Nat × LayerCollection),
    e ∈ forest_entries cs here k →
      ∃ (j : Nat) (c : LayerCollection) (q : List Nat),
        e.1 = here ++ (k + j) :: q ∧ cs[j]? = some c ∧ c.get q = some e.2

/-- What the search over a list of nodes returns, against the pre-order list of nodes. -/
def FindFirstSpec (sc : Nat) (cs : List LayerCollection) : Prop :=
  ∀ (here : List Nat) (k : Nat),
    (find_in_layer_collections cs sc k).map (fun p => here ++ p)
      = ((forest_entries cs here k).find? (fun e => e.2.scene_collection == sc)).map Prod.fst

/-- The node has `COLLECTION_VISIBLE`. -/
def collection_visible (m : LayerCollection) : Bool := m.flag &&& COLLECTION_VISIBLE != 0

/-- The node has both `COLLECTION_VISIBLE` and `COLLECTION_SELECTABLE`. -/
def collection_visible_selectable (m : LayerCollection) : Bool :=
  (m.flag &&& COLLECTION_VISIBLE != 0) && (m.flag &&& COLLECTION_SELECTABLE != 0)

/-- The two derived flags of a base are as the booleans say. -/
def DerivedAs (b : ObjectBase) (v s : Bool) : Prop :=
  (b.flag &&& BASE_VISIBLED ≠ 0 ↔ v = true) ∧ (b.flag &&& BASE_SELECTABLED ≠ 0 ↔ s = true)

/-- What the recalculation of a list of nodes leaves in the derived flags of a base, against
the last node in pre-order that links it. -/
def ForestLastSpec (cs : List LayerCollection) : Prop :=
  ∀ (here : List Nat) (k : Nat) (v s : Bool) (b : ObjectBase) (e : List Nat × LayerCollection),
    last_link b.addr (forest_entries cs here k) = some e →
      ∃ (j : Nat) (c : LayerCollection) (q : List Nat),
        e.1 = here ++ (k + j) :: q ∧ cs[j]? = some c ∧ c.get q = some e.2 ∧
        DerivedAs (forest_write cs v s b) (v && tree_path_all collection_visible c q)
          (s && v && tree_path_all collection_visible_selectable c q)

/-- No two bases of the registry reference the same object. -/
def RegistryUnique (sl : SceneLayer) : Prop :=
  (sl.object_bases.map (fun b => b.object)).Nodup

/-- The layers of a scene after an operation `f` on the layer at position `i`. -/
def layer_update (f : SceneLayer → SceneLayer) : List SceneLayer → Nat → List SceneLayer
  | [], _ => []
  | sl :: rest, 0 => f sl :: rest
  | sl :: rest, i + 1 => sl :: layer_update f rest i

/-- The scenes reachable from a scene without layers by `BKE_scene_layer_add`,
`BKE_collection_link` and `BKE_collection_unlink` on one of the layers, and the three sync
functions; the collection tree of the scene is edited by code outside this file, so it may
change between the calls. -/
inductive Reachable (alloc : List Nat → Nat) : Scene → Prop
  | start (scene : Scene) : scene.render_layers = [] → Reachable alloc scene
  | collection (scene : Scene) (c : SceneCollection) :
      Reachable alloc scene → Reachable alloc { scene with collection := c }
  | layer_add (scene : Scene) :
      Reachable alloc scene → Reachable alloc (BKE_scene_layer_add alloc scene).1
  | link (scene : Scene) (i : Nat) (sc : SceneCollection) :
      Reachable alloc scene →
      Reachable alloc
        { scene with
          render_layers :=
            layer_update (fun sl => (BKE_collection_link alloc sl sc).1) scene.render_layers i }
  | unlink (scene : Scene) (i : Nat) (lc : List Nat) :
      Reachable alloc scene →
      Reachable alloc
        { scene with
          render_layers :=
            layer_update (fun sl => BKE_collection_unlink sl lc) scene.render_layers i }
  | sync_new (scene : Scene) (sc_parent : Nat) (sc : SceneCollection) :
      Reachable alloc scene →
      Reachable alloc (BKE_layer_sync_new_scene_collection alloc scene sc_parent sc)
  | sync_link (scene : Scene) (sc ob : Nat) :
      Reachable alloc scene → Reachable alloc (BKE_layer_sync_object_link alloc scene sc ob)
  | sync_unlink (scene : Scene) (sc ob : Nat) :
      Reachable alloc scene → Reachable alloc (BKE_layer_sync_object_unlink scene sc ob)

/-- The object referenced by the base at address `a`. -/
def base_object (bases : List ObjectBase) (a : Nat) : Option Nat :=
  (bases.find? (fun b => b.addr == a)).map (fun b => b.object)

/-- The distinct elements of a list, in the order of their first occurrence. -/
def first_occurrences : List Nat → List Nat
  | [] => []
  | x :: xs => x :: (first_occurrences xs).filter (fun y => y != x)

/-- The bases of the registry are distinct memory blocks and no two of them reference the
same object. -/
def RegistryWellFormed (bases : List ObjectBase) : Prop :=
  (bases.map (fun b => b.addr)).Nodup ∧ (bases.map (fun b => b.object)).Nodup

/-- Every base of the first registry is in the second one, at the same address and with
the same object. -/
def RegistryExtends (bases bases' : List ObjectBase) : Prop :=
  ∀ a o, base_object bases a = some o → base_object bases' a = some o

/-- The list `lb` a node is added to is the root list or the child list of a node. -/
def ValidList (forest : List LayerCollection) (lb : List Nat) : Prop :=
  lb = [] ∨ (forest_get forest lb).isSome = true

/-- The objects seen by the loop of `layer_collection_objects_populate` after one more. -/
def seen_step (seen : List Nat) (ob : Nat) : List Nat :=
  if ob ∈ seen then seen else seen ++ [ob]

mutual
/-- The tree under a node mirrors a scene collection, flags and links included: same
collection at the node, flag `COLLECTION_VISIBLE | COLLECTION_SELECTABLE | COLLECTION_FOLDED`,
the links reference the distinct objects of `objects` followed by `filter_objects` in the
order of their first occurrence, and the children mirror the child collections one to one,
in order. -/
def mirrors_links (bases : List ObjectBase) : LayerCollection → SceneCollection → Bool
  | .mk s f ls cs, sc =>
    s == sc.id &&
    f == (COLLECTION_VISIBLE ||| COLLECTION_SELECTABLE ||| COLLECTION_FOLDED) &&
    (ls.map (base_object bases) == (first_occurrences (sc.objects ++ sc.filter_objects)).map some) &&
    mirrors_links_list bases cs sc.scene_collections
/-- The nodes of a list mirror the scene collections of a list, flags and links included. -/
def mirrors_links_list (bases : List ObjectBase) :
    List LayerCollection → List SceneCollection → Bool
  | [], scs => scs.isEmpty
  | c :: cs, scs =>
    match scs with
    | [] => false
    | sc :: rest => mirrors_links bases c sc && mirrors_links_list bases cs rest
end

/-- The statement proved of `layer_collection_add` by induction over the scene collection,
for a heap in which `alloc` returns a block not in use. -/
def AddsMirrorLinks (alloc : List Nat → Nat) (sc : SceneCollection) : Prop :=
  ∀ (sl : SceneLayer) (lb : List Nat), ValidList sl.layer_collections lb →
    RegistryWellFormed sl.object_bases →
    ∃ t, (layer_collection_add alloc sc sl lb).1.layer_collections
          = forest_addtail sl.layer_collections lb t ∧
      RegistryWellFormed (layer_collection_add alloc sc sl lb).1.object_bases ∧
      RegistryExtends sl.object_bases (layer_collection_add alloc sc sl lb).1.object_bases ∧
      mirrors_links (layer_collection_add alloc sc sl lb).1.object_bases t sc = true

/-! ## Concrete states -/

/-- A layer with a root for collection 10 linking base 1 and a child for collection 11
linking base 2; base 3 is in the registry without a link. -/
def demo_layer : SceneLayer :=
  { addr := 1, flag := 1,
    layer_collections := [.mk 10 7 [1] [.mk 11 7 [2] []]],
    object_bases := [⟨1, 101, 7, 1⟩, ⟨2, 102, 0, 1⟩, ⟨3, 103, 5, 1⟩],
    basact := none, active_collection := 0 }

/-- A second layer, with a single root for collection 12. -/
def demo_layer_other : SceneLayer :=
  { addr := 2, flag := 1,
    layer_collections := [.mk 12 7 [1] []],
    object_bases := [⟨1, 101, 6, 1⟩],
    basact := none, active_collection := 0 }

/-- A scene with the two layers above. -/
def demo_scene : Scene :=
  { render_layers := [demo_layer, demo_layer_other], active_layer := 0,
    collection := .mk 10 [101] [] [.mk 11 [102] [] []] }

/-- A scene with one layer only. -/
def demo_scene_single : Scene :=
  { render_layers := [demo_layer], active_layer := 0, collection := .mk 10 [] [] [] }

/-- A scene without layers whose master collection has object 101 both in `objects` and in
`filter_objects`. -/
def demo_scene_filter : Scene :=
  { render_layers := [], active_layer := 0, collection := .mk 10 [101] [101] [] }

/-- A scene without layers whose master collection directly holds the objects 101 and 102. -/
def demo_scene_two : Scene :=
  { render_layers := [], active_layer := 0, collection := .mk 10 [101, 102] [] [] }

/-- A layer with no collection and no base. -/
def demo_layer_empty : SceneLayer :=
  { addr := 1, flag := 1, layer_collections := [], object_bases := [], basact := none,
    active_collection := 0 }

/-- An iterator before `begin`. -/
def demo_iterator : Iterator := { current := .null, data := [], valid := false }

/-- A layer whose only root has two child nodes that both mirror collection 11. -/
def demo_layer_twice : SceneLayer :=
  { addr := 4, flag := 1,
    layer_collections := [.mk 10 7 [] [.mk 11 7 [] [], .mk 11 7 [] []]],
    object_bases := [], basact := none, active_collection := 0 }

/-- A scene with the layer above only. -/
def demo_scene_twice : Scene :=
  { render_layers := [demo_layer_twice], active_layer := 0,
    collection := .mk 10 [] [] [.mk 11 [] [] []] }

/-- A layer whose only root is not visible; base 3 is in the registry without a link. -/
def demo_layer_hidden : SceneLayer :=
  { addr := 3, flag := 1,
    layer_collections := [.mk 10 6 [1] [.mk 11 7 [2] []]],
    object_bases := [⟨1, 101, 7, 1⟩, ⟨2, 102, 7, 1⟩, ⟨3, 103, 7, 1⟩],
    basact := none, active_collection := 0 }

/-- A layer with one root for collection 10 that links nothing yet, and an empty registry. -/
def demo_layer_bare : SceneLayer :=
  { addr := 5, flag := 1, layer_collections := [.mk 10 7 [] []], object_bases := [],
    basact := none, active_collection := 0 }

/-- A scene with the layer above only. -/
def demo_scene_bare : Scene :=
  { render_layers := [demo_layer_bare], active_layer := 0, collection := .mk 10 [] [] [] }

/-- A scene collection that lists 102 twice, once among its filter objects, and has a
child collection that lists 101 again. -/
def demo_collection_repeats : SceneCollection :=
  .mk 10 [101, 102] [102, 103] [.mk 11 [101] [] []]

/-! ## Bit sets, induction principles and flag recalculation -/

theorem flag_clear_and_self (f m : Nat) : flag_clear f m &&& m = 0 := by
  apply Nat.eq_of_testBit_eq
  intro i
  simp only [flag_clear, Nat.testBit_and, Nat.testBit_xor, Nat.zero_testBit]
  cases f.testBit i <;> cases m.testBit i <;> rfl

theorem flag_clear_and_other (f m k : Nat) (h : m &&& k = 0) : flag_clear f m &&& k = f &&& k := by
  apply Nat.eq_of_testBit_eq
  intro i
  have hi : (m &&& k).testBit i = false := by rw [h]; exact Nat.zero_testBit i
  simp only [flag_clear, Nat.testBit_and, Nat.testBit_xor] at hi ⊢
  revert hi
  cases f.testBit i <;> cases m.testBit i <;> cases k.testBit i <;> simp

theorem flag_or_and_self (f m : Nat) : (f ||| m) &&& m = m := by
  apply Nat.eq_of_testBit_eq
  intro i
  simp only [Nat.testBit_and, Nat.testBit_or]
  cases f.testBit i <;> cases m.testBit i <;> rfl

theorem flag_or_and_other (f m k : Nat) (h : m &&& k = 0) : (f ||| m) &&& k = f &&& k := by
  apply Nat.eq_of_testBit_eq
  intro i
  have hi : (m &&& k).testBit i = false := by rw [h]; exact Nat.zero_testBit i
  simp only [Nat.testBit_and, Nat.testBit_or] at hi ⊢
  revert hi
  cases f.testBit i <;> cases m.testBit i <;> cases k.testBit i <;> simp

/-- Induction over a layer collection tree with the hypothesis for every child. -/
theorem layer_collection_induct {P : LayerCollection → Prop}
    (h : ∀ s f ls cs, (∀ c ∈ cs, P c) → P (.mk s f ls cs)) : ∀ t, P t := by
  intro t
  refine LayerCollection.rec (motive_1 := P) (motive_2 := fun cs => ∀ c ∈ cs, P c)
    (fun s f ls cs ih => h s f ls cs ih) ?_ ?_ t
  · intro c hc; cases hc
  · intro hd tl h1 h2 c hc
    rcases List.mem_cons.mp hc with rfl | hc
    · exact h1
    · exact h2 c hc

/-- Induction over a scene collection tree with the hypothesis for every child. -/
theorem scene_collection_induct {P : SceneCollection → Prop}
    (h : ∀ i o f cs, (∀ c ∈ cs, P c) → P (.mk i o f cs)) : ∀ t, P t := by
  intro t
  refine SceneCollection.rec (motive_1 := P) (motive_2 := fun cs => ∀ c ∈ cs, P c)
    (fun i o f cs ih => h i o f cs ih) ?_ ?_ t
  · intro c hc; cases hc
  · intro hd tl h1 h2 c hc
    rcases List.mem_cons.mp hc with rfl | hc
    · exact h1
    · exact h2 c hc

theorem links_loop_eq_map (links : List Nat) (v s : Bool) (bases : List ObjectBase) :
    links.foldl (fun bs link => base_update link (base_set_derived v s) bs) bases
      = bases.map (links_write links v s) := by
  induction links generalizing bases with
  | nil =>
    have : links_write [] v s = fun b => b := rfl
    simp [this]
  | cons l ls ih =>
    rw [List.foldl_cons, ih, base_update, List.map_map]
    rfl

theorem forest_recalculate_eq_of_tree (cs : List LayerCollection)
    (ih : ∀ c ∈ cs, ∀ v s bases,
      layer_collection_base_flag_recalculate c v s bases = bases.map (tree_write c v s))
    (v s : Bool) (bases : List ObjectBase) :
    layer_collections_base_flag_recalculate cs v s bases = bases.map (forest_write cs v s) := by
  induction cs generalizing bases with
  | nil => simp [layer_collections_base_flag_recalculate, forest_write]
  | cons c cs ihc =>
    rw [layer_collections_base_flag_recalculate, ih c (List.mem_cons_self _ _),
      ihc (fun c hc => ih c (List.mem_cons_of_mem _ hc)), List.map_map]
    rfl

theorem tree_recalculate_eq_map (lc : LayerCollection) :
    ∀ v s bases,
      layer_collection_base_flag_recalculate lc v s bases = bases.map (tree_write lc v s) := by
  induction lc using layer_collection_induct with
  | h sc f ls cs ih =>
    intro v s bases
    rw [layer_collection_base_flag_recalculate]
    simp only [links_loop_eq_map]
    rw [forest_recalculate_eq_of_tree cs ih, List.map_map]
    rfl

theorem forest_recalculate_eq_map (cs : List LayerCollection) (v s : Bool)
    (bases : List ObjectBase) :
    layer_collections_base_flag_recalculate cs v s bases = bases.map (forest_write cs v s) :=
  forest_recalculate_eq_of_tree cs (fun c _ => tree_recalculate_eq_map c) v s bases

theorem base_set_derived_addr (v s : Bool) (b : ObjectBase) :
    (base_set_derived v s b).addr = b.addr := rfl

theorem base_set_derived_consistent (v s : Bool) (h : s = true → v = true) (b : ObjectBase) :
    SelectableVisible (base_set_derived v s b) := by
  intro hs
  cases s with
  | false =>
    exfalso
    apply hs
    simp only [base_set_derived, Bool.false_eq_true, if_false]
    exact flag_clear_and_self _ _
  | true =>
    have hv : v = true := h rfl
    subst hv
    simp only [base_set_derived, if_true]
    rw [flag_or_and_other _ _ _ (by decide), flag_or_and_self]
    decide

theorem links_write_addr (links : List Nat) (v s : Bool) (b : ObjectBase) :
    (links_write links v s b).addr = b.addr := by
  induction links generalizing b with
  | nil => rfl
  | cons l ls ih =>
    rw [links_write, List.foldl_cons]
    have := ih (if b.addr = l then base_set_derived v s b else b)
    rw [links_write] at this
    rw [this]
    split <;> rfl

theorem links_write_consistent (links : List Nat) (v s : Bool) (h : s = true → v = true)
    (b : ObjectBase) (hb : SelectableVisible b ∨ b.addr ∈ links) :
    SelectableVisible (links_write links v s b) := by
  induction links generalizing b with
  | nil =>
    rcases hb with hb | hb
    · exact hb
    · cases hb
  | cons l ls ih =>
    rw [links_write, List.foldl_cons]
    apply ih
    by_cases hl : b.addr = l
    · rw [if_pos hl]
      exact Or.inl (base_set_derived_consistent v s h b)
    · rw [if_neg hl]
      rcases hb with hb | hb
      · exact Or.inl hb
      · rcases List.mem_cons.mp hb with hb | hb
        · exact absurd hb hl
        · exact Or.inr hb

theorem forest_write_addr_of_tree (cs : List LayerCollection)
    (ih : ∀ c ∈ cs, ∀ v s b, (tree_write c v s b).addr = b.addr) (v s : Bool) (b : ObjectBase) :
    (forest_write cs v s b).addr = b.addr := by
  induction cs generalizing b with
  | nil => rfl
  | cons c cs ihc =>
    rw [forest_write, ihc (fun c hc => ih c (List.mem_cons_of_mem _ hc)),
      ih c (List.mem_cons_self _ _)]

theorem tree_write_addr (lc : LayerCollection) :
    ∀ v s b, (tree_write lc v s b).addr = b.addr := by
  induction lc using layer_collection_induct with
  | h sc f ls cs ih =>
    intro v s b
    rw [tree_write, forest_write_addr_of_tree cs ih, links_write_addr]

theorem forest_write_addr (cs : List LayerCollection) (v s : Bool) (b : ObjectBase) :
    (forest_write cs v s b).addr = b.addr :=
  forest_write_addr_of_tree cs (fun c _ => tree_write_addr c) v s b

theorem forest_write_consistent_of_tree (cs : List LayerCollection)
    (ih : ∀ c ∈ cs, ∀ v s, (s = true → v = true) → ∀ b,
      SelectableVisible b ∨ b.addr ∈ tree_links c → SelectableVisible (tree_write c v s b))
    (v s : Bool) (h : s = true → v = true) (b : ObjectBase)
    (hb : SelectableVisible b ∨ b.addr ∈ forest_links cs) :
    SelectableVisible (forest_write cs v s b) := by
  induction cs generalizing b with
  | nil =>
    rcases hb with hb | hb
    · exact hb
    · simp [forest_links] at hb
  | cons c cs ihc =>
    rw [forest_write]
    apply ihc (fun c hc => ih c (List.mem_cons_of_mem _ hc))
    rw [tree_write_addr]
    rcases hb with hb | hb
    · exact Or.inl (ih c (List.mem_cons_self _ _) v s h b (Or.inl hb))
    · rw [forest_links, List.mem_append] at hb
      rcases hb with hb | hb
      · exact Or.inl (ih c (List.mem_cons_self _ _) v s h b (Or.inr hb))
      · exact Or.inr hb

theorem tree_write_consistent (lc : LayerCollection) :
    ∀ v s, (s = true → v = true) → ∀ b,
      SelectableVisible b ∨ b.addr ∈ tree_links lc → SelectableVisible (tree_write lc v s b) := by
  induction lc using layer_collection_induct with
  | h sc f ls cs ih =>
    intro v s _ b hb
    rw [tree_write]
    apply forest_write_consistent_of_tree cs ih
    · intro hs
      simp only [Bool.and_eq_true] at hs
      simpa using hs.1.2
    · rw [links_write_addr]
      rcases hb with hb | hb
      · exact Or.inl (links_write_consistent ls _ _
          (by intro hs; simp only [Bool.and_eq_true] at hs; simpa using hs.1.2) b (Or.inl hb))
      · rw [tree_links, List.mem_append] at hb
        rcases hb with hb | hb
        · exact Or.inl (links_write_consistent ls _ _
            (by intro hs; simp only [Bool.and_eq_true] at hs; simpa using hs.1.2) b (Or.inr hb))
        · exact Or.inr hb

theorem forest_write_consistent (cs : List LayerCollection) (v s : Bool)
    (h : s = true → v = true) (b : ObjectBase)
    (hb : SelectableVisible b ∨ b.addr ∈ forest_links cs) :
    SelectableVisible (forest_write cs v s b) :=
  forest_write_consistent_of_tree cs (fun c _ => tree_write_consistent c) v s h b hb

/-- C2: after `BKE_scene_layer_base_flag_recalculate(sl)` every base of the registry
`sl->object_bases` that has `BASE_SELECTED` set has `BASE_SELECTABLED` set, whether or not a
node links it. -/
theorem recalculate_selected_selectabled (sl : SceneLayer) (b : ObjectBase)
    (hb : b ∈ (BKE_scene_layer_base_flag_recalculate sl).object_bases)
    (hs : b.flag &&& BASE_SELECTED ≠ 0) : b.flag &&& BASE_SELECTABLED ≠ 0 := by
  simp only [BKE_scene_layer_base_flag_recalculate, List.mem_map] at hb
  obtain ⟨b0, -, rfl⟩ := hb
  by_cases h0 : b0.flag &&& BASE_SELECTABLED = 0
  · rw [if_pos h0] at hs
    exact absurd (flag_clear_and_self b0.flag BASE_SELECTED) hs
  · rw [if_neg h0]
    exact h0

/-- An instance of C2: base 1 of the demo layer stays selected and is selectable. -/
theorem recalculate_selected_selectabled_witness :
    (⟨1, 101, 7, 1⟩ : ObjectBase) ∈ (BKE_scene_layer_base_flag_recalculate demo_layer).object_bases ∧
    (7 : Nat) &&& BASE_SELECTED ≠ 0 ∧ (7 : Nat) &&& BASE_SELECTABLED ≠ 0 :=
  ⟨by decide, by decide,
   recalculate_selected_selectabled demo_layer ⟨1, 101, 7, 1⟩ (by decide) (by decide)⟩

/-- C3: whatever the flags were before, after `BKE_scene_layer_base_flag_recalculate(sl)`
every base that is linked by at least one node of the forest and has `BASE_SELECTABLED` set
has `BASE_VISIBLED` set. -/
theorem recalculate_selectabled_visibled (sl : SceneLayer) (b : ObjectBase)
    (hb : b ∈ (BKE_scene_layer_base_flag_recalculate sl).object_bases)
    (hl : b.addr ∈ forest_links sl.layer_collections)
    (hs : b.flag &&& BASE_SELECTABLED ≠ 0) : b.flag &&& BASE_VISIBLED ≠ 0 := by
  simp only [BKE_scene_layer_base_flag_recalculate, forest_recalculate_eq_map, List.map_map,
    List.mem_map, Function.comp] at hb
  obtain ⟨b0, -, rfl⟩ := hb
  have hc : SelectableVisible (forest_write sl.layer_collections true true b0) := by
    apply forest_write_consistent _ _ _ (fun _ => rfl)
    right
    split at hl
    · simpa [forest_write_addr] using hl
    · simpa [forest_write_addr] using hl
  split at hs
  · rename_i h0
    exact absurd h0 (by simpa [flag_clear_and_other _ _ _ (show BASE_SELECTED &&& BASE_SELECTABLED = 0 by decide)] using hs)
  · split
    · rename_i h1 h2; exact absurd h2 h1
    · exact hc hs

/-- An instance of C3: base 2 of the demo layer, linked by the child node. -/
theorem recalculate_selectabled_visibled_witness :
    (⟨2, 102, 6, 1⟩ : ObjectBase) ∈ (BKE_scene_layer_base_flag_recalculate demo_layer).object_bases ∧
    2 ∈ forest_links demo_layer.layer_collections ∧
    (6 : Nat) &&& BASE_SELECTABLED ≠ 0 ∧ (6 : Nat) &&& BASE_VISIBLED ≠ 0 :=
  ⟨by decide, by decide, by decide,
   recalculate_selectabled_visibled demo_layer ⟨2, 102, 6, 1⟩ (by decide) (by decide)
     (by decide)⟩

/-! ## Node pointers -/

theorem forest_get_eq_root (forest : List LayerCollection) (i : Nat) (p : List Nat) :
    forest_get forest (i :: p) = (forest_root forest).get (i :: p) := rfl

theorem forest_modify_eq_root (f : LayerCollection → LayerCollection)
    (forest : List LayerCollection) (i : Nat) (p : List Nat) :
    forest_modify f forest (i :: p) = ((forest_root forest).modify f (i :: p)).layer_collections := by
  simp only [forest_modify, forest_root, LayerCollection.modify]
  cases forest[i]? <;> rfl

theorem forest_root_addtail (forest : List LayerCollection) (lb : List Nat) (n : LayerCollection) :
    forest_root (forest_addtail forest lb n)
      = (forest_root forest).modify (LayerCollection.appendChild n) lb := by
  cases lb with
  | nil => rfl
  | cons i p =>
    simp only [forest_addtail, forest_modify, forest_root, LayerCollection.modify]
    cases forest[i]? <;> rfl

theorem forest_listlen_eq_root (forest : List LayerCollection) (lb : List Nat) :
    forest_listlen forest lb =
      match (forest_root forest).get lb with
      | none => 0
      | some n => n.layer_collections.length := by
  cases lb with
  | nil => rfl
  | cons i p => rfl

theorem tree_modify_addtail (g : LayerCollection → LayerCollection) (n : LayerCollection)
    (q : List Nat) : ∀ t : LayerCollection,
    (t.modify (LayerCollection.appendChild n) q).modify g
        (q ++ [match t.get q with
               | none => 0
               | some x => x.layer_collections.length])
      = t.modify (LayerCollection.appendChild (g n)) q := by
  induction q with
  | nil =>
    intro t
    cases t with
    | mk s fl ls cs =>
      simp [LayerCollection.modify, LayerCollection.get, LayerCollection.appendChild,
        LayerCollection.layer_collections]
  | cons i q ih =>
    intro t
    cases t with
    | mk s fl ls cs =>
      simp only [LayerCollection.modify, LayerCollection.get, List.cons_append]
      cases hc : cs[i]? with
      | none => simp [LayerCollection.modify, hc]
      | some c =>
        have hi : i < cs.length := (List.getElem?_eq_some_iff.mp hc).1
        simp only [LayerCollection.modify]
        rw [List.getElem?_set_self (by simpa using hi)]
        simp only [List.set_set]
        rw [ih c]

theorem forest_modify_addtail (g : LayerCollection → LayerCollection) (n : LayerCollection)
    (forest : List LayerCollection) (lb : List Nat) :
    forest_modify g (forest_addtail forest lb n) (lb ++ [forest_listlen forest lb])
      = forest_addtail forest lb (g n) := by
  have h1 : ∀ (F : List LayerCollection), (forest_root F).layer_collections = F := fun _ => rfl
  have hne : ∃ i p, lb ++ [forest_listlen forest lb] = i :: p := by
    cases lb with
    | nil => exact ⟨_, _, rfl⟩
    | cons i p => exact ⟨i, _, rfl⟩
  obtain ⟨i, p, hip⟩ := hne
  rw [hip, forest_modify_eq_root, ← hip, forest_root_addtail, forest_listlen_eq_root,
    tree_modify_addtail, ← forest_root_addtail, h1]

theorem forest_addtail_of_ne_nil (forest : List LayerCollection) (i : Nat) (p : List Nat)
    (n : LayerCollection) :
    forest_addtail forest (i :: p) n = forest_modify (LayerCollection.appendChild n) forest (i :: p) :=
  rfl

theorem tree_get_nil (t : LayerCollection) : t.get [] = some t := by
  cases t; rfl

theorem tree_modify_nil (f : LayerCollection → LayerCollection) (t : LayerCollection) :
    t.modify f [] = f t := by
  cases t; rfl

theorem tree_get_modify (f : LayerCollection → LayerCollection) (p : List Nat) :
    ∀ (t n : LayerCollection), t.get p = some n → (t.modify f p).get p = some (f n) := by
  induction p with
  | nil =>
    intro t n h
    rw [tree_get_nil] at h
    cases h
    rw [tree_modify_nil, tree_get_nil]
  | cons i p ih =>
    intro t n h
    cases t with
    | mk s fl ls cs =>
      simp only [LayerCollection.get] at h
      cases hc : cs[i]? with
      | none => simp [hc] at h
      | some c =>
        simp only [hc] at h
        have hi : i < cs.length := (List.getElem?_eq_some_iff.mp hc).1
        simp only [LayerCollection.modify, hc, LayerCollection.get]
        rw [List.getElem?_set_self (by simpa using hi)]
        exact ih c n h

/-! ## Layer removal and base selection -/

theorem BLI_findindex_eq_neg_one (layers : List SceneLayer) (sl : Nat) :
    BLI_findindex layers sl = -1 ↔ sl ∉ layers.map (fun l => l.addr) := by
  unfold BLI_findindex
  cases h : layers.findIdx? (fun l => l.addr == sl) with
  | none =>
    simp only [true_iff]
    rw [List.findIdx?_eq_none_iff] at h
    intro hm
    obtain ⟨l, hl, rfl⟩ := List.mem_map.mp hm
    simpa using h l hl
  | some i =>
    have hne : ((i : Int) = -1) ↔ False := ⟨fun h => by omega, False.elim⟩
    simp only [hne, false_iff, not_not]
    rw [List.findIdx?_eq_some_iff_getElem] at h
    obtain ⟨hi, hp, -⟩ := h
    refine List.mem_map.mpr ⟨layers[i], List.getElem_mem _, ?_⟩
    simpa using hp

theorem singleton_of_head_eq_getLast (l : List Nat) (a : Nat) (hnd : l.Nodup)
    (h1 : l.head? = l.getLast?) (h2 : l.head? = some a) : l = [a] := by
  cases l with
  | nil => simp at h2
  | cons x t =>
    simp only [List.head?_cons, Option.some.injEq] at h2
    subst h2
    cases t with
    | nil => rfl
    | cons y t' =>
      exfalso
      rw [List.head?_cons, List.getLast?_cons_cons] at h1
      have hm : x ∈ (y :: t') := List.mem_of_getLast?_eq_some h1.symm
      exact (List.nodup_cons.mp hnd).1 hm

/-- C7: with the layers of the scene at distinct addresses, `BKE_scene_layer_remove` returns
false if and only if `sl` is not in `scene->render_layers` or is its only layer; when it
returns false the scene is unchanged, and a scene with a layer never ends up with none. -/
theorem scene_layer_remove_refusal (scene : Scene) (sl : Nat)
    (hnd : (scene.render_layers.map (fun l => l.addr)).Nodup) :
    ((BKE_scene_layer_remove scene sl).1 = false ↔
      (sl ∉ scene.render_layers.map (fun l => l.addr) ∨
        scene.render_layers.map (fun l => l.addr) = [sl])) ∧
    ((BKE_scene_layer_remove scene sl).1 = false → (BKE_scene_layer_remove scene sl).2 = scene) ∧
    (scene.render_layers ≠ [] → (BKE_scene_layer_remove scene sl).2.render_layers ≠ []) := by
  have hhead : scene.render_layers.head?.map (fun l => l.addr)
      = (scene.render_layers.map (fun l => l.addr)).head? := by
    cases scene.render_layers <;> rfl
  have hlast : scene.render_layers.getLast?.map (fun l => l.addr)
      = (scene.render_layers.map (fun l => l.addr)).getLast? := by
    rw [List.getLast?_map]
  unfold BKE_scene_layer_remove
  simp only [hhead, hlast]
  by_cases hact : BLI_findindex scene.render_layers sl = -1
  · simp only [hact, if_true, true_iff, forall_true_left, true_and]
    exact ⟨Or.inl ((BLI_findindex_eq_neg_one _ _).mp hact), fun h => h⟩
  · have hmem : sl ∈ scene.render_layers.map (fun l => l.addr) := by
      by_contra hc
      exact hact ((BLI_findindex_eq_neg_one _ _).mpr hc)
    simp only [hact, if_false]
    by_cases hone : (scene.render_layers.map (fun l => l.addr)).head?
        = (scene.render_layers.map (fun l => l.addr)).getLast? ∧
        (scene.render_layers.map (fun l => l.addr)).head? = some sl
    · rw [if_pos hone]
      exact ⟨⟨fun _ => Or.inr (singleton_of_head_eq_getLast _ sl hnd hone.1 hone.2), fun _ => rfl⟩,
        fun _ => rfl, fun h => h⟩
    · rw [if_neg hone]
      refine ⟨?_, ?_, ?_⟩
      · simp only [Bool.true_eq_false, false_iff, not_or, not_not]
        refine ⟨hmem, ?_⟩
        intro heq
        apply hone
        rw [heq]
        exact ⟨rfl, rfl⟩
      · intro h; cases h
      · intro _ hnil
        have hlen := congrArg List.length hnil
        obtain ⟨l, hl, hla⟩ := List.mem_map.mp hmem
        rw [List.length_eraseP_of_mem hl (by simpa using hla)] at hlen
        simp only [List.length_nil] at hlen
        have h1 : scene.render_layers.length = 1 := by
          have := List.length_pos_of_mem hl
          omega
        obtain ⟨x, hx⟩ := List.length_eq_one.mp h1
        apply hone
        rw [hx] at hl ⊢
        simp only [List.mem_singleton] at hl
        subst hl
        simp [hla]

/-- An instance of C7: the only layer of a scene is not removed. -/
theorem scene_layer_remove_refusal_witness :
    (demo_scene_single.render_layers.map (fun l => l.addr)).Nodup ∧
    (BKE_scene_layer_remove demo_scene_single 1).1 = false ∧
    (BKE_scene_layer_remove demo_scene_single 1).2.render_layers ≠ [] :=
  ⟨by decide,
   ((scene_layer_remove_refusal demo_scene_single 1 (by decide)).1).mpr (Or.inr (by decide)),
   (scene_layer_remove_refusal demo_scene_single 1 (by decide)).2.2 (List.cons_ne_nil _ _)⟩

/-- C8: after `BKE_scene_layer_base_select(sl, b)` the active base is `b` in all cases;
`b` gets `BASE_SELECTED` if it had `BASE_SELECTABLED` and is left exactly as it was if not;
no other bit of `b`, no other base, and nothing else of the layer is modified. -/
theorem base_select_effect (sl : SceneLayer) (selbase : Nat) :
    (BKE_scene_layer_base_select sl selbase).basact = some selbase ∧
    (BKE_scene_layer_base_select sl selbase).layer_collections = sl.layer_collections ∧
    (BKE_scene_layer_base_select sl selbase).active_collection = sl.active_collection ∧
    List.Forall₂
      (fun b b' =>
        b'.addr = b.addr ∧ b'.object = b.object ∧ b'.refcount = b.refcount ∧
        (b.addr ≠ selbase → b' = b) ∧
        (b.addr = selbase → b.flag &&& BASE_SELECTABLED = 0 → b' = b) ∧
        (b.addr = selbase → b.flag &&& BASE_SELECTABLED ≠ 0 →
          b'.flag &&& BASE_SELECTED ≠ 0 ∧
          ∀ k, BASE_SELECTED &&& k = 0 → b'.flag &&& k = b.flag &&& k))
      sl.object_bases (BKE_scene_layer_base_select sl selbase).object_bases := by
  refine ⟨rfl, rfl, rfl, ?_⟩
  simp only [BKE_scene_layer_base_select, base_update]
  rw [List.forall₂_map_right_iff, List.forall₂_same]
  intro b _
  by_cases ha : b.addr = selbase
  · by_cases hf : b.flag &&& BASE_SELECTABLED = 0
    · rw [if_pos ha, if_neg (not_not.mpr hf)]
      exact ⟨rfl, rfl, rfl, fun _ => rfl, fun _ _ => rfl, fun _ h => absurd hf h⟩
    · rw [if_pos ha, if_pos hf]
      refine ⟨rfl, rfl, rfl, fun h => absurd ha h, fun _ h => absurd h hf, fun _ _ => ⟨?_, ?_⟩⟩
      · show (b.flag ||| BASE_SELECTED) &&& BASE_SELECTED ≠ 0
        rw [flag_or_and_self]; decide
      · intro k hk
        exact flag_or_and_other _ _ _ hk
  · rw [if_neg ha]
    exact ⟨rfl, rfl, rfl, fun _ => rfl, fun _ _ => rfl, fun h => absurd h ha⟩

/-! ## Search for the node mirroring a scene collection -/

theorem forest_mirrored_mem (cs : List LayerCollection) (sc : Nat) :
    sc ∈ forest_mirrored cs ↔ ∃ c ∈ cs, sc ∈ tree_mirrored c := by
  induction cs with
  | nil => simp [forest_mirrored]
  | cons c cs ih => simp [forest_mirrored, ih]

theorem find_in_eq_none_of_tree (cs : List LayerCollection) (sc : Nat)
    (ih : ∀ c ∈ cs, (find_layer_collection_by_scene_collection c sc = none ↔
      sc ∉ tree_mirrored c)) (k : Nat) :
    find_in_layer_collections cs sc k = none ↔ sc ∉ forest_mirrored cs := by
  induction cs generalizing k with
  | nil => simp [find_in_layer_collections, forest_mirrored]
  | cons c cs ihc =>
    rw [find_in_layer_collections, forest_mirrored, List.mem_append, not_or]
    cases h : find_layer_collection_by_scene_collection c sc with
    | none =>
      simp only []
      rw [ihc (fun c hc => ih c (List.mem_cons_of_mem _ hc))]
      exact ⟨fun h2 => ⟨(ih c (List.mem_cons_self _ _)).mp h, h2⟩, fun h2 => h2.2⟩
    | some p =>
      simp only [false_iff, not_and, reduceCtorEq]
      intro h1
      rw [(ih c (List.mem_cons_self _ _)).mpr h1] at h
      cases h

theorem find_eq_none_iff (t : LayerCollection) (sc : Nat) :
    find_layer_collection_by_scene_collection t sc = none ↔ sc ∉ tree_mirrored t := by
  induction t using layer_collection_induct with
  | h s f ls cs ih =>
    rw [find_layer_collection_by_scene_collection, tree_mirrored, List.mem_cons, not_or]
    by_cases hs : s = sc
    · simp [hs]
    · rw [if_neg hs, find_in_eq_none_of_tree cs sc ih]
      exact ⟨fun h => ⟨fun h2 => hs h2.symm, h⟩, fun h => h.2⟩

theorem find_in_sound_of_tree (cs : List LayerCollection) (sc : Nat)
    (ih : ∀ c ∈ cs, ∀ p, find_layer_collection_by_scene_collection c sc = some p →
      ∃ n, c.get p = some n ∧ n.scene_collection = sc) (k : Nat) (q : List Nat)
    (h : find_in_layer_collections cs sc k = some q) :
    ∃ j p n, q = (k + j) :: p ∧ cs[j]? = some n ∧
      find_layer_collection_by_scene_collection n sc = some p := by
  induction cs generalizing k with
  | nil => simp [find_in_layer_collections] at h
  | cons c cs ihc =>
    rw [find_in_layer_collections] at h
    cases hc : find_layer_collection_by_scene_collection c sc with
    | some p =>
      simp only [hc, Option.some.injEq] at h
      exact ⟨0, p, c, by simpa using h.symm, by simp, hc⟩
    | none =>
      simp only [hc] at h
      obtain ⟨j, p, n, h1, h2, h3⟩ := ihc (fun c hc => ih c (List.mem_cons_of_mem _ hc)) (k + 1) h
      exact ⟨j + 1, p, n, by rw [h1]; congr 1; omega, by simpa using h2, h3⟩

theorem find_sound (t : LayerCollection) (sc : Nat) :
    ∀ p, find_layer_collection_by_scene_collection t sc = some p →
      ∃ n, t.get p = some n ∧ n.scene_collection = sc := by
  induction t using layer_collection_induct with
  | h s f ls cs ih =>
    intro p hp
    rw [find_layer_collection_by_scene_collection] at hp
    by_cases hs : s = sc
    · rw [if_pos hs] at hp
      cases hp
      exact ⟨_, rfl, hs⟩
    · rw [if_neg hs] at hp
      obtain ⟨j, q, n, h1, h2, h3⟩ := find_in_sound_of_tree cs sc ih 0 p hp
      obtain ⟨m, hm1, hm2⟩ := ih n (List.getElem?_mem h2) q h3
      refine ⟨m, ?_, hm2⟩
      rw [h1]
      simp only [Nat.zero_add, LayerCollection.get, h2]
      exact hm1

/-! ## The loop over the roots -/

theorem foldl_fixed {σ ι : Type} (step : σ → ι → σ) (l : List ι) (s : σ)
    (h : ∀ i ∈ l, step s i = s) : l.foldl step s = s := by
  induction l with
  | nil => rfl
  | cons i l ih =>
    rw [List.foldl_cons, h i (List.mem_cons_self _ _)]
    exact ih (fun j hj => h j (List.mem_cons_of_mem _ hj))

theorem foldl_preserves {σ ι : Type} (P : σ → Prop) (step : σ → ι → σ) (l : List ι) (s : σ)
    (h : ∀ s, P s → ∀ i ∈ l, P (step s i)) (hs : P s) : P (l.foldl step s) := by
  induction l generalizing s with
  | nil => exact hs
  | cons i l ih =>
    rw [List.foldl_cons]
    exact ih _ (fun s hs j hj => h s hs j (List.mem_cons_of_mem _ hj))
      (h s hs i (List.mem_cons_self _ _))

theorem range_split (n j : Nat) (hj : j < n) :
    ∃ l1 l2, List.range n = l1 ++ j :: l2 ∧ j ∉ l1 ∧ j ∉ l2 := by
  obtain ⟨l1, l2, h⟩ := List.append_of_mem (List.mem_range.mpr hj)
  have hnd := List.nodup_range n
  rw [h] at hnd
  have h1 := List.nodup_append.mp hnd
  refine ⟨l1, l2, h, ?_, (List.nodup_cons.mp h1.2.1).1⟩
  intro hm
  exact h1.2.2 hm (List.mem_cons_self _ _) 

theorem sync_round_none (sc : Nat) (body : SceneLayer → List Nat → SceneLayer) (s : SceneLayer)
    (i : Nat) (h : s.layer_collections[i]? = none) : sync_round sc body s i = s := by
  simp only [sync_round, h]

theorem sync_round_absent (sc : Nat) (body : SceneLayer → List Nat → SceneLayer)
    (s : SceneLayer) (i : Nat) (lc : LayerCollection) (h : s.layer_collections[i]? = some lc)
    (hf : find_layer_collection_by_scene_collection lc sc = none) :
    sync_round sc body s i = s := by
  simp only [sync_round, h, hf]

theorem sync_round_found (sc : Nat) (body : SceneLayer → List Nat → SceneLayer)
    (s : SceneLayer) (i : Nat) (lc : LayerCollection) (p : List Nat)
    (h : s.layer_collections[i]? = some lc)
    (hf : find_layer_collection_by_scene_collection lc sc = some p) :
    sync_round sc body s i = body s (i :: p) := by
  simp only [sync_round, h, hf]

/-- A sync loop over a layer without a node for `sc` does nothing. -/
theorem sync_layer_collections_absent (sc : Nat) (body : SceneLayer → List Nat → SceneLayer)
    (sl : SceneLayer) (h : sc ∉ forest_mirrored sl.layer_collections) :
    sync_layer_collections sc body sl = sl := by
  unfold sync_layer_collections
  apply foldl_fixed
  intro i _
  cases hi : sl.layer_collections[i]? with
  | none => exact sync_round_none sc body sl i hi
  | some lc =>
    apply sync_round_absent sc body sl i lc hi
    rw [find_eq_none_iff]
    intro hm
    exact h ((forest_mirrored_mem _ _).mpr ⟨lc, List.getElem?_mem hi, hm⟩)

/-! ## Shape of the tree built by `layer_collection_add` -/

theorem object_base_add_forest (alloc : List Nat → Nat) (sl : SceneLayer) (ob : Nat) :
    (object_base_add alloc sl ob).1.layer_collections = sl.layer_collections := by
  unfold object_base_add
  split <;> rfl

theorem recalculate_forest (sl : SceneLayer) :
    (BKE_scene_layer_base_flag_recalculate sl).layer_collections = sl.layer_collections := rfl

theorem object_add_forest (alloc : List Nat → Nat) (sl : SceneLayer) (lc : List Nat) (ob : Nat) :
    (layer_collection_object_add alloc sl lc ob).layer_collections = sl.layer_collections ∨
    ∃ b, (layer_collection_object_add alloc sl lc ob).layer_collections
      = forest_modify (LayerCollection.appendLink b) sl.layer_collections lc := by
  unfold layer_collection_object_add
  simp only []
  split
  · exact Or.inl (object_base_add_forest alloc sl ob)
  · right
    refine ⟨(object_base_add alloc sl ob).2, ?_⟩
    simp only [recalculate_forest, object_base_add_forest]

theorem objects_populate_forest (alloc : List Nat → Nat) (forest : List LayerCollection)
    (lb : List Nat) (objects : List Nat) :
    ∀ (sl : SceneLayer) (n : LayerCollection),
      sl.layer_collections = forest_addtail forest lb n →
      ∃ n', (layer_collection_objects_populate alloc sl (lb ++ [forest_listlen forest lb])
              objects).layer_collections = forest_addtail forest lb n' ∧
            n'.scene_collection = n.scene_collection ∧
            n'.layer_collections = n.layer_collections := by
  induction objects with
  | nil => intro sl n h; exact ⟨n, h, rfl, rfl⟩
  | cons ob rest ih =>
    intro sl n h
    unfold layer_collection_objects_populate
    rw [List.foldl_cons]
    rcases object_add_forest alloc sl (lb ++ [forest_listlen forest lb]) ob with h1 | ⟨b, h1⟩
    · exact ih _ n (h1.trans h)
    · rw [h, forest_modify_addtail] at h1
      obtain ⟨n', h2, h3, h4⟩ := ih _ _ h1
      refine ⟨n', h2, ?_, ?_⟩
      · rw [h3]; cases n; rfl
      · rw [h4]; cases n; rfl

theorem add_children_forest (alloc : List Nat → Nat) (forest : List LayerCollection)
    (lb : List Nat) (children : List SceneCollection)
    (ih : ∀ c ∈ children, AddsMirror alloc c) :
    ∀ (sl : SceneLayer) (n : LayerCollection),
      sl.layer_collections = forest_addtail forest lb n →
      ∃ n' ts, (layer_collection_add_children alloc children sl
                (lb ++ [forest_listlen forest lb])).layer_collections
                  = forest_addtail forest lb n' ∧
            n'.scene_collection = n.scene_collection ∧
            n'.layer_collections = n.layer_collections ++ ts ∧
            mirrors_list ts children = true := by
  induction children with
  | nil =>
    intro sl n h
    exact ⟨n, [], h, rfl, by simp, rfl⟩
  | cons c rest ihr =>
    intro sl n h
    rw [layer_collection_add_children]
    obtain ⟨t, ht, hm⟩ := ih c (List.mem_cons_self _ _) sl (lb ++ [forest_listlen forest lb])
    have hne : ∃ i p, lb ++ [forest_listlen forest lb] = i :: p := by
      cases lb with
      | nil => exact ⟨_, _, rfl⟩
      | cons i p => exact ⟨i, _, rfl⟩
    obtain ⟨i, p, hip⟩ := hne
    have ht2 : (layer_collection_add alloc c sl (lb ++ [forest_listlen forest lb])).1.layer_collections
        = forest_addtail forest lb (LayerCollection.appendChild t n) := by
      rw [ht, hip, forest_addtail_of_ne_nil, ← hip, h, forest_modify_addtail]
    obtain ⟨n', ts, h1, h2, h3, h4⟩ :=
      ihr (fun c hc => ih c (List.mem_cons_of_mem _ hc)) _ _ ht2
    refine ⟨n', t :: ts, h1, ?_, ?_, ?_⟩
    · rw [h2]; cases n; rfl
    · rw [h3]; cases n; simp [LayerCollection.appendChild, LayerCollection.layer_collections]
    · simp [mirrors_list, hm, h4]

theorem layer_collection_add_mirrors (alloc : List Nat → Nat) (sc : SceneCollection) :
    AddsMirror alloc sc := by
  induction sc using scene_collection_induct with
  | h id objs filt children ih =>
    intro sl lb
    rw [layer_collection_add]
    simp only []
    obtain ⟨n1, h1, h1s, h1c⟩ := objects_populate_forest alloc sl.layer_collections lb objs
      { sl with
        layer_collections := forest_addtail sl.layer_collections lb
          (.mk id (COLLECTION_VISIBLE + COLLECTION_SELECTABLE + COLLECTION_FOLDED) [] []) }
      _ rfl
    obtain ⟨n2, h2, h2s, h2c⟩ := objects_populate_forest alloc sl.layer_collections lb filt _ _ h1
    obtain ⟨n3, ts, h3, h3s, h3c, h3m⟩ :=
      add_children_forest alloc sl.layer_collections lb children ih _ _ h2
    refine ⟨n3, h3, ?_⟩
    cases n3 with
    | mk s f l c =>
      rw [h2s, h1s] at h3s
      rw [h2c, h1c] at h3c
      simp only [LayerCollection.scene_collection, LayerCollection.layer_collections,
        List.nil_append] at h3s h3c
      subst h3s h3c
      simp [mirrors, SceneCollection.id, SceneCollection.scene_collections, h3m]

/-! ## Sync of a new scene collection -/

/-- One round of the sync loop for a new scene collection leaves the other roots alone. -/
theorem sync_new_round_frame (alloc : List Nat → Nat) (sc_parent : Nat) (sc : SceneCollection)
    (s : SceneLayer) (i j : Nat) (hij : i ≠ j) :
    (sync_round sc_parent (fun s lc_parent => (layer_collection_add alloc sc s lc_parent).1)
      s i).layer_collections[j]? = s.layer_collections[j]? := by
  cases hi : s.layer_collections[i]? with
  | none => rw [sync_round_none _ _ _ _ hi]
  | some lc =>
    cases hf : find_layer_collection_by_scene_collection lc sc_parent with
    | none => rw [sync_round_absent _ _ _ _ _ hi hf]
    | some p =>
      rw [sync_round_found _ _ _ _ _ _ hi hf]
      obtain ⟨t, ht, -⟩ := layer_collection_add_mirrors alloc sc s (i :: p)
      rw [ht, forest_addtail_of_ne_nil, forest_modify, hi]
      simp only []
      rw [List.getElem?_set_ne hij]

/-- In every scene layer with a node mirroring the parent, the sync adds a mirror of the new
scene collection at the tail of the children of such a node. -/
theorem sync_new_layer_child (alloc : List Nat → Nat) (sc_parent : Nat) (sc : SceneCollection)
    (sl : SceneLayer) (h : sc_parent ∈ forest_mirrored sl.layer_collections) :
    ∃ p n c,
      forest_get (sync_layer_collections sc_parent
        (fun s lc_parent => (layer_collection_add alloc sc s lc_parent).1) sl).layer_collections p
          = some n ∧
      n.scene_collection = sc_parent ∧ n.layer_collections.getLast? = some c ∧
      mirrors c sc = true := by
  obtain ⟨t, htm, ht⟩ := (forest_mirrored_mem _ _).mp h
  obtain ⟨j, hj⟩ := List.mem_iff_getElem?.mp htm
  have hjlt : j < sl.layer_collections.length := (List.getElem?_eq_some_iff.mp hj).1
  obtain ⟨l1, l2, hsplit, hl1, hl2⟩ := range_split _ j hjlt
  obtain ⟨p, hp⟩ : ∃ p, find_layer_collection_by_scene_collection t sc_parent = some p := by
    cases hf : find_layer_collection_by_scene_collection t sc_parent with
    | none => exact absurd ht ((find_eq_none_iff t sc_parent).mp hf)
    | some p => exact ⟨p, rfl⟩
  obtain ⟨n, hn, hns⟩ := find_sound t sc_parent p hp
  unfold sync_layer_collections
  rw [hsplit, List.foldl_append, List.foldl_cons]
  -- the rounds before root `j`
  have h1 := foldl_preserves (fun s : SceneLayer => s.layer_collections[j]? = some t) _ l1 sl
    (fun s hs i hi => by
      have hij : i ≠ j := fun e => hl1 (e ▸ hi)
      simp only []
      rw [sync_new_round_frame alloc sc_parent sc s i j hij]
      exact hs) hj
  generalize List.foldl _ sl l1 = s1 at h1 ⊢
  -- the round of root `j`
  obtain ⟨c, hc, hcm⟩ := layer_collection_add_mirrors alloc sc s1 (j :: p)
  have h2 : (sync_round sc_parent
      (fun s lc_parent => (layer_collection_add alloc sc s lc_parent).1) s1 j).layer_collections[j]?
      = some (t.modify (LayerCollection.appendChild c) p) := by
    rw [sync_round_found _ _ _ _ _ _ h1 hp]
    rw [hc, forest_addtail_of_ne_nil, forest_modify, h1]
    simp only []
    rw [List.getElem?_set_self (List.getElem?_eq_some_iff.mp h1).1]
  generalize sync_round sc_parent _ s1 j = s2 at h2 ⊢
  -- the rounds after root `j`
  have h3 := foldl_preserves
    (fun s : SceneLayer =>
      s.layer_collections[j]? = some (t.modify (LayerCollection.appendChild c) p)) _ l2 s2
    (fun s hs i hi => by
      have hij : i ≠ j := fun e => hl2 (e ▸ hi)
      simp only []
      rw [sync_new_round_frame alloc sc_parent sc s i j hij]
      exact hs) h2
  simp only [] at h3
  refine ⟨j :: p, LayerCollection.appendChild c n, c, ?_, ?_, ?_, hcm⟩
  · rw [forest_get, h3]
    exact tree_get_modify _ p t n hn
  · rw [← hns]; cases n; rfl
  · cases n; simp [LayerCollection.appendChild, LayerCollection.layer_collections]

/-- C5: after `BKE_layer_sync_new_scene_collection(scene, P, C)` every scene layer whose
forest had a node mirroring `P` has a node mirroring `P` whose last child mirrors `C`, with
the whole subtree of `C` mirrored below it. -/
theorem sync_new_scene_collection_adds_child (alloc : List Nat → Nat) (scene : Scene)
    (sc_parent : Nat) (sc : SceneCollection) (i : Nat) (sl : SceneLayer)
    (hsl : scene.render_layers[i]? = some sl)
    (h : sc_parent ∈ forest_mirrored sl.layer_collections) :
    ∃ sl', (BKE_layer_sync_new_scene_collection alloc scene sc_parent sc).render_layers[i]?
        = some sl' ∧
      ∃ p n c, forest_get sl'.layer_collections p = some n ∧
        n.scene_collection = sc_parent ∧ n.layer_collections.getLast? = some c ∧
        mirrors c sc = true := by
  refine ⟨_, ?_, sync_new_layer_child alloc sc_parent sc sl h⟩
  simp [BKE_layer_sync_new_scene_collection, hsl]

/-- An instance of C5: collection 13 with a child is created under collection 10. -/
theorem sync_new_scene_collection_adds_child_witness :
    demo_scene.render_layers[0]? = some demo_layer ∧
    10 ∈ forest_mirrored demo_layer.layer_collections ∧
    ∃ sl', (BKE_layer_sync_new_scene_collection bump_alloc demo_scene 10
        (.mk 13 [104] [] [.mk 14 [] [] []])).render_layers[0]? = some sl' ∧
      ∃ p n c, forest_get sl'.layer_collections p = some n ∧
        n.scene_collection = 10 ∧ n.layer_collections.getLast? = some c ∧
        mirrors c (.mk 13 [104] [] [.mk 14 [] [] []]) = true :=
  ⟨rfl, by decide,
   sync_new_scene_collection_adds_child bump_alloc demo_scene 10
     (.mk 13 [104] [] [.mk 14 [] [] []]) 0 demo_layer rfl (by decide)⟩

/-- C6: `BKE_layer_sync_new_scene_collection(scene, P, C)` leaves every scene layer whose
forest has no node mirroring `P` unchanged as a whole: forest, registry, refcounts, flags,
active base and active collection. -/
theorem sync_new_scene_collection_frame (alloc : List Nat → Nat) (scene : Scene)
    (sc_parent : Nat) (sc : SceneCollection) (i : Nat) (sl : SceneLayer)
    (hsl : scene.render_layers[i]? = some sl)
    (h : sc_parent ∉ forest_mirrored sl.layer_collections) :
    (BKE_layer_sync_new_scene_collection alloc scene sc_parent sc).render_layers[i]? = some sl := by
  simp [BKE_layer_sync_new_scene_collection, hsl, sync_layer_collections_absent _ _ _ h]

/-- An instance of C6: the second demo layer has no node for collection 10. -/
theorem sync_new_scene_collection_frame_witness :
    demo_scene.render_layers[1]? = some demo_layer_other ∧
    10 ∉ forest_mirrored demo_layer_other.layer_collections ∧
    (BKE_layer_sync_new_scene_collection bump_alloc demo_scene 10
        (.mk 13 [104] [] [])).render_layers[1]? = some demo_layer_other :=
  ⟨rfl, by decide,
   sync_new_scene_collection_frame bump_alloc demo_scene 10 (.mk 13 [104] [] []) 1
     demo_layer_other rfl (by decide)⟩

/-! ## Recalculation base by base -/

theorem same_base_refl (b : ObjectBase) : SameBase b b := ⟨rfl, rfl, rfl⟩

theorem same_base_trans {a b c : ObjectBase} (h1 : SameBase a b) (h2 : SameBase b c) :
    SameBase a c :=
  ⟨h2.1.trans h1.1, h2.2.1.trans h1.2.1, h2.2.2.trans h1.2.2⟩

theorem links_write_same (links : List Nat) (v s : Bool) (b : ObjectBase) :
    SameBase b (links_write links v s b) := by
  induction links generalizing b with
  | nil => exact same_base_refl b
  | cons l ls ih =>
    rw [links_write, List.foldl_cons]
    have h := ih (if b.addr = l then base_set_derived v s b else b)
    rw [links_write] at h
    refine same_base_trans ?_ h
    split
    · exact ⟨rfl, rfl, rfl⟩
    · exact same_base_refl b

theorem forest_write_same_of_tree (cs : List LayerCollection)
    (ih : ∀ c ∈ cs, ∀ v s b, SameBase b (tree_write c v s b)) (v s : Bool) (b : ObjectBase) :
    SameBase b (forest_write cs v s b) := by
  induction cs generalizing b with
  | nil => exact same_base_refl b
  | cons c cs ihc =>
    rw [forest_write]
    exact same_base_trans (ih c (List.mem_cons_self _ _) v s b)
      (ihc (fun c hc => ih c (List.mem_cons_of_mem _ hc)) _)

theorem tree_write_same (lc : LayerCollection) :
    ∀ v s b, SameBase b (tree_write lc v s b) := by
  induction lc using layer_collection_induct with
  | h sc f ls cs ih =>
    intro v s b
    rw [tree_write]
    exact same_base_trans (links_write_same ls _ _ b) (forest_write_same_of_tree cs ih _ _ _)

theorem forest_write_same (cs : List LayerCollection) (v s : Bool) (b : ObjectBase) :
    SameBase b (forest_write cs v s b) :=
  forest_write_same_of_tree cs (fun c _ => tree_write_same c) v s b

theorem recalculate_base_same (forest : List LayerCollection) (b : ObjectBase) :
    SameBase b (recalculate_base forest b) := by
  unfold recalculate_base
  split
  · exact same_base_trans (forest_write_same forest true true b) ⟨rfl, rfl, rfl⟩
  · exact forest_write_same forest true true b

theorem recalculate_bases (sl : SceneLayer) :
    (BKE_scene_layer_base_flag_recalculate sl).object_bases
      = sl.object_bases.map (recalculate_base sl.layer_collections) := by
  simp only [BKE_scene_layer_base_flag_recalculate, forest_recalculate_eq_map, List.map_map]
  rfl

/-! ## Lookups in the registry -/

theorem find_object_map (g : ObjectBase → ObjectBase) (hg : ∀ x, (g x).object = x.object)
    (l : List ObjectBase) (ob : Nat) :
    (l.map g).find? (fun b => b.object == ob) = (l.find? (fun b => b.object == ob)).map g := by
  induction l with
  | nil => rfl
  | cons x l ih =>
    simp only [List.map_cons, List.find?_cons, hg]
    cases x.object == ob
    · exact ih
    · rfl

theorem find_addr_map (g : ObjectBase → ObjectBase) (hg : ∀ x, (g x).addr = x.addr)
    (l : List ObjectBase) (a : Nat) :
    (l.map g).find? (fun b => b.addr == a) = (l.find? (fun b => b.addr == a)).map g := by
  induction l with
  | nil => rfl
  | cons x l ih =>
    simp only [List.map_cons, List.find?_cons, hg]
    cases x.addr == a
    · exact ih
    · rfl

theorem find_addr_of_mem (l : List ObjectBase) (x : ObjectBase)
    (hnd : (l.map (fun b => b.addr)).Nodup) (hx : x ∈ l) :
    l.find? (fun b => b.addr == x.addr) = some x := by
  induction l with
  | nil => cases hx
  | cons y l ih =>
    rw [List.map_cons, List.nodup_cons] at hnd
    rw [List.find?_cons]
    rcases List.mem_cons.mp hx with rfl | hx
    · simp
    · have hne : (y.addr == x.addr) = false := by
        rw [beq_eq_false_iff_ne]
        intro e
        exact hnd.1 (e ▸ List.mem_map_of_mem _ hx)
      rw [hne]
      exact ih hnd.2 hx

theorem recalculate_find (sl : SceneLayer) (ob : Nat) :
    BKE_scene_layer_base_find (BKE_scene_layer_base_flag_recalculate sl) ob
      = (BKE_scene_layer_base_find sl ob).map (recalculate_base sl.layer_collections) := by
  unfold BKE_scene_layer_base_find
  rw [recalculate_bases]
  exact find_object_map _ (fun x => (recalculate_base_same _ x).2.1) _ _

/-! ## Sync of an object link and unlink -/

theorem forest_mirrored_set (cs : List LayerCollection) (i : Nat) (c c' : LayerCollection)
    (hc : cs[i]? = some c) (h : tree_mirrored c' = tree_mirrored c) :
    forest_mirrored (cs.set i c') = forest_mirrored cs := by
  induction cs generalizing i with
  | nil => rfl
  | cons x cs ih =>
    cases i with
    | zero =>
      simp only [List.getElem?_cons_zero, Option.some.injEq] at hc
      subst hc
      simp only [List.set_cons_zero, forest_mirrored, h]
    | succ i =>
      simp only [List.getElem?_cons_succ] at hc
      simp only [List.set_cons_succ, forest_mirrored, ih i hc]

theorem tree_mirrored_modify (f : LayerCollection → LayerCollection)
    (hf : ∀ n, tree_mirrored (f n) = tree_mirrored n) (p : List Nat) :
    ∀ t : LayerCollection, tree_mirrored (t.modify f p) = tree_mirrored t := by
  induction p with
  | nil => intro t; rw [tree_modify_nil, hf]
  | cons i p ih =>
    intro t
    cases t with
    | mk s fl ls cs =>
      simp only [LayerCollection.modify]
      cases hc : cs[i]? with
      | none => rfl
      | some c =>
        simp only [tree_mirrored]
        rw [forest_mirrored_set cs i c _ hc (ih c)]

theorem tree_mirrored_appendLink (b : Nat) (n : LayerCollection) :
    tree_mirrored (LayerCollection.appendLink b n) = tree_mirrored n := by
  cases n; rfl

theorem tree_mirrored_removeLink (b : Nat) (n : LayerCollection) :
    tree_mirrored (LayerCollection.removeLink b n) = tree_mirrored n := by
  cases n; rfl

/-- When the node for `sc` lies under root `j` only and the body leaves the other roots
alone, the sync loop is one run of the body. -/
theorem sync_layer_collections_single (sc : Nat) (body : SceneLayer → List Nat → SceneLayer)
    (sl : SceneLayer) (j : Nat) (t : LayerCollection) (p : List Nat)
    (hj : sl.layer_collections[j]? = some t)
    (hp : find_layer_collection_by_scene_collection t sc = some p)
    (hothers : ∀ k lc, k ≠ j → sl.layer_collections[k]? = some lc →
      find_layer_collection_by_scene_collection lc sc = none)
    (hframe : ∀ k, k ≠ j → (body sl (j :: p)).layer_collections[k]? = sl.layer_collections[k]?) :
    sync_layer_collections sc body sl = body sl (j :: p) := by
  have hjlt : j < sl.layer_collections.length := (List.getElem?_eq_some_iff.mp hj).1
  obtain ⟨l1, l2, hsplit, hl1, hl2⟩ := range_split _ j hjlt
  unfold sync_layer_collections
  rw [hsplit, List.foldl_append, List.foldl_cons]
  have h1 : List.foldl (sync_round sc body) sl l1 = sl := by
    apply foldl_fixed
    intro i hi
    have hij : i ≠ j := fun e => hl1 (e ▸ hi)
    cases hri : sl.layer_collections[i]? with
    | none => exact sync_round_none sc body sl i hri
    | some lc => exact sync_round_absent sc body sl i lc hri (hothers i lc hij hri)
  rw [h1, sync_round_found sc body sl j t p hj hp]
  apply foldl_fixed
  intro i hi
  have hij : i ≠ j := fun e => hl2 (e ▸ hi)
  cases hri : (body sl (j :: p)).layer_collections[i]? with
  | none => exact sync_round_none sc body _ i hri
  | some lc =>
    apply sync_round_absent sc body _ i lc hri
    rw [hframe i hij] at hri
    exact hothers i lc hij hri

theorem roots_shape_modify {forest : List LayerCollection} {sc j : Nat}
    (h : RootsShape forest sc j) (f : LayerCollection → LayerCollection)
    (hf : ∀ n, tree_mirrored (f n) = tree_mirrored n) (p : List Nat) :
    RootsShape (forest_modify f forest (j :: p)) sc j := by
  obtain ⟨⟨t, q, ht, hq⟩, hothers⟩ := h
  have hjlt : j < forest.length := (List.getElem?_eq_some_iff.mp ht).1
  simp only [forest_modify, ht]
  refine ⟨?_, ?_⟩
  · have hne : find_layer_collection_by_scene_collection (t.modify f p) sc ≠ none := by
      rw [Ne, find_eq_none_iff, tree_mirrored_modify f hf p t, ← find_eq_none_iff, hq]
      simp
    cases hfm : find_layer_collection_by_scene_collection (t.modify f p) sc with
    | none => exact absurd hfm hne
    | some q' => exact ⟨_, q', List.getElem?_set_self hjlt, hfm⟩
  · intro k lc hk hlc
    rw [List.getElem?_set_ne (Ne.symm hk)] at hlc
    exact hothers k lc hk hlc

theorem sync_layer_collections_shape (sc : Nat) (body : SceneLayer → List Nat → SceneLayer)
    (sl : SceneLayer) (j : Nat) (h : RootsShape sl.layer_collections sc j)
    (hframe : ∀ p k, k ≠ j → (body sl (j :: p)).layer_collections[k]? = sl.layer_collections[k]?) :
    ∃ p, sync_layer_collections sc body sl = body sl (j :: p) := by
  obtain ⟨⟨t, p, ht, hp⟩, hothers⟩ := h
  exact ⟨p, sync_layer_collections_single sc body sl j t p ht hp hothers (hframe p)⟩

/-! ### The link -/

theorem object_base_add_found (alloc : List Nat → Nat) (sl : SceneLayer) (ob : Nat)
    (b : ObjectBase) (hb : BKE_scene_layer_base_find sl ob = some b) :
    object_base_add alloc sl ob =
      ({ sl with object_bases :=
          base_update b.addr (fun x => { x with refcount := x.refcount + 1 }) sl.object_bases },
       b.addr) := by
  simp only [object_base_add, hb]

theorem object_add_registry (alloc : List Nat → Nat) (sl : SceneLayer) (lc : List Nat)
    (ob : Nat) (b : ObjectBase) (hb : BKE_scene_layer_base_find sl ob = some b) :
    ∃ g : ObjectBase → ObjectBase,
      (∀ x, (g x).addr = x.addr ∧ (g x).object = x.object) ∧
      (∀ x, x.addr = b.addr → (g x).refcount = x.refcount + 1) ∧
      (layer_collection_object_add alloc sl lc ob).object_bases = sl.object_bases.map g := by
  unfold layer_collection_object_add
  simp only [object_base_add_found alloc sl ob b hb]
  split
  · refine ⟨fun x => if x.addr = b.addr then { x with refcount := x.refcount + 1 } else x,
      ?_, ?_, rfl⟩
    · intro x; dsimp only; split <;> exact ⟨rfl, rfl⟩
    · intro x hx; dsimp only; rw [if_pos hx]
  · refine ⟨fun x => recalculate_base sl.layer_collections
        (if x.addr = b.addr then { x with refcount := x.refcount + 1 } else x), ?_, ?_, ?_⟩
    · intro x
      have h := recalculate_base_same sl.layer_collections
        (if x.addr = b.addr then { x with refcount := x.refcount + 1 } else x)
      dsimp only
      rw [h.1, h.2.1]
      split <;> exact ⟨rfl, rfl⟩
    · intro x hx
      have h := recalculate_base_same sl.layer_collections
        (if x.addr = b.addr then { x with refcount := x.refcount + 1 } else x)
      dsimp only
      rw [h.2.2, if_pos hx]
    · simp only [recalculate_bases, base_update, List.map_map]
      rfl

theorem object_add_shape (alloc : List Nat → Nat) (sl : SceneLayer) (sc j : Nat) (p : List Nat)
    (ob : Nat) (h : RootsShape sl.layer_collections sc j) :
    RootsShape (layer_collection_object_add alloc sl (j :: p) ob).layer_collections sc j := by
  rcases object_add_forest alloc sl (j :: p) ob with h1 | ⟨b, h1⟩
  · rw [h1]; exact h
  · rw [h1]; exact roots_shape_modify h _ (tree_mirrored_appendLink b) p

theorem forest_modify_frame (f : LayerCollection → LayerCollection)
    (forest : List LayerCollection) (j : Nat) (p : List Nat) (k : Nat) (hk : k ≠ j) :
    (forest_modify f forest (j :: p))[k]? = forest[k]? := by
  simp only [forest_modify]
  cases forest[j]? with
  | none => rfl
  | some t => exact List.getElem?_set_ne (Ne.symm hk)

theorem object_add_frame (alloc : List Nat → Nat) (sl : SceneLayer) (j : Nat) (p : List Nat)
    (ob : Nat) (k : Nat) (hk : k ≠ j) :
    (layer_collection_object_add alloc sl (j :: p) ob).layer_collections[k]?
      = sl.layer_collections[k]? := by
  rcases object_add_forest alloc sl (j :: p) ob with h1 | ⟨b, h1⟩
  · rw [h1]
  · rw [h1, forest_modify_frame _ _ _ _ _ hk]

/-! ### The unlink -/

theorem unref_forest (sl : SceneLayer) (a : Nat) :
    (scene_layer_object_base_unref sl a).layer_collections = sl.layer_collections := by
  unfold scene_layer_object_base_unref
  simp only []
  split
  · rfl
  · split <;> rfl

theorem unref_keeps (sl : SceneLayer) (b : ObjectBase) (hb : b ∈ sl.object_bases)
    (hnd : (sl.object_bases.map (fun x => x.addr)).Nodup) (hr : b.refcount - 1 ≠ 0) :
    (scene_layer_object_base_unref sl b.addr).object_bases
      = sl.object_bases.map
          (fun x => if x.addr = b.addr then { x with refcount := x.refcount - 1 } else x) := by
  unfold scene_layer_object_base_unref
  simp only [base_update]
  rw [find_addr_map _ (fun x => by split <;> rfl), find_addr_of_mem _ b hnd hb]
  simp only [Option.map_some', if_true]
  rw [if_neg hr]

theorem object_remove_forest (sl : SceneLayer) (lc : List Nat) (ob : Nat) :
    (layer_collection_object_remove sl lc ob).layer_collections = sl.layer_collections ∨
    ∃ a, (layer_collection_object_remove sl lc ob).layer_collections
      = forest_modify (LayerCollection.removeLink a) sl.layer_collections lc := by
  unfold layer_collection_object_remove
  split
  · exact Or.inl rfl
  · rename_i base _
    exact Or.inr ⟨base.addr, by rw [unref_forest]⟩

theorem object_remove_frame (sl : SceneLayer) (j : Nat) (p : List Nat) (ob : Nat) (k : Nat)
    (hk : k ≠ j) :
    (layer_collection_object_remove sl (j :: p) ob).layer_collections[k]?
      = sl.layer_collections[k]? := by
  rcases object_remove_forest sl (j :: p) ob with h1 | ⟨b, h1⟩
  · rw [h1]
  · rw [h1, forest_modify_frame _ _ _ _ _ hk]

theorem object_remove_registry (sl : SceneLayer) (lc : List Nat) (ob : Nat) (b : ObjectBase)
    (hb : BKE_scene_layer_base_find sl ob = some b)
    (hnd : (sl.object_bases.map (fun x => x.addr)).Nodup) (hr : b.refcount - 1 ≠ 0) :
    (layer_collection_object_remove sl lc ob).object_bases
      = sl.object_bases.map
          (fun x => if x.addr = b.addr then { x with refcount := x.refcount - 1 } else x) := by
  unfold layer_collection_object_remove
  simp only [hb]
  exact unref_keeps _ b (List.mem_of_find?_eq_some hb) hnd hr

/-- Exactly one node mirroring `sc`: it lies under one root, the others have none. -/
theorem count_one_shape (forest : List LayerCollection) (sc : Nat)
    (h : (forest_mirrored forest).count sc = 1) : ∃ j, RootsShape forest sc j := by
  induction forest with
  | nil => simp [forest_mirrored] at h
  | cons t rest ih =>
    rw [forest_mirrored, List.count_append] at h
    by_cases ht : sc ∈ tree_mirrored t
    · have hpos := List.count_pos_iff.mpr ht
      have hrest : sc ∉ forest_mirrored rest := by
        intro hm
        have := List.count_pos_iff.mpr hm
        omega
      obtain ⟨p, hp⟩ : ∃ p, find_layer_collection_by_scene_collection t sc = some p := by
        cases hf : find_layer_collection_by_scene_collection t sc with
        | none => exact absurd ht ((find_eq_none_iff t sc).mp hf)
        | some p => exact ⟨p, rfl⟩
      refine ⟨0, ⟨t, p, List.getElem?_cons_zero, hp⟩, ?_⟩
      intro k lc hk hlc
      cases k with
      | zero => exact absurd rfl hk
      | succ k =>
        rw [List.getElem?_cons_succ] at hlc
        rw [find_eq_none_iff]
        intro hm
        exact hrest ((forest_mirrored_mem _ _).mpr ⟨lc, List.getElem?_mem hlc, hm⟩)
    · have h0 : (tree_mirrored t).count sc = 0 := List.count_eq_zero.mpr ht
      rw [h0, Nat.zero_add] at h
      obtain ⟨j, ⟨t', p, ht', hp⟩, hothers⟩ := ih h
      refine ⟨j + 1, ⟨t', p, by rw [List.getElem?_cons_succ]; exact ht', hp⟩, ?_⟩
      intro k lc hk hlc
      cases k with
      | zero =>
        rw [List.getElem?_cons_zero] at hlc
        cases hlc
        exact (find_eq_none_iff _ sc).mpr ht
      | succ k =>
        rw [List.getElem?_cons_succ] at hlc
        exact hothers k lc (fun e => hk (by rw [e])) hlc

theorem sync_link_unlink_layer (alloc : List Nat → Nat) (sc ob : Nat) (sl : SceneLayer)
    (b : ObjectBase)
    (hnd : (sl.object_bases.map (fun x => x.addr)).Nodup)
    (hb : BKE_scene_layer_base_find sl ob = some b) (hr : 1 ≤ b.refcount)
    (hone : (forest_mirrored sl.layer_collections).count sc = 1) :
    ∃ b1 b2,
      BKE_scene_layer_base_find
        (sync_layer_collections sc (fun s found => layer_collection_object_add alloc s found ob)
          sl) ob = some b1 ∧
      b1.addr = b.addr ∧ b1.refcount = b.refcount + 1 ∧
      BKE_scene_layer_base_find
        (BKE_scene_layer_base_flag_recalculate
          (sync_layer_collections sc (fun s found => layer_collection_object_remove s found ob)
            (sync_layer_collections sc
              (fun s found => layer_collection_object_add alloc s found ob) sl))) ob = some b2 ∧
      b2.addr = b.addr ∧ b2.refcount = b.refcount := by
  obtain ⟨j, hshape⟩ := count_one_shape _ sc hone
  obtain ⟨p, hs1⟩ := sync_layer_collections_shape sc
    (fun s found => layer_collection_object_add alloc s found ob) sl j hshape
    (fun p k hk => object_add_frame alloc sl j p ob k hk)
  rw [hs1]
  obtain ⟨g, hg1, hg2, hg3⟩ := object_add_registry alloc sl (j :: p) ob b hb
  have hshape1 := object_add_shape alloc sl sc j p ob hshape
  have hfind1 : BKE_scene_layer_base_find (layer_collection_object_add alloc sl (j :: p) ob) ob
      = some (g b) := by
    unfold BKE_scene_layer_base_find at hb ⊢
    rw [hg3, find_object_map g (fun x => (hg1 x).2), hb]
    rfl
  have hnd1 : ((layer_collection_object_add alloc sl (j :: p) ob).object_bases.map
      (fun x => x.addr)).Nodup := by
    rw [hg3, List.map_map]
    have : ((fun x : ObjectBase => x.addr) ∘ g) = fun x => x.addr := by
      funext x; exact (hg1 x).1
    rw [this]
    exact hnd
  generalize layer_collection_object_add alloc sl (j :: p) ob = s1 at hshape1 hfind1 hnd1
  obtain ⟨p', hs2⟩ := sync_layer_collections_shape sc
    (fun s found => layer_collection_object_remove s found ob) s1 j hshape1
    (fun p k hk => object_remove_frame s1 j p ob k hk)
  rw [hs2]
  have hrc : (g b).refcount - 1 ≠ 0 := by
    rw [hg2 b rfl]; omega
  have hreg := object_remove_registry s1 (j :: p') ob (g b) hfind1 hnd1 hrc
  have hfind2 : BKE_scene_layer_base_find (layer_collection_object_remove s1 (j :: p') ob) ob
      = some { g b with refcount := (g b).refcount - 1 } := by
    unfold BKE_scene_layer_base_find at hfind1 ⊢
    rw [hreg, find_object_map _ (fun x => by split <;> rfl), hfind1]
    simp
  refine ⟨g b, recalculate_base
    (layer_collection_object_remove s1 (j :: p') ob).layer_collections
    { g b with refcount := (g b).refcount - 1 }, hfind1, (hg1 b).1, hg2 b rfl, ?_, ?_, ?_⟩
  · rw [recalculate_find, hfind2]
    rfl
  · rw [(recalculate_base_same _ _).1]
    exact (hg1 b).1
  · rw [(recalculate_base_same _ _).2.2]
    show (g b).refcount - 1 = b.refcount
    rw [hg2 b rfl]; omega

/-- C10: in a scene layer whose registry has distinct addresses, where `ob` has a base with
refcount `r >= 1` and exactly one node mirrors `sc` and does not yet link `ob`,
`BKE_layer_sync_object_link(scene, sc, ob)` makes the refcount `r + 1`, and a following
`BKE_layer_sync_object_unlink(scene, sc, ob)` makes it `r` again, the base being still in the
registry. -/
theorem sync_object_link_unlink_refcount (alloc : List Nat → Nat) (scene : Scene)
    (sc ob : Nat) (i : Nat) (sl : SceneLayer) (b : ObjectBase) (r : Int)
    (hsl : scene.render_layers[i]? = some sl)
    (hnd : (sl.object_bases.map (fun x => x.addr)).Nodup)
    (hb : BKE_scene_layer_base_find sl ob = some b) (hbr : b.refcount = r) (hr : 1 ≤ r)
    (hone : (forest_mirrored sl.layer_collections).count sc = 1)
    (_hnl : ∀ n ∈ forest_nodes sl.layer_collections,
      n.scene_collection = sc → b.addr ∉ n.object_bases) :
    ∃ sl1 b1 sl2 b2,
      (BKE_layer_sync_object_link alloc scene sc ob).render_layers[i]? = some sl1 ∧
      BKE_scene_layer_base_find sl1 ob = some b1 ∧ b1.addr = b.addr ∧ b1.refcount = r + 1 ∧
      (BKE_layer_sync_object_unlink (BKE_layer_sync_object_link alloc scene sc ob) sc
        ob).render_layers[i]? = some sl2 ∧
      BKE_scene_layer_base_find sl2 ob = some b2 ∧ b2.addr = b.addr ∧ b2.refcount = r := by
  obtain ⟨b1, b2, h1, h2, h3, h4, h5, h6⟩ :=
    sync_link_unlink_layer alloc sc ob sl b hnd hb (hbr ▸ hr) hone
  refine ⟨_, b1, _, b2, ?_, h1, h2, hbr ▸ h3, ?_, h4, h5, hbr ▸ h6⟩
  · simp [BKE_layer_sync_object_link, hsl]
  · simp [BKE_layer_sync_object_unlink, BKE_layer_sync_object_link, hsl]

/-- An instance of C10: object 101 is linked into the child collection 11 and unlinked again. -/
theorem sync_object_link_unlink_refcount_witness :
    demo_scene.render_layers[0]? = some demo_layer ∧
    (demo_layer.object_bases.map (fun x => x.addr)).Nodup ∧
    BKE_scene_layer_base_find demo_layer 101 = some ⟨1, 101, 7, 1⟩ ∧
    (forest_mirrored demo_layer.layer_collections).count 11 = 1 ∧
    ∃ sl1 b1 sl2 b2,
      (BKE_layer_sync_object_link bump_alloc demo_scene 11 101).render_layers[0]? = some sl1 ∧
      BKE_scene_layer_base_find sl1 101 = some b1 ∧ b1.addr = 1 ∧ b1.refcount = 1 + 1 ∧
      (BKE_layer_sync_object_unlink (BKE_layer_sync_object_link bump_alloc demo_scene 11 101) 11
        101).render_layers[0]? = some sl2 ∧
      BKE_scene_layer_base_find sl2 101 = some b2 ∧ b2.addr = 1 ∧ b2.refcount = 1 :=
  ⟨rfl, by decide, by decide, by decide,
   sync_object_link_unlink_refcount bump_alloc demo_scene 11 101 0 demo_layer ⟨1, 101, 7, 1⟩ 1
     rfl (by decide) (by decide) rfl (by decide) (by decide) (by decide)⟩

/-! ## Where the code departs from the claims -/

/-- C1 at a failing input: the master collection has object 101 in `objects` and in
`filter_objects`; after `BKE_scene_layer_add` the base of 101 has refcount 2 while the
forest holds one link to it. -/
theorem scene_layer_add_refcount_exceeds_links :
    (BKE_scene_layer_add bump_alloc demo_scene_filter).1.render_layers.map
      (fun sl => (sl.object_bases.map (fun b => (b.addr, b.object, b.refcount)),
        forest_links sl.layer_collections))
      = [([(1, 101, 2)], [1])] := by
  decide

/-- C4 at a failing input: linking the same collection into an empty layer and unlinking the
returned root leaves the base of 101 in the registry, with refcount 1, where the registry
was empty before. -/
theorem link_unlink_leaves_base :
    (BKE_collection_link bump_alloc demo_layer_empty demo_scene_filter.collection).2 = [0] ∧
    (BKE_collection_unlink
      (BKE_collection_link bump_alloc demo_layer_empty demo_scene_filter.collection).1
      (BKE_collection_link bump_alloc demo_layer_empty demo_scene_filter.collection).2).object_bases
      = [⟨1, 101, 0, 1⟩] ∧
    demo_layer_empty.object_bases = [] := by
  decide

/-- C9 at a failing input: the master collection directly holds the distinct objects 101 and
102; after `BKE_scene_layer_add` there is one root and one base per object with refcount 1,
but the base of 102 has flag 0: neither `BASE_VISIBLED` nor `BASE_SELECTABLED`. -/
theorem scene_layer_add_last_base_flags :
    (BKE_scene_layer_add bump_alloc demo_scene_two).1.render_layers.map
      (fun sl => (forest_mirrored sl.layer_collections, forest_links sl.layer_collections,
        sl.object_bases))
      = [([10], [1, 2], [⟨1, 101, 6, 1⟩, ⟨2, 102, 0, 1⟩])] := by
  decide

/-! ## The registry operations -/

theorem base_update_of_not_mem (a : Nat) (f : ObjectBase → ObjectBase) (l : List ObjectBase)
    (h : a ∉ l.map (fun b => b.addr)) : base_update a f l = l := by
  unfold base_update
  conv_rhs => rw [← List.map_id l]
  apply List.map_congr_left
  intro x hx
  have : x.addr ≠ a := fun e => h (e ▸ List.mem_map_of_mem _ hx)
  simp [this]

theorem base_update_split (f : ObjectBase → ObjectBase) (pre post : List ObjectBase)
    (b : ObjectBase) (hnd : ((pre ++ b :: post).map (fun x => x.addr)).Nodup) :
    base_update b.addr f (pre ++ b :: post) = pre ++ f b :: post := by
  rw [List.map_append, List.map_cons] at hnd
  have h1 : b.addr ∉ pre.map (fun x => x.addr) := by
    intro hm
    exact (List.nodup_append.mp hnd).2.2 hm (List.mem_cons_self _ _)
  have h2 : b.addr ∉ post.map (fun x => x.addr) :=
    (List.nodup_cons.mp (List.nodup_append.mp hnd).2.1).1
  have e1 := base_update_of_not_mem b.addr f pre h1
  have e2 := base_update_of_not_mem b.addr f post h2
  unfold base_update at e1 e2 ⊢
  rw [List.map_append, List.map_cons, e1, e2]
  simp

theorem filter_addr_split (pre post : List ObjectBase) (b b' : ObjectBase)
    (hb : b'.addr = b.addr)
    (hnd : ((pre ++ b :: post).map (fun x => x.addr)).Nodup) :
    (pre ++ b' :: post).filter (fun x => x.addr != b.addr) = pre ++ post := by
  rw [List.map_append, List.map_cons] at hnd
  have h1 : b.addr ∉ pre.map (fun x => x.addr) := by
    intro hm
    exact (List.nodup_append.mp hnd).2.2 hm (List.mem_cons_self _ _)
  have h2 : b.addr ∉ post.map (fun x => x.addr) :=
    (List.nodup_cons.mp (List.nodup_append.mp hnd).2.1).1
  have e1 : pre.filter (fun x => x.addr != b.addr) = pre := by
    apply List.filter_eq_self.mpr
    intro x hx
    have : x.addr ≠ b.addr := fun e => h1 (e ▸ List.mem_map_of_mem _ hx)
    simpa using this
  have e2 : post.filter (fun x => x.addr != b.addr) = post := by
    apply List.filter_eq_self.mpr
    intro x hx
    have : x.addr ≠ b.addr := fun e => h2 (e ▸ List.mem_map_of_mem _ hx)
    simpa using this
  rw [List.filter_append, List.filter_cons, e1, e2]
  simp [hb]

/-- C12: with the bases of the registry at distinct addresses and a fresh block from the
allocator, `object_base_add(sl, ob)` returns a base whose object is `ob`: a base found by
`BKE_scene_layer_base_find` is returned itself, with its refcount one higher and the registry
list otherwise as it was; without one, a new base with refcount 1 and flag 0 is appended at
the tail; no other base and nothing else of the layer is modified. -/
theorem object_base_add_effect (alloc : List Nat → Nat) (sl : SceneLayer) (ob : Nat)
    (hnd : (sl.object_bases.map (fun x => x.addr)).Nodup)
    (hfresh : alloc (sl.object_bases.map (fun x => x.addr)) ∉
      sl.object_bases.map (fun x => x.addr)) :
    ((object_base_add alloc sl ob).1.layer_collections = sl.layer_collections ∧
      (object_base_add alloc sl ob).1.basact = sl.basact ∧
      (object_base_add alloc sl ob).1.active_collection = sl.active_collection) ∧
    (∀ b, BKE_scene_layer_base_find sl ob = some b →
      b.object = ob ∧ (object_base_add alloc sl ob).2 = b.addr ∧
      ∃ pre post, sl.object_bases = pre ++ b :: post ∧
        (object_base_add alloc sl ob).1.object_bases
          = pre ++ { b with refcount := b.refcount + 1 } :: post) ∧
    (BKE_scene_layer_base_find sl ob = none →
      (object_base_add alloc sl ob).1.object_bases
        = sl.object_bases ++ [⟨(object_base_add alloc sl ob).2, ob, 0, 1⟩]) := by
  refine ⟨?_, ?_, ?_⟩
  · unfold object_base_add
    split <;> exact ⟨rfl, rfl, rfl⟩
  · intro b hb
    have hmem : b ∈ sl.object_bases := List.mem_of_find?_eq_some hb
    have hob : b.object = ob := by
      have := List.find?_some hb
      simpa using this
    obtain ⟨pre, post, hsplit⟩ := List.append_of_mem hmem
    rw [object_base_add_found alloc sl ob b hb]
    refine ⟨hob, rfl, pre, post, hsplit, ?_⟩
    show base_update b.addr _ sl.object_bases = _
    rw [hsplit] at hnd ⊢
    exact base_update_split _ pre post b hnd
  · intro hb
    simp only [object_base_add, hb]
    have e1 := base_update_of_not_mem _
      (fun b : ObjectBase => { b with refcount := b.refcount + 1 }) sl.object_bases hfresh
    unfold base_update at e1 ⊢
    rw [List.map_append, e1]
    simp

/-- An instance of C12: object 104 has no base in the demo layer. -/
theorem object_base_add_effect_witness :
    (demo_layer.object_bases.map (fun x => x.addr)).Nodup ∧
    bump_alloc (demo_layer.object_bases.map (fun x => x.addr)) ∉
      demo_layer.object_bases.map (fun x => x.addr) ∧
    (object_base_add bump_alloc demo_layer 104).1.object_bases
      = demo_layer.object_bases ++ [⟨(object_base_add bump_alloc demo_layer 104).2, 104, 0, 1⟩] :=
  ⟨by decide, by decide,
   (object_base_add_effect bump_alloc demo_layer 104 (by decide) (by decide)).2.2 (by decide)⟩

/-- C13: with the bases of the registry at distinct addresses, for a base `b` of the
registry, `scene_layer_object_base_unref(sl, b)` with refcount above 1 only lowers the
refcount of `b` by one (registry order and active base unchanged); with refcount 1 it removes
`b`, keeps the other bases in order, and clears the active base if and only if it was `b`. -/
theorem object_base_unref_effect (sl : SceneLayer) (b : ObjectBase)
    (pre post : List ObjectBase) (hsplit : sl.object_bases = pre ++ b :: post)
    (hnd : (sl.object_bases.map (fun x => x.addr)).Nodup) :
    (scene_layer_object_base_unref sl b.addr).layer_collections = sl.layer_collections ∧
    (scene_layer_object_base_unref sl b.addr).active_collection = sl.active_collection ∧
    (1 < b.refcount →
      (scene_layer_object_base_unref sl b.addr).object_bases
        = pre ++ { b with refcount := b.refcount - 1 } :: post ∧
      (scene_layer_object_base_unref sl b.addr).basact = sl.basact) ∧
    (b.refcount = 1 →
      (scene_layer_object_base_unref sl b.addr).object_bases = pre ++ post ∧
      (scene_layer_object_base_unref sl b.addr).basact
        = if sl.basact = some b.addr then none else sl.basact) := by
  have hupd : base_update b.addr (fun x => { x with refcount := x.refcount - 1 }) sl.object_bases
      = pre ++ { b with refcount := b.refcount - 1 } :: post := by
    rw [hsplit] at hnd ⊢
    exact base_update_split _ pre post b hnd
  have hfind : (pre ++ ({ b with refcount := b.refcount - 1 } : ObjectBase) :: post).find?
      (fun x => x.addr == b.addr) = some { b with refcount := b.refcount - 1 } := by
    have hnd2 : ((pre ++ ({ b with refcount := b.refcount - 1 } : ObjectBase) :: post).map
        (fun x => x.addr)).Nodup := by
      rw [hsplit] at hnd
      simpa using hnd
    exact find_addr_of_mem _ ({ b with refcount := b.refcount - 1 } : ObjectBase) hnd2
      (by simp)
  refine ⟨?_, ?_, ?_, ?_⟩
  · unfold scene_layer_object_base_unref
    simp only [hupd, hfind]
    split <;> rfl
  · unfold scene_layer_object_base_unref
    simp only [hupd, hfind]
    split <;> rfl
  · intro h1
    unfold scene_layer_object_base_unref
    simp only [hupd, hfind]
    rw [if_neg (by omega)]
    exact ⟨rfl, rfl⟩
  · intro h1
    unfold scene_layer_object_base_unref
    simp only [hupd, hfind]
    rw [if_pos (by omega)]
    refine ⟨?_, rfl⟩
    show List.filter _ _ = _
    rw [hsplit] at hnd
    exact filter_addr_split pre post b _ rfl hnd

/-- An instance of C13: base 2 of the demo layer has refcount 1 and is removed. -/
theorem object_base_unref_effect_witness :
    demo_layer.object_bases = [⟨1, 101, 7, 1⟩] ++ ⟨2, 102, 0, 1⟩ :: [⟨3, 103, 5, 1⟩] ∧
    (demo_layer.object_bases.map (fun x => x.addr)).Nodup ∧
    (scene_layer_object_base_unref demo_layer 2).object_bases
      = [⟨1, 101, 7, 1⟩] ++ [⟨3, 103, 5, 1⟩] :=
  ⟨by decide, by decide,
   ((object_base_unref_effect demo_layer ⟨2, 102, 0, 1⟩ [⟨1, 101, 7, 1⟩] [⟨3, 103, 5, 1⟩]
      (by decide) (by decide)).2.2.2 rfl).1⟩

/-- C20 at a failing input: root 0 of the demo layer already links the base of object 101;
`layer_collection_object_add` leaves the links as they are but raises the refcount of the
base from 1 to 2. -/
theorem object_add_again_bumps_refcount :
    (forest_get demo_layer.layer_collections [0]).map (fun n => n.object_bases) = some [1] ∧
    BKE_scene_layer_base_find demo_layer 101 = some ⟨1, 101, 7, 1⟩ ∧
    (forest_get (layer_collection_object_add bump_alloc demo_layer [0] 101).layer_collections
      [0]).map (fun n => n.object_bases) = some [1] ∧
    BKE_scene_layer_base_find (layer_collection_object_add bump_alloc demo_layer [0] 101) 101
      = some ⟨1, 101, 7, 2⟩ := by
  decide

/-! ## Bases under a node that is not visible -/

theorem forest_links_mem (cs : List LayerCollection) (x : Nat) :
    x ∈ forest_links cs ↔ ∃ c ∈ cs, x ∈ tree_links c := by
  induction cs with
  | nil => simp [forest_links]
  | cons c cs ih => simp [forest_links, ih]

theorem links_write_of_not_mem (links : List Nat) (v s : Bool) (b : ObjectBase)
    (h : b.addr ∉ links) : links_write links v s b = b := by
  induction links with
  | nil => rfl
  | cons l ls ih =>
    rw [links_write, List.foldl_cons]
    have h1 : b.addr ≠ l := fun e => h (e ▸ List.mem_cons_self _ _)
    rw [if_neg h1]
    exact ih (fun hm => h (List.mem_cons_of_mem _ hm))

theorem forest_write_of_not_linked_of_tree (cs : List LayerCollection)
    (ih : ∀ c ∈ cs, ∀ v s b, b.addr ∉ tree_links c → tree_write c v s b = b) (v s : Bool)
    (b : ObjectBase) (h : b.addr ∉ forest_links cs) : forest_write cs v s b = b := by
  induction cs with
  | nil => rfl
  | cons c cs ihc =>
    rw [forest_links, List.mem_append, not_or] at h
    rw [forest_write, ih c (List.mem_cons_self _ _) v s b h.1]
    exact ihc (fun c hc => ih c (List.mem_cons_of_mem _ hc)) h.2

theorem tree_write_of_not_linked (t : LayerCollection) :
    ∀ v s b, b.addr ∉ tree_links t → tree_write t v s b = b := by
  induction t using layer_collection_induct with
  | h sc f ls cs ih =>
    intro v s b h
    rw [tree_links, List.mem_append, not_or] at h
    rw [tree_write, links_write_of_not_mem ls _ _ b h.1]
    exact forest_write_of_not_linked_of_tree cs ih _ _ b h.2

theorem forest_write_of_not_linked (cs : List LayerCollection) (v s : Bool) (b : ObjectBase)
    (h : b.addr ∉ forest_links cs) : forest_write cs v s b = b :=
  forest_write_of_not_linked_of_tree cs (fun c _ => tree_write_of_not_linked c) v s b h

theorem base_set_derived_hidden (b : ObjectBase) : Hidden (base_set_derived false false b) := by
  constructor
  · show flag_clear (flag_clear b.flag BASE_VISIBLED) BASE_SELECTABLED &&& BASE_VISIBLED = 0
    rw [flag_clear_and_other _ _ _ (by decide), flag_clear_and_self]
  · exact flag_clear_and_self _ _

theorem links_write_hidden (links : List Nat) (b : ObjectBase)
    (hb : Hidden b ∨ b.addr ∈ links) : Hidden (links_write links false false b) := by
  induction links generalizing b with
  | nil =>
    rcases hb with hb | hb
    · exact hb
    · cases hb
  | cons l ls ih =>
    rw [links_write, List.foldl_cons]
    apply ih
    by_cases hl : b.addr = l
    · rw [if_pos hl]
      exact Or.inl (base_set_derived_hidden b)
    · rw [if_neg hl]
      rcases hb with hb | hb
      · exact Or.inl hb
      · rcases List.mem_cons.mp hb with hb | hb
        · exact absurd hb hl
        · exact Or.inr hb

theorem forest_write_hidden_of_tree (cs : List LayerCollection)
    (ih : ∀ c ∈ cs, ∀ s b, Hidden b ∨ b.addr ∈ tree_links c → Hidden (tree_write c false s b))
    (s : Bool) (b : ObjectBase) (hb : Hidden b ∨ b.addr ∈ forest_links cs) :
    Hidden (forest_write cs false s b) := by
  induction cs generalizing b with
  | nil =>
    rcases hb with hb | hb
    · exact hb
    · simp [forest_links] at hb
  | cons c cs ihc =>
    rw [forest_write]
    apply ihc (fun c hc => ih c (List.mem_cons_of_mem _ hc))
    rw [tree_write_addr]
    rcases hb with hb | hb
    · exact Or.inl (ih c (List.mem_cons_self _ _) s b (Or.inl hb))
    · rw [forest_links, List.mem_append] at hb
      rcases hb with hb | hb
      · exact Or.inl (ih c (List.mem_cons_self _ _) s b (Or.inr hb))
      · exact Or.inr hb

/-- Below a point where the tree is not visible, every linked base ends hidden. -/
theorem tree_write_hidden (t : LayerCollection) :
    ∀ s b, Hidden b ∨ b.addr ∈ tree_links t → Hidden (tree_write t false s b) := by
  induction t using layer_collection_induct with
  | h sc f ls cs ih =>
    intro s b hb
    rw [tree_write]
    simp only [Bool.false_and, Bool.and_false]
    apply forest_write_hidden_of_tree cs ih
    rw [links_write_addr]
    rcases hb with hb | hb
    · exact Or.inl (links_write_hidden ls b (Or.inl hb))
    · rw [tree_links, List.mem_append] at hb
      rcases hb with hb | hb
      · exact Or.inl (links_write_hidden ls b (Or.inr hb))
      · exact Or.inr hb

/-- A node whose `COLLECTION_VISIBLE` is clear hides the bases it links, whatever comes from
above. -/
theorem tree_write_hidden_of_flag (n : LayerCollection) (v s : Bool) (b : ObjectBase)
    (hv : n.flag &&& COLLECTION_VISIBLE = 0) (hb : b.addr ∈ tree_links n) :
    Hidden (tree_write n v s b) := by
  cases n with
  | mk sc f ls cs =>
    simp only [LayerCollection.flag] at hv
    have h := tree_write_hidden (.mk sc f ls cs) s b (Or.inr hb)
    rw [tree_write] at h ⊢
    simpa [hv] using h

theorem forest_write_at (cs : List LayerCollection) (v s : Bool) :
    ∀ (i : Nat) (c : LayerCollection) (b : ObjectBase), cs[i]? = some c →
      (∀ (k : Nat) (c' : LayerCollection), k ≠ i → cs[k]? = some c' →
        b.addr ∉ tree_links c') →
      forest_write cs v s b = tree_write c v s b := by
  induction cs with
  | nil => intro i c b h; simp at h
  | cons x cs ih =>
    intro i c b h hothers
    rw [forest_write]
    cases i with
    | zero =>
      simp only [List.getElem?_cons_zero, Option.some.injEq] at h
      subst h
      apply forest_write_of_not_linked
      rw [tree_write_addr, forest_links_mem]
      rintro ⟨c', hc', hm⟩
      obtain ⟨k, hk⟩ := List.mem_iff_getElem?.mp hc'
      exact hothers (k + 1) c' (by omega) (by simpa using hk) hm
    | succ i =>
      simp only [List.getElem?_cons_succ] at h
      rw [tree_write_of_not_linked x v s b
        (hothers 0 x (by omega) (by simp))]
      apply ih i c b h
      intro k c' hk hc'
      exact hothers (k + 1) c' (by omega) (by simpa using hc')

/-- A base linked in the forest but nowhere outside the subtree of a node is linked in
that subtree, and the recalculation of the whole tree ends with what that subtree writes. -/
theorem tree_write_hidden_path (b : ObjectBase) (p : List Nat) :
    ∀ (t n : LayerCollection) (v s : Bool), t.get p = some n →
      n.flag &&& COLLECTION_VISIBLE = 0 →
      b.addr ∈ tree_links t →
      b.addr ∉ tree_links (t.modify LayerCollection.freed p) →
      Hidden (tree_write t v s b) := by
  induction p with
  | nil =>
    intro t n v s hn hv hin _
    rw [tree_get_nil] at hn
    cases hn
    exact tree_write_hidden_of_flag t v s b hv hin
  | cons i q ih =>
    intro t n v s hn hv hin hout
    cases t with
    | mk sc f ls cs =>
      simp only [LayerCollection.get] at hn
      obtain ⟨c, hc⟩ : ∃ c, cs[i]? = some c := by
        cases hc : cs[i]? with
        | none => simp [hc] at hn
        | some c => exact ⟨c, rfl⟩
      simp only [hc] at hn
      simp only [LayerCollection.modify, hc, tree_links, List.mem_append, not_or] at hout
      have hilt : i < cs.length := (List.getElem?_eq_some_iff.mp hc).1
      have hothers : ∀ (k : Nat) (c' : LayerCollection), k ≠ i → cs[k]? = some c' →
          b.addr ∉ tree_links c' := by
        intro k c' hk hc' hm
        apply hout.2
        rw [forest_links_mem]
        refine ⟨c', ?_, hm⟩
        apply List.mem_iff_getElem?.mpr
        exact ⟨k, by rw [List.getElem?_set_ne (Ne.symm hk)]; exact hc'⟩
      have hcout : b.addr ∉ tree_links (c.modify LayerCollection.freed q) := by
        intro hm
        apply hout.2
        rw [forest_links_mem]
        refine ⟨_, ?_, hm⟩
        apply List.mem_iff_getElem?.mpr
        exact ⟨i, List.getElem?_set_self hilt⟩
      have hcin : b.addr ∈ tree_links c := by
        simp only [tree_links, List.mem_append] at hin
        rcases hin with hin | hin
        · exact absurd hin hout.1
        · obtain ⟨c', hc', hm⟩ := (forest_links_mem _ _).mp hin
          obtain ⟨k, hk⟩ := List.mem_iff_getElem?.mp hc'
          by_cases hki : k = i
          · subst hki
            rw [hc] at hk
            cases hk
            exact hm
          · exact absurd hm (hothers k c' hki hk)
      rw [tree_write, links_write_of_not_mem ls _ _ b hout.1,
        forest_write_at cs _ _ i c b hc hothers]
      exact ih c n _ _ hn hv hcin hcout

theorem forest_write_eq_root (forest : List LayerCollection) (b : ObjectBase) :
    forest_write forest true true b = tree_write (.mk 0 7 [] forest) true true b := by
  rw [tree_write]
  rfl

theorem forest_modify_root (f : LayerCollection → LayerCollection)
    (forest : List LayerCollection) (i : Nat) (p : List Nat) :
    (LayerCollection.mk 0 7 [] forest).modify f (i :: p)
      = .mk 0 7 [] (forest_modify f forest (i :: p)) := by
  simp only [LayerCollection.modify, forest_modify]
  cases forest[i]? <;> rfl

/-- C11, amended: for a node `n` of the forest whose `COLLECTION_VISIBLE` is clear, after
`BKE_scene_layer_base_flag_recalculate(sl)` every base that is linked by at least one node
and all of whose links lie in the subtree rooted at `n` has `BASE_VISIBLED`,
`BASE_SELECTABLED` and `BASE_SELECTED` clear, whatever the flags of the descendants of `n`
and of the base were before. -/
theorem recalculate_hidden_subtree (sl : SceneLayer) (p : List Nat) (n : LayerCollection)
    (b : ObjectBase)
    (hn : forest_get sl.layer_collections p = some n)
    (hv : n.flag &&& COLLECTION_VISIBLE = 0)
    (hb : b ∈ (BKE_scene_layer_base_flag_recalculate sl).object_bases)
    (hin : b.addr ∈ forest_links sl.layer_collections)
    (hout : b.addr ∉ forest_links (forest_modify LayerCollection.freed sl.layer_collections p)) :
    b.flag &&& BASE_VISIBLED = 0 ∧ b.flag &&& BASE_SELECTABLED = 0 ∧
      b.flag &&& BASE_SELECTED = 0 := by
  rw [recalculate_bases, List.mem_map] at hb
  obtain ⟨b0, -, rfl⟩ := hb
  have haddr : (recalculate_base sl.layer_collections b0).addr = b0.addr :=
    (recalculate_base_same _ b0).1
  rw [haddr] at hin hout
  have hh : Hidden (forest_write sl.layer_collections true true b0) := by
    cases p with
    | nil => simp [forest_get] at hn
    | cons i q =>
      rw [forest_write_eq_root]
      apply tree_write_hidden_path b0 (i :: q) (.mk 0 7 [] sl.layer_collections) n true true
        (by simpa [forest_get, LayerCollection.get] using hn) hv
      · simpa [tree_links] using hin
      · rw [forest_modify_root]
        simpa [tree_links] using hout
  unfold recalculate_base
  rw [if_pos hh.2]
  refine ⟨?_, ?_, ?_⟩
  · show flag_clear _ BASE_SELECTED &&& BASE_VISIBLED = 0
    rw [flag_clear_and_other _ _ _ (by decide)]
    exact hh.1
  · show flag_clear _ BASE_SELECTED &&& BASE_SELECTABLED = 0
    rw [flag_clear_and_other _ _ _ (by decide)]
    exact hh.2
  · exact flag_clear_and_self _ _

/-- An instance of C11 as amended: base 2, linked below the root that is not visible. -/
theorem recalculate_hidden_subtree_witness :
    forest_get demo_layer_hidden.layer_collections [0] = some (.mk 10 6 [1] [.mk 11 7 [2] []]) ∧
    (6 : Nat) &&& COLLECTION_VISIBLE = 0 ∧
    (⟨2, 102, 0, 1⟩ : ObjectBase) ∈
      (BKE_scene_layer_base_flag_recalculate demo_layer_hidden).object_bases ∧
    (0 : Nat) &&& BASE_VISIBLED = 0 ∧ (0 : Nat) &&& BASE_SELECTABLED = 0 ∧
      (0 : Nat) &&& BASE_SELECTED = 0 :=
  ⟨rfl, by decide, by decide,
   recalculate_hidden_subtree demo_layer_hidden [0] (.mk 10 6 [1] [.mk 11 7 [2] []])
     ⟨2, 102, 0, 1⟩ rfl (by decide) (by decide) (by decide) (by decide)⟩

/-- C11 as stated fails for a base without any link: base 3 of the layer has no link outside
the subtree of the root, whose `COLLECTION_VISIBLE` is clear, and keeps `BASE_VISIBLED`
through the recalculation. -/
theorem recalculate_hidden_subtree_unlinked :
    (forest_get demo_layer_hidden.layer_collections [0]).map (fun n => n.flag) = some 6 ∧
    (6 : Nat) &&& COLLECTION_VISIBLE = 0 ∧
    (⟨3, 103, 7, 1⟩ : ObjectBase) ∈
      (BKE_scene_layer_base_flag_recalculate demo_layer_hidden).object_bases ∧
    3 ∉ forest_links
      (forest_modify LayerCollection.freed demo_layer_hidden.layer_collections [0]) ∧
    (7 : Nat) &&& BASE_VISIBLED ≠ 0 := by
  decide

/-! ## The flattened pre-order index -/

theorem tree_paths_eq (t : LayerCollection) (here : List Nat) :
    tree_paths t here = here :: forest_paths t.layer_collections here 0 := by
  cases t; rfl

theorem collection_count_nested_eq (t : LayerCollection) :
    collection_count_nested t = collection_count t.layer_collections := by
  cases t; rfl

theorem collection_from_index_nested_eq (number : Int) (t : LayerCollection) (here : List Nat)
    (i : Int) :
    collection_from_index_nested number t here i
      = collection_from_index number t.layer_collections here 0 i := by
  cases t; rfl

theorem index_from_collection_nested_eq (lc : List Nat) (t : LayerCollection) (here : List Nat)
    (i : Int) :
    index_from_collection_nested lc t here i
      = index_from_collection lc t.layer_collections here 0 i := by
  cases t; rfl

theorem collection_count_of_tree (cs : List LayerCollection)
    (ih : ∀ c ∈ cs, ∀ here k,
      collection_count c.layer_collections = (forest_paths c.layer_collections here k).length)
    (here : List Nat) (k : Nat) :
    collection_count cs = (forest_paths cs here k).length := by
  induction cs generalizing k with
  | nil => rfl
  | cons c cs ihc =>
    rw [collection_count, forest_paths, collection_count_nested_eq, tree_paths_eq,
      ih c (List.mem_cons_self _ _) (here ++ [k]) 0,
      ihc (fun c hc => ih c (List.mem_cons_of_mem _ hc)) (k + 1)]
    simp only [List.length_append, List.length_cons]
    push_cast
    ring

theorem collection_count_children (t : LayerCollection) :
    ∀ here k,
      collection_count t.layer_collections = (forest_paths t.layer_collections here k).length := by
  induction t using layer_collection_induct with
  | h sc f ls cs ih =>
    intro here k
    exact collection_count_of_tree cs ih here k

theorem collection_count_eq (cs : List LayerCollection) (here : List Nat) (k : Nat) :
    collection_count cs = (forest_paths cs here k).length :=
  collection_count_of_tree cs (fun c _ => collection_count_children c) here k

theorem from_index_of_tree (number : Int) (cs : List LayerCollection)
    (ih : ∀ c ∈ cs, FromIndexSpec number c.layer_collections) :
    FromIndexSpec number cs := by
  induction cs with
  | nil =>
    intro here k i
    refine ⟨fun _ => by simp [collection_from_index, forest_paths], ?_⟩
    intro j _ hj
    simp [forest_paths] at hj
  | cons c cs ihc =>
    intro here k i
    have hc := ih c (List.mem_cons_self _ _) (here ++ [k]) 0 (i + 1)
    have hrest := ihc (fun c hc => ih c (List.mem_cons_of_mem _ hc)) here (k + 1)
      (i + 1 + (forest_paths c.layer_collections (here ++ [k]) 0).length)
    rw [collection_from_index, collection_from_index_nested_eq, forest_paths, tree_paths_eq]
    simp only [List.cons_append, List.length_cons, List.length_append]
    constructor
    · intro hout
      have hne : i ≠ number := by omega
      rw [if_neg hne, hc.1 (by omega)]
      simp only []
      rw [hrest.1 (by omega)]
      congr 1
      push_cast
      ring
    · intro j hj hlt
      cases j with
      | zero =>
        have : i = number := by omega
        rw [if_pos this]
        simp [this]
      | succ j =>
        have hne : i ≠ number := by omega
        rw [if_neg hne]
        by_cases hjc : j < (forest_paths c.layer_collections (here ++ [k]) 0).length
        · rw [hc.2 j (by omega) hjc]
          rw [List.getElem?_cons_succ, List.getElem?_append_left hjc]
          rw [List.getElem?_eq_getElem hjc]
        · rw [hc.1 (by omega)]
          simp only []
          rw [hrest.2 (j - (forest_paths c.layer_collections (here ++ [k]) 0).length)
            (by omega) (by omega)]
          rw [List.getElem?_cons_succ, List.getElem?_append_right (by omega)]

theorem from_index_children (number : Int) (t : LayerCollection) :
    FromIndexSpec number t.layer_collections := by
  induction t using layer_collection_induct with
  | h sc f ls cs ih => exact from_index_of_tree number cs ih

theorem from_index_spec (number : Int) (cs : List LayerCollection) : FromIndexSpec number cs :=
  from_index_of_tree number cs (fun c _ => from_index_children number c)

theorem path_index_append_of_mem (lc : List Nat) (l1 l2 : List (List Nat)) (h : lc ∈ l1) :
    path_index lc (l1 ++ l2) = path_index lc l1 := by
  induction l1 with
  | nil => cases h
  | cons p ps ih =>
    rw [List.cons_append, path_index, path_index]
    by_cases hp : p = lc
    · simp [hp]
    · rw [if_neg hp, if_neg hp]
      rcases List.mem_cons.mp h with h | h
      · exact absurd h.symm hp
      · rw [ih h]

theorem path_index_append_of_not_mem (lc : List Nat) (l1 l2 : List (List Nat)) (h : lc ∉ l1) :
    path_index lc (l1 ++ l2) = l1.length + path_index lc l2 := by
  induction l1 with
  | nil => simp
  | cons p ps ih =>
    rw [List.cons_append, path_index, List.length_cons]
    have hp : p ≠ lc := fun e => h (e ▸ List.mem_cons_self _ _)
    rw [if_neg hp, ih (fun hm => h (List.mem_cons_of_mem _ hm))]
    omega

theorem path_index_lt_of_mem (lc : List Nat) (l : List (List Nat)) (h : lc ∈ l) :
    path_index lc l < l.length := by
  induction l with
  | nil => cases h
  | cons p ps ih =>
    simp only [path_index, List.length_cons]
    by_cases hp : p = lc
    · simp [hp]
    · rw [if_neg hp]
      rcases List.mem_cons.mp h with h | h
      · exact absurd h.symm hp
      · have := ih h
        omega

theorem path_index_getElem (lc : List Nat) (l : List (List Nat)) (h : lc ∈ l) :
    l[path_index lc l]? = some lc := by
  induction l with
  | nil => cases h
  | cons p ps ih =>
    simp only [path_index]
    by_cases hp : p = lc
    · simp [hp]
    · rw [if_neg hp, List.getElem?_cons_succ]
      rcases List.mem_cons.mp h with h | h
      · exact absurd h.symm hp
      · exact ih h

theorem path_index_of_getElem (l : List (List Nat)) (hnd : l.Nodup) (j : Nat) (p : List Nat)
    (h : l[j]? = some p) : path_index p l = j := by
  induction l generalizing j with
  | nil => simp at h
  | cons q qs ih =>
    rw [List.nodup_cons] at hnd
    cases j with
    | zero =>
      simp only [List.getElem?_cons_zero, Option.some.injEq] at h
      simp [path_index, h]
    | succ j =>
      simp only [List.getElem?_cons_succ] at h
      have hq : q ≠ p := fun e => hnd.1 (e ▸ List.getElem?_mem h)
      simp only [path_index, if_neg hq]
      rw [ih hnd.2 j h]

theorem index_of_of_tree (lc : List Nat) (cs : List LayerCollection)
    (ih : ∀ c ∈ cs, IndexOfSpec lc c.layer_collections) : IndexOfSpec lc cs := by
  induction cs with
  | nil =>
    intro here k i _
    refine ⟨fun _ => by simp [index_from_collection, forest_paths], ?_⟩
    intro h
    simp [forest_paths] at h
  | cons c cs ihc =>
    intro here k i hi
    have hc := ih c (List.mem_cons_self _ _) (here ++ [k]) 0 (i + 1) (by omega)
    have hrest := ihc (fun c hc => ih c (List.mem_cons_of_mem _ hc)) here (k + 1)
      (i + 1 + (forest_paths c.layer_collections (here ++ [k]) 0).length) (by omega)
    rw [index_from_collection, index_from_collection_nested_eq, forest_paths, tree_paths_eq]
    simp only [List.cons_append, List.length_cons, List.length_append, List.mem_cons,
      List.mem_append, not_or]
    by_cases hhere : here ++ [k] = lc
    · rw [if_pos hhere]
      refine ⟨fun h => absurd hhere.symm h.1, fun _ => ?_⟩
      simp [path_index, hhere]
    · rw [if_neg hhere]
      have hne : lc ≠ here ++ [k] := fun e => hhere e.symm
      by_cases hmc : lc ∈ forest_paths c.layer_collections (here ++ [k]) 0
      · rw [(hc.2 hmc)]
        have hnn : (i + 1 + (path_index lc (forest_paths c.layer_collections (here ++ [k]) 0) : Nat)
            : Int) ≠ -1 := by omega
        rw [if_pos hnn]
        refine ⟨fun h => absurd hmc h.2.1, fun _ => ?_⟩
        rw [path_index, if_neg hhere, path_index_append_of_mem _ _ _ hmc]
        push_cast
        congr 1 <;> ring
      · rw [(hc.1 hmc)]
        simp only [ne_eq, not_true_eq_false, if_false]
        by_cases hmr : lc ∈ forest_paths cs here (k + 1)
        · rw [hrest.2 hmr]
          refine ⟨fun h => absurd hmr h.2.2, fun _ => ?_⟩
          rw [path_index, if_neg hhere, path_index_append_of_not_mem _ _ _ hmc]
          push_cast
          congr 1 <;> ring
        · rw [hrest.1 hmr]
          refine ⟨fun _ => ?_, fun h => ?_⟩
          · congr 1
            push_cast
            ring
          · rcases h with h | h | h
            · exact absurd h hne
            · exact absurd h hmc
            · exact absurd h hmr

theorem index_of_children (lc : List Nat) (t : LayerCollection) :
    IndexOfSpec lc t.layer_collections := by
  induction t using layer_collection_induct with
  | h sc f ls cs ih => exact index_of_of_tree lc cs ih

theorem index_of_spec (lc : List Nat) (cs : List LayerCollection) : IndexOfSpec lc cs :=
  index_of_of_tree lc cs (fun c _ => index_of_children lc c)

theorem tree_get_cons_isSome (t : LayerCollection) (j : Nat) (q : List Nat) :
    (t.get (j :: q)).isSome = true ↔
      ∃ c, t.layer_collections[j]? = some c ∧ (c.get q).isSome = true := by
  cases t with
  | mk s f ls cs =>
    simp only [LayerCollection.get, LayerCollection.layer_collections]
    cases cs[j]? with
    | none => simp
    | some c => simp

theorem tree_paths_mem (t : LayerCollection) (h : PathsSpec t.layer_collections)
    (here p : List Nat) :
    p ∈ tree_paths t here ↔ ∃ q, p = here ++ q ∧ (t.get q).isSome = true := by
  rw [tree_paths_eq, List.mem_cons, h here 0 p]
  constructor
  · rintro (rfl | ⟨j, c, q, rfl, hc, hq⟩)
    · exact ⟨[], by simp, by rw [tree_get_nil]; rfl⟩
    · refine ⟨j :: q, by simp, ?_⟩
      rw [tree_get_cons_isSome]
      exact ⟨c, hc, hq⟩
  · rintro ⟨q, rfl, hq⟩
    cases q with
    | nil => left; simp
    | cons j q =>
      right
      rw [tree_get_cons_isSome] at hq
      obtain ⟨c, hc, hq⟩ := hq
      exact ⟨j, c, q, by simp, hc, hq⟩

theorem paths_of_tree (cs : List LayerCollection)
    (ih : ∀ c ∈ cs, PathsSpec c.layer_collections) : PathsSpec cs := by
  induction cs with
  | nil =>
    intro here k p
    simp [forest_paths]
  | cons c cs ihc =>
    intro here k p
    rw [forest_paths, List.mem_append, tree_paths_mem c (ih c (List.mem_cons_self _ _)),
      ihc (fun c hc => ih c (List.mem_cons_of_mem _ hc)) here (k + 1) p]
    constructor
    · rintro (⟨q, rfl, hq⟩ | ⟨j, c', q, rfl, hc', hq⟩)
      · exact ⟨0, c, q, by simp, by simp, hq⟩
      · exact ⟨j + 1, c', q, by simp; omega, by simpa using hc', hq⟩
    · rintro ⟨j, c', q, rfl, hc', hq⟩
      cases j with
      | zero =>
        left
        simp only [List.getElem?_cons_zero, Option.some.injEq] at hc'
        subst hc'
        exact ⟨q, by simp, hq⟩
      | succ j =>
        right
        exact ⟨j, c', q, by simp; omega, by simpa using hc', hq⟩

theorem paths_children (t : LayerCollection) : PathsSpec t.layer_collections := by
  induction t using layer_collection_induct with
  | h sc f ls cs ih => exact paths_of_tree cs ih

theorem paths_spec (cs : List LayerCollection) : PathsSpec cs :=
  paths_of_tree cs (fun c _ => paths_children c)

theorem forest_paths_mem_iff (forest : List LayerCollection) (p : List Nat) :
    p ∈ forest_paths forest [] 0 ↔ (forest_get forest p).isSome = true := by
  rw [paths_spec forest [] 0 p]
  constructor
  · rintro ⟨j, c, q, rfl, hc, hq⟩
    simp only [List.nil_append, Nat.zero_add, forest_get, hc]
    exact hq
  · intro h
    cases p with
    | nil => simp [forest_get] at h
    | cons j q =>
      simp only [forest_get] at h
      cases hc : forest[j]? with
      | none => simp [hc] at h
      | some c =>
        simp only [hc] at h
        exact ⟨j, c, q, by simp, hc, h⟩

theorem paths_nodup_of_tree (cs : List LayerCollection)
    (ih : ∀ c ∈ cs, ∀ here k, (forest_paths c.layer_collections here k).Nodup)
    (here : List Nat) (k : Nat) : (forest_paths cs here k).Nodup := by
  induction cs generalizing k with
  | nil => simp [forest_paths]
  | cons c cs ihc =>
    rw [forest_paths, tree_paths_eq, List.nodup_append]
    refine ⟨?_, ihc (fun c hc => ih c (List.mem_cons_of_mem _ hc)) (k + 1), ?_⟩
    · rw [List.nodup_cons]
      refine ⟨?_, ih c (List.mem_cons_self _ _) _ _⟩
      rw [paths_spec c.layer_collections (here ++ [k]) 0]
      rintro ⟨j, c', q, hp, -, -⟩
      have := congrArg List.length hp
      simp at this
    · intro p hp1 hp2
      rw [← tree_paths_eq, tree_paths_mem c (paths_children c)] at hp1
      rw [paths_spec cs here (k + 1) p] at hp2
      obtain ⟨q, rfl, -⟩ := hp1
      obtain ⟨j, c', q', hp, -, -⟩ := hp2
      simp only [List.append_assoc, List.singleton_append, List.append_cancel_left_eq,
        List.cons.injEq] at hp
      omega

theorem paths_nodup_children (t : LayerCollection) :
    ∀ here k, (forest_paths t.layer_collections here k).Nodup := by
  induction t using layer_collection_induct with
  | h sc f ls cs ih => exact paths_nodup_of_tree cs ih

theorem forest_paths_nodup (cs : List LayerCollection) (here : List Nat) (k : Nat) :
    (forest_paths cs here k).Nodup :=
  paths_nodup_of_tree cs (fun c _ => paths_nodup_children c) here k

/-- C14: the pointers to the nodes of the forest, listed in pre-order, are as many as
`BKE_layer_collection_count(sl)`; for a node `lc` of the forest
`BKE_layer_collection_findindex(sl, lc)` is its position `i` in that list, below the count,
and `collection_from_index` with number `i` returns `lc`; for every `i` from 0 below the
count the node returned for `i` has findindex `i`; and findindex is -1 for a pointer to no
node of the forest. -/
theorem layer_collection_index_inverse (sl : SceneLayer) :
    BKE_layer_collection_count sl = ((forest_paths sl.layer_collections [] 0).length : Int) ∧
    (∀ lc, (forest_get sl.layer_collections lc).isSome = true →
      ∃ i : Nat, (forest_paths sl.layer_collections [] 0)[i]? = some lc ∧
        BKE_layer_collection_findindex sl lc = i ∧
        (i : Int) < BKE_layer_collection_count sl ∧
        (collection_from_index i sl.layer_collections [] 0 0).1 = some lc) ∧
    (∀ i : Nat, (i : Int) < BKE_layer_collection_count sl →
      ∃ lc, (collection_from_index i sl.layer_collections [] 0 0).1 = some lc ∧
        (forest_get sl.layer_collections lc).isSome = true ∧
        BKE_layer_collection_findindex sl lc = i) ∧
    (∀ lc, forest_get sl.layer_collections lc = none →
      BKE_layer_collection_findindex sl lc = -1) := by
  have hcount : BKE_layer_collection_count sl
      = ((forest_paths sl.layer_collections [] 0).length : Int) :=
    collection_count_eq sl.layer_collections [] 0
  refine ⟨hcount, ?_, ?_, ?_⟩
  · intro lc hlc
    have hm := (forest_paths_mem_iff _ lc).mpr hlc
    have hlt := path_index_lt_of_mem lc _ hm
    refine ⟨path_index lc (forest_paths sl.layer_collections [] 0),
      path_index_getElem lc _ hm, ?_, by rw [hcount]; exact_mod_cast hlt, ?_⟩
    · unfold BKE_layer_collection_findindex
      rw [((index_of_spec lc sl.layer_collections) [] 0 0 (le_refl _)).2 hm]
      simp
    · rw [((from_index_spec _ sl.layer_collections) [] 0 0).2 _ (by simp) hlt]
      exact path_index_getElem lc _ hm
  · intro i hi
    rw [hcount] at hi
    have hlt : i < (forest_paths sl.layer_collections [] 0).length := by exact_mod_cast hi
    have hget : (forest_paths sl.layer_collections [] 0)[i]?
        = some ((forest_paths sl.layer_collections [] 0)[i]) := List.getElem?_eq_getElem hlt
    have hm : (forest_paths sl.layer_collections [] 0)[i] ∈ forest_paths sl.layer_collections [] 0 :=
      List.getElem_mem _
    refine ⟨(forest_paths sl.layer_collections [] 0)[i], ?_, (forest_paths_mem_iff _ _).mp hm, ?_⟩
    · rw [((from_index_spec _ sl.layer_collections) [] 0 0).2 i (by simp) hlt, hget]
    · unfold BKE_layer_collection_findindex
      rw [((index_of_spec _ sl.layer_collections) [] 0 0 (le_refl _)).2 hm,
        path_index_of_getElem _ (forest_paths_nodup _ _ _) i _ hget]
      simp
  · intro lc hlc
    have hm : lc ∉ forest_paths sl.layer_collections [] 0 := by
      rw [forest_paths_mem_iff, hlc]
      simp
    unfold BKE_layer_collection_findindex
    rw [((index_of_spec lc sl.layer_collections) [] 0 0 (le_refl _)).1 hm]

/-- C15: `BKE_layer_collection_active(sl)` returns no node if and only if
`sl->active_collection` is negative or not below `BKE_layer_collection_count(sl)`; so it
returns none for an empty forest with `active_collection = 0`.  It is a total function. -/
theorem layer_collection_active_none (sl : SceneLayer) :
    (BKE_layer_collection_active sl = none ↔
      (sl.active_collection < 0 ∨ BKE_layer_collection_count sl ≤ sl.active_collection)) ∧
    (sl.layer_collections = [] → sl.active_collection = 0 →
      BKE_layer_collection_active sl = none) := by
  have hcount : BKE_layer_collection_count sl
      = ((forest_paths sl.layer_collections [] 0).length : Int) :=
    collection_count_eq sl.layer_collections [] 0
  have hiff : BKE_layer_collection_active sl = none ↔
      (sl.active_collection < 0 ∨ BKE_layer_collection_count sl ≤ sl.active_collection) := by
    unfold BKE_layer_collection_active
    rw [hcount]
    constructor
    · intro h
      by_contra hc
      rw [not_or, not_lt, not_le] at hc
      obtain ⟨j, hj⟩ := Int.eq_ofNat_of_zero_le hc.1
      have hlt : j < (forest_paths sl.layer_collections [] 0).length := by
        have := hc.2
        rw [hj] at this
        exact_mod_cast this
      rw [((from_index_spec _ sl.layer_collections) [] 0 0).2 j (by simp [hj]) hlt,
        List.getElem?_eq_getElem hlt] at h
      cases h
    · intro h
      rw [((from_index_spec _ sl.layer_collections) [] 0 0).1 (by simpa using h)]
  refine ⟨hiff, ?_⟩
  intro hf ha
  apply hiff.mpr
  right
  rw [ha]
  unfold BKE_layer_collection_count
  rw [hf]
  simp [collection_count]

theorem layer_collection_add_pointer (alloc : List Nat → Nat) (sc : SceneCollection)
    (sl : SceneLayer) (lb : List Nat) :
    (layer_collection_add alloc sc sl lb).2 = lb ++ [forest_listlen sl.layer_collections lb] := by
  cases sc
  rw [layer_collection_add]

theorem forest_paths_append (cs : List LayerCollection) (t : LayerCollection) (here : List Nat)
    (k : Nat) :
    forest_paths (cs ++ [t]) here k
      = forest_paths cs here k ++ tree_paths t (here ++ [k + cs.length]) := by
  induction cs generalizing k with
  | nil => simp [forest_paths]
  | cons c cs ih =>
    rw [List.cons_append, forest_paths, forest_paths, ih (k + 1), List.append_assoc]
    simp only [List.length_cons]
    have : k + 1 + cs.length = k + (cs.length + 1) := by omega
    rw [this]

/-- C16: after `lc = BKE_collection_link(sl, sc)` the forest is the previous roots, unchanged
and in order, followed by a new root that mirrors `sc`; `lc` points to that last root;
`sl->active_collection` is the number of nodes the forest had before the call and
`BKE_layer_collection_active(sl)` returns exactly `lc`. -/
theorem collection_link_last_root_active (alloc : List Nat → Nat) (sl : SceneLayer)
    (sc : SceneCollection) :
    ∃ t, (BKE_collection_link alloc sl sc).1.layer_collections = sl.layer_collections ++ [t] ∧
      mirrors t sc = true ∧
      (BKE_collection_link alloc sl sc).2 = [sl.layer_collections.length] ∧
      (BKE_collection_link alloc sl sc).1.active_collection = BKE_layer_collection_count sl ∧
      BKE_layer_collection_active (BKE_collection_link alloc sl sc).1
        = some (BKE_collection_link alloc sl sc).2 := by
  obtain ⟨t, ht, hm⟩ := layer_collection_add_mirrors alloc sc sl []
  have hptr : (layer_collection_add alloc sc sl []).2 = [sl.layer_collections.length] := by
    rw [layer_collection_add_pointer]
    rfl
  have hforest : (layer_collection_add alloc sc sl []).1.layer_collections
      = sl.layer_collections ++ [t] := ht
  have hpaths : forest_paths (sl.layer_collections ++ [t]) [] 0
      = forest_paths sl.layer_collections [] 0 ++
        ([sl.layer_collections.length] ::
          forest_paths t.layer_collections [sl.layer_collections.length] 0) := by
    rw [forest_paths_append, tree_paths_eq]
    simp
  have hnot : [sl.layer_collections.length] ∉ forest_paths sl.layer_collections [] 0 := by
    rw [forest_paths_mem_iff]
    simp [forest_get]
  have hidx : path_index [sl.layer_collections.length]
      (forest_paths (sl.layer_collections ++ [t]) [] 0)
      = (forest_paths sl.layer_collections [] 0).length := by
    rw [hpaths, path_index_append_of_not_mem _ _ _ hnot]
    simp [path_index]
  have hmem : [sl.layer_collections.length] ∈ forest_paths (sl.layer_collections ++ [t]) [] 0 := by
    rw [hpaths]
    simp
  have hact : (BKE_collection_link alloc sl sc).1.active_collection
      = BKE_layer_collection_count sl := by
    show BKE_layer_collection_findindex _ _ = _
    unfold BKE_layer_collection_findindex BKE_layer_collection_count
    rw [hforest, hptr,
      ((index_of_spec _ (sl.layer_collections ++ [t])) [] 0 0 (le_refl _)).2 hmem, hidx,
      collection_count_eq sl.layer_collections [] 0]
    simp
  refine ⟨t, hforest, hm, hptr, hact, ?_⟩
  unfold BKE_layer_collection_active
  rw [hact]
  show (collection_from_index _ (layer_collection_add alloc sc sl []).1.layer_collections
    [] 0 0).1 = some (layer_collection_add alloc sc sl []).2
  rw [hforest, hptr]
  unfold BKE_layer_collection_count
  rw [collection_count_eq sl.layer_collections [] 0,
    ((from_index_spec _ (sl.layer_collections ++ [t])) [] 0 0).2
      (forest_paths sl.layer_collections [] 0).length (by simp)
      (by rw [hpaths]; simp)]
  rw [hpaths, List.getElem?_append_right (le_refl _)]
  simp

/-! ## Filtered iteration -/

theorem iterator_scan_nil (flag : Nat) (l : List ObjectBase)
    (h : object_bases_Iterator_scan flag l = []) :
    l.filter (fun b => b.flag &&& flag != 0) = [] := by
  induction l with
  | nil => rfl
  | cons b rest ih =>
    rw [object_bases_Iterator_scan] at h
    by_cases hb : b.flag &&& flag ≠ 0
    · rw [if_pos hb] at h; cases h
    · rw [if_neg hb] at h
      rw [List.filter_cons]
      have : (b.flag &&& flag != 0) = false := by simpa using hb
      rw [this]
      exact ih h

theorem iterator_scan_cons (flag : Nat) (l : List ObjectBase) (b : ObjectBase)
    (rest : List ObjectBase) (h : object_bases_Iterator_scan flag l = b :: rest) :
    b.flag &&& flag ≠ 0 ∧ rest.length < l.length ∧
      l.filter (fun b => b.flag &&& flag != 0)
        = b :: rest.filter (fun b => b.flag &&& flag != 0) := by
  induction l with
  | nil => simp [object_bases_Iterator_scan] at h
  | cons x xs ih =>
    rw [object_bases_Iterator_scan] at h
    by_cases hx : x.flag &&& flag ≠ 0
    · rw [if_pos hx] at h
      cases h
      refine ⟨hx, by simp, ?_⟩
      rw [List.filter_cons]
      have : (b.flag &&& flag != 0) = true := by simpa using hx
      rw [this]
      rfl
    · rw [if_neg hx] at h
      obtain ⟨h1, h2, h3⟩ := ih h
      refine ⟨h1, by simp; omega, ?_⟩
      rw [List.filter_cons]
      have : (x.flag &&& flag != 0) = false := by simpa using hx
      rw [this]
      exact h3

/-- The bases seen from an iterator that stands on a matching base. -/
theorem bases_sequence_from (flag : Nat) (fuel : Nat) :
    ∀ (iter : Iterator) (b : ObjectBase) (rest : List ObjectBase),
      iter.valid = true → iter.data = b :: rest → iter.current = .base b →
      rest.length < fuel →
      iterator_sequence (fun it => object_bases_Iterator_next it flag) fuel iter
        = (b :: rest.filter (fun b => b.flag &&& flag != 0)).map IterCurrent.base := by
  induction fuel with
  | zero => intro iter b rest _ _ _ h; omega
  | succ n ih =>
    intro iter b rest hv hd hc hlen
    rw [iterator_sequence, if_pos hv, hc, List.map_cons]
    congr 1
    cases hs : object_bases_Iterator_scan flag rest with
    | nil =>
      have hnext : (object_bases_Iterator_next iter flag).valid = false := by
        simp [object_bases_Iterator_next, hd, hs]
      rw [iterator_scan_nil flag rest hs]
      cases n with
      | zero => rfl
      | succ m => rw [iterator_sequence, hnext]; rfl
    | cons b' r =>
      obtain ⟨-, h2, h3⟩ := iterator_scan_cons flag rest b' r hs
      have hnext : object_bases_Iterator_next iter flag
          = { iter with current := .base b', data := b' :: r } := by
        simp [object_bases_Iterator_next, hd, hs]
      rw [hnext, h3]
      exact ih _ b' r hv rfl rfl (by omega)

/-- The objects seen from an iterator that stands on a matching base. -/
theorem objects_sequence_from (flag : Nat) (fuel : Nat) :
    ∀ (iter : Iterator) (b : ObjectBase) (rest : List ObjectBase),
      iter.valid = true → iter.data = b :: rest → iter.current = .object b.object →
      rest.length < fuel →
      iterator_sequence (fun it => objects_Iterator_next it flag) fuel iter
        = (b :: rest.filter (fun b => b.flag &&& flag != 0)).map
            (fun b => IterCurrent.object b.object) := by
  induction fuel with
  | zero => intro iter b rest _ _ _ h; omega
  | succ n ih =>
    intro iter b rest hv hd hc hlen
    rw [iterator_sequence, if_pos hv, hc, List.map_cons]
    congr 1
    cases hs : object_bases_Iterator_scan flag rest with
    | nil =>
      have hnext : (objects_Iterator_next iter flag).valid = false := by
        simp [objects_Iterator_next, object_bases_Iterator_next, hd, hs]
      rw [iterator_scan_nil flag rest hs]
      cases n with
      | zero => rfl
      | succ m => rw [iterator_sequence, hnext]; rfl
    | cons b' r =>
      obtain ⟨-, h2, h3⟩ := iterator_scan_cons flag rest b' r hs
      have hnext : objects_Iterator_next iter flag
          = { iter with current := .object b'.object, data := b' :: r } := by
        simp [objects_Iterator_next, object_bases_Iterator_next, hd, hs, hv,
          iterator_current_object]
      rw [hnext, h3]
      exact ih _ b' r hv rfl rfl (by omega)

/-- C18: for every flag mask (so for `BASE_SELECTED` and `BASE_VISIBLED`), the values of
`iter->current` obtained by `object_bases_Iterator_begin` followed by
`object_bases_Iterator_next` while `iter->valid`, given room for as many steps as the
registry has bases, are exactly the bases of `sl->object_bases` whose `flag & mask` is not
zero, in registry order, each once; the iterator is invalid right after begin if and only if
there is no such base; and the objects flavour yields the `object` of the same bases in the
same order. -/
theorem filtered_iteration (sl : SceneLayer) (flag : Nat) (iter : Iterator) (fuel : Nat)
    (hfuel : sl.object_bases.length ≤ fuel) :
    iterator_sequence (fun it => object_bases_Iterator_next it flag) fuel
        (object_bases_Iterator_begin iter sl flag)
      = (sl.object_bases.filter (fun b => b.flag &&& flag != 0)).map IterCurrent.base ∧
    ((object_bases_Iterator_begin iter sl flag).valid = false ↔
      sl.object_bases.filter (fun b => b.flag &&& flag != 0) = []) ∧
    iterator_sequence (fun it => objects_Iterator_next it flag) fuel
        (objects_Iterator_begin iter sl flag)
      = (sl.object_bases.filter (fun b => b.flag &&& flag != 0)).map
          (fun b => IterCurrent.object b.object) := by
  cases hbases : sl.object_bases with
  | nil =>
    have hv : (object_bases_Iterator_begin iter sl flag).valid = false := by
      simp [object_bases_Iterator_begin, hbases]
    have hv2 : (objects_Iterator_begin iter sl flag).valid = false := by
      simp [objects_Iterator_begin, hv]
    refine ⟨?_, by simp [hv], ?_⟩
    · cases fuel with
      | zero => rfl
      | succ n => rw [iterator_sequence, hv]; rfl
    · cases fuel with
      | zero => rfl
      | succ n => rw [iterator_sequence, hv2]; rfl
  | cons b rest =>
    rw [hbases] at hfuel
    simp only [List.length_cons] at hfuel
    by_cases hb : b.flag &&& flag = 0
    · have hfb : (b.flag &&& flag != 0) = false := by simpa using hb
      rw [List.filter_cons, hfb]
      simp only [Bool.false_eq_true, if_false]
      cases hs : object_bases_Iterator_scan flag rest with
      | nil =>
        have hbeg : (object_bases_Iterator_begin iter sl flag).valid = false := by
          simp [object_bases_Iterator_begin, hbases, hb, object_bases_Iterator_next, hs]
        have hbeg2 : (objects_Iterator_begin iter sl flag).valid = false := by
          simp [objects_Iterator_begin, hbeg]
        rw [iterator_scan_nil flag rest hs]
        refine ⟨?_, by simp [hbeg], ?_⟩
        · cases fuel with
          | zero => rfl
          | succ n => rw [iterator_sequence, hbeg]; rfl
        · cases fuel with
          | zero => rfl
          | succ n => rw [iterator_sequence, hbeg2]; rfl
      | cons b' r =>
        obtain ⟨-, h2, h3⟩ := iterator_scan_cons flag rest b' r hs
        have hbeg : object_bases_Iterator_begin iter sl flag
            = { iter with valid := true, current := .base b', data := b' :: r } := by
          simp [object_bases_Iterator_begin, hbases, hb, object_bases_Iterator_next, hs]
        have hbeg2 : objects_Iterator_begin iter sl flag
            = { iter with valid := true, current := .object b'.object, data := b' :: r } := by
          simp [objects_Iterator_begin, hbeg, iterator_current_object]
        rw [h3]
        refine ⟨?_, by simp [hbeg], ?_⟩
        · rw [hbeg]
          exact bases_sequence_from flag fuel _ b' r rfl rfl rfl (by omega)
        · rw [hbeg2]
          exact objects_sequence_from flag fuel _ b' r rfl rfl rfl (by omega)
    · have hfb : (b.flag &&& flag != 0) = true := by simpa using hb
      rw [List.filter_cons, hfb]
      simp only [if_true]
      have hbeg : object_bases_Iterator_begin iter sl flag
          = { iter with valid := true, current := .base b, data := b :: rest } := by
        simp [object_bases_Iterator_begin, hbases, hb]
      have hbeg2 : objects_Iterator_begin iter sl flag
          = { iter with valid := true, current := .object b.object, data := b :: rest } := by
        simp [objects_Iterator_begin, hbeg, iterator_current_object]
      refine ⟨?_, by simp [hbeg], ?_⟩
      · rw [hbeg]
        exact bases_sequence_from flag fuel _ b rest rfl rfl rfl (by omega)
      · rw [hbeg2]
        exact objects_sequence_from flag fuel _ b rest rfl rfl rfl (by omega)

/-- An instance of C18: the selected bases of the demo layer. -/
theorem filtered_iteration_witness :
    demo_layer.object_bases.length ≤ 3 ∧
    iterator_sequence (fun it => object_bases_Iterator_next it BASE_SELECTED) 3
        (object_bases_Iterator_begin demo_iterator demo_layer BASE_SELECTED)
      = [IterCurrent.base ⟨1, 101, 7, 1⟩, IterCurrent.base ⟨3, 103, 5, 1⟩] :=
  ⟨by decide, (filtered_iteration demo_layer BASE_SELECTED demo_iterator 3 (by decide)).1⟩

/-! ## Unlinking a root -/

theorem free_eq_foldl_of_tree (cs : List LayerCollection)
    (ih : ∀ c ∈ cs, ∀ sl, layer_collection_free c sl
      = (tree_links c).foldl scene_layer_object_base_unref sl) (sl : SceneLayer) :
    layer_collections_free cs sl = (forest_links cs).foldl scene_layer_object_base_unref sl := by
  induction cs generalizing sl with
  | nil => rfl
  | cons c cs ihc =>
    rw [layer_collections_free, forest_links, List.foldl_append, ih c (List.mem_cons_self _ _)]
    exact ihc (fun c hc => ih c (List.mem_cons_of_mem _ hc)) _

theorem free_eq_foldl (t : LayerCollection) :
    ∀ sl, layer_collection_free t sl = (tree_links t).foldl scene_layer_object_base_unref sl := by
  induction t using layer_collection_induct with
  | h sc f ls cs ih =>
    intro sl
    rw [layer_collection_free, tree_links, List.foldl_append]
    exact free_eq_foldl_of_tree cs ih _

theorem base_after_unlink_addr (links : List Nat) (b b' : ObjectBase)
    (h : base_after_unlink links b = some b') : b'.addr = b.addr := by
  unfold base_after_unlink at h
  split at h
  · cases h
  · cases h; rfl

theorem filterMap_addr_sublist (f : ObjectBase → Option ObjectBase)
    (hf : ∀ b b', f b = some b' → b'.addr = b.addr) (l : List ObjectBase) :
    ((l.filterMap f).map (fun x => x.addr)).Sublist (l.map (fun x => x.addr)) := by
  induction l with
  | nil => simp
  | cons x xs ih =>
    rw [List.filterMap_cons]
    cases hx : f x with
    | none => simpa using List.Sublist.cons _ ih
    | some y =>
      simp only [List.map_cons]
      rw [hf x y hx]
      exact List.Sublist.cons₂ _ ih

theorem filterMap_of_addr_ne (a : Nat) (l : List ObjectBase)
    (h : a ∉ l.map (fun x => x.addr)) : l.filterMap (base_after_unlink [a]) = l := by
  induction l with
  | nil => rfl
  | cons x xs ih =>
    rw [List.map_cons, List.mem_cons, not_or] at h
    rw [List.filterMap_cons]
    have hx : base_after_unlink [a] x = some x := by
      have hc : [a].count x.addr = 0 := by
        rw [List.count_eq_zero]
        simpa using fun e => h.1 e.symm
      simp [base_after_unlink, hc]
    rw [hx, ih h.2]

/-- One unref, as a pass over the registry. -/
theorem unref_bases (sl : SceneLayer) (a : Nat)
    (hnd : (sl.object_bases.map (fun x => x.addr)).Nodup) :
    (scene_layer_object_base_unref sl a).object_bases
      = sl.object_bases.filterMap (base_after_unlink [a]) := by
  by_cases ha : a ∈ sl.object_bases.map (fun x => x.addr)
  · obtain ⟨b, hb, rfl⟩ := List.mem_map.mp ha
    obtain ⟨pre, post, hsplit⟩ := List.append_of_mem hb
    have hnd' := hnd
    rw [hsplit, List.map_append, List.map_cons] at hnd'
    have h1 : b.addr ∉ pre.map (fun x => x.addr) := fun hm =>
      (List.nodup_append.mp hnd').2.2 hm (List.mem_cons_self _ _)
    have h2 : b.addr ∉ post.map (fun x => x.addr) :=
      (List.nodup_cons.mp (List.nodup_append.mp hnd').2.1).1
    have hupd : base_update b.addr (fun x => { x with refcount := x.refcount - 1 })
        sl.object_bases = pre ++ { b with refcount := b.refcount - 1 } :: post := by
      rw [hsplit] at hnd ⊢
      exact base_update_split _ pre post b hnd
    have hfind : (pre ++ ({ b with refcount := b.refcount - 1 } : ObjectBase) :: post).find?
        (fun x => x.addr == b.addr) = some { b with refcount := b.refcount - 1 } := by
      have hnd2 : ((pre ++ ({ b with refcount := b.refcount - 1 } : ObjectBase) :: post).map
          (fun x => x.addr)).Nodup := by
        rw [hsplit] at hnd
        simpa using hnd
      exact find_addr_of_mem _ ({ b with refcount := b.refcount - 1 } : ObjectBase) hnd2
        (by simp)
    have hcount : [b.addr].count b.addr = 1 := by simp
    rw [hsplit, List.filterMap_append, List.filterMap_cons, filterMap_of_addr_ne _ pre h1,
      filterMap_of_addr_ne _ post h2]
    unfold scene_layer_object_base_unref
    simp only [hupd, hfind]
    by_cases hr : b.refcount - 1 = 0
    · rw [if_pos hr]
      have : base_after_unlink [b.addr] b = none := by
        simp only [base_after_unlink, hcount]
        rw [if_pos ⟨by omega, by push_cast; omega⟩]
      simp only [this]
      show List.filter _ _ = _
      rw [hsplit] at hnd
      exact filter_addr_split pre post b _ rfl hnd
    · rw [if_neg hr]
      have : base_after_unlink [b.addr] b = some { b with refcount := b.refcount - 1 } := by
        simp only [base_after_unlink, hcount]
        rw [if_neg (by push_cast; omega)]
        simp
      simp only [this]
  · rw [filterMap_of_addr_ne a _ ha]
    unfold scene_layer_object_base_unref
    rw [base_update_of_not_mem a _ _ ha]
    have : sl.object_bases.find? (fun b => b.addr == a) = none := by
      rw [List.find?_eq_none]
      intro x hx
      have : x.addr ≠ a := fun e => ha (e ▸ List.mem_map_of_mem _ hx)
      simpa using this
    simp only [this]

theorem base_after_unlink_cons (a : Nat) (ls : List Nat) (b : ObjectBase)
    (h : 0 < (a :: ls).count b.addr → (((a :: ls).count b.addr : Nat) : Int) ≤ b.refcount) :
    (base_after_unlink [a] b).bind (base_after_unlink ls) = base_after_unlink (a :: ls) b := by
  by_cases hab : a = b.addr
  · subst hab
    have hc1 : [b.addr].count b.addr = 1 := by simp
    have hc2 : (b.addr :: ls).count b.addr = ls.count b.addr + 1 := by simp
    rw [hc2] at h
    have h' := h (by omega)
    push_cast at h'
    unfold base_after_unlink
    simp only [hc1, hc2]
    by_cases hr : b.refcount = 1
    · rw [if_pos ⟨by omega, by push_cast; omega⟩, if_pos ⟨by omega, by push_cast; omega⟩]
      rfl
    · rw [if_neg (by push_cast; intro hh; exact hr hh.2)]
      simp only [Option.some_bind]
      by_cases hc : 0 < ls.count b.addr ∧ b.refcount - 1 = (ls.count b.addr : Int)
      · rw [if_pos (by simpa using hc), if_pos ⟨by omega, by push_cast; omega⟩]
      · rw [if_neg (by simpa using hc), if_neg (by
          push_cast
          intro hh
          apply hc
          constructor
          · by_contra h0
            have : ls.count b.addr = 0 := by omega
            rw [this] at hh
            simp at hh
            exact hr hh
          · omega)]
        simp only [Option.some.injEq, ObjectBase.mk.injEq, true_and]
        push_cast
        ring
  · have hc1 : [a].count b.addr = 0 := by
      rw [List.count_eq_zero]
      simpa using fun e => hab e.symm
    have hc2 : (a :: ls).count b.addr = ls.count b.addr := by
      rw [List.count_cons_of_ne (fun e => hab e.symm)]
    unfold base_after_unlink
    simp only [hc1, hc2]
    simp

/-- The unrefs of a list of links, as one pass over the registry. -/
theorem unref_foldl_bases (ls : List Nat) :
    ∀ sl : SceneLayer, (sl.object_bases.map (fun x => x.addr)).Nodup →
      (∀ b ∈ sl.object_bases, 0 < ls.count b.addr → ((ls.count b.addr : Nat) : Int) ≤ b.refcount) →
      (ls.foldl scene_layer_object_base_unref sl).object_bases
        = sl.object_bases.filterMap (base_after_unlink ls) := by
  induction ls with
  | nil =>
    intro sl _ _
    have : base_after_unlink [] = some := by
      funext b; simp [base_after_unlink]
    rw [this, List.filterMap_some]
    rfl
  | cons a ls ih =>
    intro sl hnd href
    rw [List.foldl_cons]
    have hb1 := unref_bases sl a hnd
    rw [ih (scene_layer_object_base_unref sl a), hb1, List.filterMap_filterMap]
    · apply List.filterMap_congr
      intro b hb
      exact base_after_unlink_cons a ls b (href b hb)
    · rw [hb1]
      exact List.Nodup.sublist
        (filterMap_addr_sublist _ (base_after_unlink_addr [a]) _) hnd
    · intro b' hb' hpos
      rw [hb1, List.mem_filterMap] at hb'
      obtain ⟨b, hb, hbb'⟩ := hb'
      have haddr := base_after_unlink_addr [a] b b' hbb'
      have hrefb := href b hb
      rw [haddr] at hpos ⊢
      unfold base_after_unlink at hbb'
      split at hbb'
      · cases hbb'
      · cases hbb'
        simp only
        by_cases hab : a = b.addr
        · subst hab
          have hc2 : (b.addr :: ls).count b.addr = ls.count b.addr + 1 := by simp
          rw [hc2] at hrefb
          have := hrefb (by omega)
          push_cast at this
          simp
          omega
        · have hc1 : [a].count b.addr = 0 := by
            rw [List.count_eq_zero]
            simpa using fun e => hab e.symm
          have hc2 : (a :: ls).count b.addr = ls.count b.addr := by
            rw [List.count_cons_of_ne (fun e => hab e.symm)]
          rw [hc2] at hrefb
          have := hrefb hpos
          rw [hc1]
          simp
          omega

theorem recalculate_base_selected (forest : List LayerCollection) (b : ObjectBase)
    (h : (recalculate_base forest b).flag &&& BASE_SELECTED ≠ 0) :
    (recalculate_base forest b).flag &&& BASE_SELECTABLED ≠ 0 := by
  unfold recalculate_base at h ⊢
  split
  · rename_i h0
    rw [if_pos h0] at h
    exact absurd (flag_clear_and_self _ _) h
  · rename_i h0
    exact h0

theorem eraseIdx_set_self (l : List LayerCollection) (i : Nat) (x : LayerCollection) :
    (l.set i x).eraseIdx i = l.eraseIdx i := by
  induction l generalizing i with
  | nil => rfl
  | cons y ys ih =>
    cases i with
    | zero => rfl
    | succ i => simp [ih]

theorem layer_collection_free_forest (t : LayerCollection) (sl : SceneLayer) :
    (layer_collection_free t sl).layer_collections = sl.layer_collections := by
  rw [free_eq_foldl]
  generalize tree_links t = ls
  induction ls generalizing sl with
  | nil => rfl
  | cons a ls ih => rw [List.foldl_cons, ih, unref_forest]

theorem layer_collection_free_active (t : LayerCollection) (sl : SceneLayer) :
    (layer_collection_free t sl).active_collection = sl.active_collection := by
  rw [free_eq_foldl]
  generalize tree_links t = ls
  induction ls generalizing sl with
  | nil => rfl
  | cons a ls ih =>
    rw [List.foldl_cons, ih]
    unfold scene_layer_object_base_unref
    simp only []
    split
    · rfl
    · split <;> rfl

/-- C19: for a root `lc` of the forest, in a layer whose bases lie at distinct addresses and
have a refcount not below the number of links to them inside the subtree of `lc`, after
`BKE_collection_unlink(sl, lc)` the roots are the previous roots without `lc`, in order;
every base has its refcount lowered by the number of links to it inside the subtree of `lc`,
the bases brought to 0 being gone from the registry and the others keeping their order;
`sl->active_collection` is 0; and `BASE_SELECTED` implies `BASE_SELECTABLED` on every
remaining base. -/
theorem collection_unlink_effect (sl : SceneLayer) (i : Nat) (node : LayerCollection)
    (hroot : sl.layer_collections[i]? = some node)
    (hnd : (sl.object_bases.map (fun x => x.addr)).Nodup)
    (href : ∀ b ∈ sl.object_bases, 0 < (tree_links node).count b.addr →
      (((tree_links node).count b.addr : Nat) : Int) ≤ b.refcount) :
    (BKE_collection_unlink sl [i]).layer_collections = sl.layer_collections.eraseIdx i ∧
    (BKE_collection_unlink sl [i]).object_bases.map (fun b => (b.addr, b.object, b.refcount))
      = (sl.object_bases.filterMap (base_after_unlink (tree_links node))).map
          (fun b => (b.addr, b.object, b.refcount)) ∧
    (BKE_collection_unlink sl [i]).active_collection = 0 ∧
    (∀ b ∈ (BKE_collection_unlink sl [i]).object_bases,
      b.flag &&& BASE_SELECTED ≠ 0 → b.flag &&& BASE_SELECTABLED ≠ 0) := by
  have hget : forest_get sl.layer_collections [i] = some node := by
    simp only [forest_get, hroot]
    exact tree_get_nil node
  have hfree : BKE_layer_collection_free sl [i]
      = { layer_collection_free node sl with
          layer_collections := sl.layer_collections.set i node.freed } := by
    unfold BKE_layer_collection_free
    simp only [hget, layer_collection_free_forest, forest_modify, hroot, tree_modify_nil]
  have hbases : (BKE_layer_collection_free sl [i]).object_bases
      = sl.object_bases.filterMap (base_after_unlink (tree_links node)) := by
    rw [hfree]
    show (layer_collection_free node sl).object_bases = _
    rw [free_eq_foldl]
    exact unref_foldl_bases _ sl hnd href
  have hforest : (BKE_layer_collection_free sl [i]).layer_collections
      = sl.layer_collections.set i node.freed := by
    rw [hfree]
  have hrb : (BKE_collection_unlink sl [i]).object_bases
      = (BKE_layer_collection_free sl [i]).object_bases.map
          (recalculate_base (BKE_layer_collection_free sl [i]).layer_collections) :=
    recalculate_bases _
  refine ⟨?_, ?_, rfl, ?_⟩
  · show List.eraseIdx (BKE_layer_collection_free sl [i]).layer_collections i = _
    rw [hforest, eraseIdx_set_self]
  · rw [hrb, hbases, List.map_map]
    apply List.map_congr_left
    intro b _
    have h := recalculate_base_same (BKE_layer_collection_free sl [i]).layer_collections b
    simp only [Function.comp, h.1, h.2.1, h.2.2]
  · intro b hb
    rw [hrb, List.mem_map] at hb
    obtain ⟨b0, -, rfl⟩ := hb
    exact recalculate_base_selected _ b0

/-- An instance of C19: the only root of the demo layer is unlinked. -/
theorem collection_unlink_effect_witness :
    demo_layer.layer_collections[0]? = some (.mk 10 7 [1] [.mk 11 7 [2] []]) ∧
    (demo_layer.object_bases.map (fun x => x.addr)).Nodup ∧
    (BKE_collection_unlink demo_layer [0]).layer_collections = [] ∧
    (BKE_collection_unlink demo_layer [0]).object_bases.map
        (fun b => (b.addr, b.object, b.refcount)) = [(3, 103, 1)] :=
  ⟨rfl, by decide,
   (collection_unlink_effect demo_layer 0 (.mk 10 7 [1] [.mk 11 7 [2] []]) rfl (by decide)
     (by decide)).1,
   (collection_unlink_effect demo_layer 0 (.mk 10 7 [1] [.mk 11 7 [2] []]) rfl (by decide)
     (by decide)).2.1⟩

/-! ## The link an object sync leaves at the node found -/

theorem object_base_add_find (alloc : List Nat → Nat) (sl : SceneLayer) (ob : Nat) :
    ∃ b, BKE_scene_layer_base_find (object_base_add alloc sl ob).1 ob = some b ∧
      b.addr = (object_base_add alloc sl ob).2 := by
  cases hb : BKE_scene_layer_base_find sl ob with
  | some b0 =>
    rw [object_base_add_found alloc sl ob b0 hb]
    unfold BKE_scene_layer_base_find at hb ⊢
    simp only [base_update]
    rw [find_object_map _ (fun x => by split <;> rfl), hb]
    exact ⟨_, rfl, by simp⟩
  | none =>
    simp only [object_base_add, hb]
    unfold BKE_scene_layer_base_find at hb ⊢
    simp only [base_update]
    rw [find_object_map _ (fun x => by split <;> rfl), List.find?_append, hb]
    simp

theorem object_add_find (alloc : List Nat → Nat) (sl : SceneLayer) (lc : List Nat) (ob : Nat) :
    ∃ b, BKE_scene_layer_base_find (layer_collection_object_add alloc sl lc ob) ob = some b ∧
      b.addr = (object_base_add alloc sl ob).2 := by
  obtain ⟨b, hb, ha⟩ := object_base_add_find alloc sl ob
  unfold layer_collection_object_add
  simp only []
  split
  · exact ⟨b, hb, ha⟩
  · refine ⟨recalculate_base (object_base_add alloc sl ob).1.layer_collections b, ?_, ?_⟩
    · have h := recalculate_find (object_base_add alloc sl ob).1 ob
      rw [hb] at h
      exact h
    · rw [(recalculate_base_same _ b).1, ha]

theorem object_add_find_stable (alloc : List Nat → Nat) (sl : SceneLayer) (lc : List Nat)
    (ob : Nat) (b0 : ObjectBase) (h0 : BKE_scene_layer_base_find sl ob = some b0) :
    ∃ b, BKE_scene_layer_base_find (layer_collection_object_add alloc sl lc ob) ob = some b ∧
      b.addr = b0.addr := by
  obtain ⟨g, hg1, -, hg3⟩ := object_add_registry alloc sl lc ob b0 h0
  refine ⟨g b0, ?_, (hg1 b0).1⟩
  unfold BKE_scene_layer_base_find at h0 ⊢
  rw [hg3, find_object_map g (fun x => (hg1 x).2), h0]
  rfl

theorem forest_get_modify (f : LayerCollection → LayerCollection)
    (forest : List LayerCollection) (lc : List Nat) (n : LayerCollection)
    (h : forest_get forest lc = some n) :
    forest_get (forest_modify f forest lc) lc = some (f n) := by
  cases lc with
  | nil => simp [forest_get] at h
  | cons i p =>
    simp only [forest_get] at h
    cases ht : forest[i]? with
    | none => simp [ht] at h
    | some t =>
      simp only [ht] at h
      have hi : i < forest.length := (List.getElem?_eq_some_iff.mp ht).1
      simp only [forest_modify, ht, forest_get]
      rw [List.getElem?_set_self hi]
      exact tree_get_modify f p t n h

/-- The node a link is added to ends with exactly one link to the base. -/
theorem object_add_node (alloc : List Nat → Nat) (sl : SceneLayer) (lc : List Nat) (ob : Nat)
    (n : LayerCollection) (hn : forest_get sl.layer_collections lc = some n)
    (hnd : n.object_bases.Nodup) :
    ∃ n', forest_get (layer_collection_object_add alloc sl lc ob).layer_collections lc = some n' ∧
      n'.scene_collection = n.scene_collection ∧
      n'.object_bases.count (object_base_add alloc sl ob).2 = 1 := by
  unfold layer_collection_object_add
  simp only [object_base_add_forest, hn]
  split
  · rename_i hmem
    refine ⟨n, ?_, rfl, List.count_eq_one_of_mem hnd hmem⟩
    rw [object_base_add_forest]
    exact hn
  · rename_i hmem
    refine ⟨LayerCollection.appendLink (object_base_add alloc sl ob).2 n, ?_, ?_, ?_⟩
    · simp only [recalculate_forest, object_base_add_forest]
      exact forest_get_modify _ _ lc n hn
    · cases n; rfl
    · cases n with
      | mk s f ls cs =>
        simp only [LayerCollection.appendLink, LayerCollection.object_bases] at hmem ⊢
        rw [List.count_append, List.count_eq_zero.mpr hmem]
        simp

theorem sync_link_round_frame (alloc : List Nat → Nat) (sc ob : Nat) (s : SceneLayer)
    (k i : Nat) (hki : k ≠ i) :
    (sync_round sc (fun s found => layer_collection_object_add alloc s found ob)
      s k).layer_collections[i]? = s.layer_collections[i]? := by
  cases hk : s.layer_collections[k]? with
  | none => rw [sync_round_none _ _ _ _ hk]
  | some lc =>
    cases hf : find_layer_collection_by_scene_collection lc sc with
    | none => rw [sync_round_absent _ _ _ _ _ hk hf]
    | some p =>
      rw [sync_round_found _ _ _ _ _ _ hk hf]
      exact object_add_frame alloc s k p ob i (Ne.symm hki)

theorem sync_link_round_find (alloc : List Nat → Nat) (sc ob : Nat) (s : SceneLayer) (k : Nat)
    (b0 : ObjectBase) (h0 : BKE_scene_layer_base_find s ob = some b0) :
    ∃ b, BKE_scene_layer_base_find
        (sync_round sc (fun s found => layer_collection_object_add alloc s found ob) s k) ob
        = some b ∧ b.addr = b0.addr := by
  cases hk : s.layer_collections[k]? with
  | none => rw [sync_round_none _ _ _ _ hk]; exact ⟨b0, h0, rfl⟩
  | some lc =>
    cases hf : find_layer_collection_by_scene_collection lc sc with
    | none => rw [sync_round_absent _ _ _ _ _ hk hf]; exact ⟨b0, h0, rfl⟩
    | some p =>
      rw [sync_round_found _ _ _ _ _ _ hk hf]
      exact object_add_find_stable alloc s (k :: p) ob b0 h0

/-- In a layer, the node found under root `i` ends with one link to the base of `ob`. -/
theorem sync_link_layer_node (alloc : List Nat → Nat) (sc ob : Nat) (sl : SceneLayer)
    (i : Nat) (t : LayerCollection) (p : List Nat) (n : LayerCollection)
    (ht : sl.layer_collections[i]? = some t)
    (hp : find_layer_collection_by_scene_collection t sc = some p)
    (hn : t.get p = some n) (hnd : n.object_bases.Nodup) :
    ∃ b n',
      BKE_scene_layer_base_find
        (sync_layer_collections sc (fun s found => layer_collection_object_add alloc s found ob)
          sl) ob = some b ∧
      forest_get
        (sync_layer_collections sc (fun s found => layer_collection_object_add alloc s found ob)
          sl).layer_collections (i :: p) = some n' ∧
      n'.scene_collection = sc ∧ n'.object_bases.count b.addr = 1 := by
  have hilt : i < sl.layer_collections.length := (List.getElem?_eq_some_iff.mp ht).1
  obtain ⟨l1, l2, hsplit, hl1, hl2⟩ := range_split _ i hilt
  obtain ⟨n0, hn0, hsc⟩ := find_sound t sc p hp
  rw [hn] at hn0
  cases hn0
  unfold sync_layer_collections
  rw [hsplit, List.foldl_append, List.foldl_cons]
  have h1 := foldl_preserves (fun s : SceneLayer => s.layer_collections[i]? = some t) _ l1 sl
    (fun s hs k hk => by
      have hki : k ≠ i := fun e => hl1 (e ▸ hk)
      simp only []
      rw [sync_link_round_frame alloc sc ob s k i hki]
      exact hs) ht
  generalize List.foldl _ sl l1 = s1 at h1 ⊢
  have hget1 : forest_get s1.layer_collections (i :: p) = some n := by
    simp only [forest_get, h1]
    exact hn
  obtain ⟨b, hb, hba⟩ := object_add_find alloc s1 (i :: p) ob
  obtain ⟨n', hn', hnsc, hcount⟩ := object_add_node alloc s1 (i :: p) ob n hget1 hnd
  rw [sync_round_found _ _ _ _ _ _ h1 hp]
  rw [← hba] at hcount
  generalize layer_collection_object_add alloc s1 (i :: p) ob = s2 at hb hn' ⊢
  have h3 := foldl_preserves
    (fun s : SceneLayer =>
      forest_get s.layer_collections (i :: p) = some n' ∧
      ∃ b', BKE_scene_layer_base_find s ob = some b' ∧ b'.addr = b.addr) _ l2 s2
    (fun s hs k hk => by
      have hki : k ≠ i := fun e => hl2 (e ▸ hk)
      obtain ⟨hs1, b', hs2, hs3⟩ := hs
      refine ⟨?_, ?_⟩
      · simp only [forest_get] at hs1 ⊢
        rw [sync_link_round_frame alloc sc ob s k i hki]
        exact hs1
      · obtain ⟨b'', h1'', h2''⟩ := sync_link_round_find alloc sc ob s k b' hs2
        exact ⟨b'', h1'', h2''.trans hs3⟩) ⟨hn', b, hb, rfl⟩
  obtain ⟨hf1, b', hf2, hf3⟩ := h3
  exact ⟨b', n', hf2, hf1, hnsc.trans hsc, by rw [hf3]; exact hcount⟩

/-- C17, amended: after `BKE_layer_sync_object_link(scene, sc, ob)`, in every scene layer and
for every root tree that has a node mirroring `sc`, the first such node in pre-order (the one
`find_layer_collection_by_scene_collection` returns), if it held no link twice before, holds
exactly one link to the base of `ob`. -/
theorem sync_object_link_first_node (alloc : List Nat → Nat) (scene : Scene) (sc ob : Nat)
    (j : Nat) (sl : SceneLayer) (i : Nat) (t : LayerCollection) (p : List Nat)
    (n : LayerCollection)
    (hsl : scene.render_layers[j]? = some sl)
    (ht : sl.layer_collections[i]? = some t)
    (hp : find_layer_collection_by_scene_collection t sc = some p)
    (hn : t.get p = some n) (hnd : n.object_bases.Nodup) :
    ∃ sl' b n',
      (BKE_layer_sync_object_link alloc scene sc ob).render_layers[j]? = some sl' ∧
      BKE_scene_layer_base_find sl' ob = some b ∧
      forest_get sl'.layer_collections (i :: p) = some n' ∧
      n'.scene_collection = sc ∧ n'.object_bases.count b.addr = 1 := by
  obtain ⟨b, n', h1, h2, h3, h4⟩ := sync_link_layer_node alloc sc ob sl i t p n ht hp hn hnd
  refine ⟨_, b, n', ?_, h1, h2, h3, h4⟩
  simp [BKE_layer_sync_object_link, hsl]

/-- An instance of C17 as amended: the first of two nodes for collection 11 under one root. -/
theorem sync_object_link_first_node_witness :
    demo_scene_twice.render_layers[0]? = some demo_layer_twice ∧
    demo_layer_twice.layer_collections[0]? = some (.mk 10 7 [] [.mk 11 7 [] [], .mk 11 7 [] []]) ∧
    find_layer_collection_by_scene_collection
      (.mk 10 7 [] [.mk 11 7 [] [], .mk 11 7 [] []]) 11 = some [0] ∧
    ∃ sl' b n',
      (BKE_layer_sync_object_link bump_alloc demo_scene_twice 11 101).render_layers[0]?
        = some sl' ∧
      BKE_scene_layer_base_find sl' 101 = some b ∧
      forest_get sl'.layer_collections [0, 0] = some n' ∧
      n'.scene_collection = 11 ∧ n'.object_bases.count b.addr = 1 :=
  ⟨rfl, rfl, by decide,
   sync_object_link_first_node bump_alloc demo_scene_twice 11 101 0 demo_layer_twice 0
     (.mk 10 7 [] [.mk 11 7 [] [], .mk 11 7 [] []]) [0] (.mk 11 7 [] []) rfl rfl (by decide) rfl
     (by decide)⟩

/-- C17 as stated fails where one root tree has two nodes mirroring `sc`: after the sync for
collection 11 and object 101 the first node links the base of 101 (address 1), the second
node mirrors 11 as well and holds no link. -/
theorem sync_object_link_second_node :
    forest_mirrored demo_layer_twice.layer_collections = [10, 11, 11] ∧
    (BKE_layer_sync_object_link bump_alloc demo_scene_twice 11 101).render_layers.map
      (fun sl =>
        ((BKE_scene_layer_base_find sl 101).map (fun b => b.addr),
         (forest_get sl.layer_collections [0, 0]).map
           (fun n => (n.scene_collection, n.object_bases)),
         (forest_get sl.layer_collections [0, 1]).map
           (fun n => (n.scene_collection, n.object_bases))))
      = [(some 1, some (11, [1]), some (11, []))] := by
  decide

/-- C21 at a failing input: the layer has one root for collection 10 with flag 7 and no
base; after `BKE_layer_sync_object_link` for object 101 the root links the new base, whose
flag is 0, and a recalculation of the returned layer changes that flag to
`BASE_VISIBLED | BASE_SELECTABLED`: the layer is not a fixed point. -/
theorem sync_object_link_flags_stale :
    (BKE_layer_sync_object_link bump_alloc demo_scene_bare 10 101).render_layers.map
      (fun sl => (forest_links sl.layer_collections, sl.object_bases,
        (BKE_scene_layer_base_flag_recalculate sl).object_bases))
      = [([1], [⟨1, 101, 0, 1⟩], [⟨1, 101, 6, 1⟩])] := by
  decide

/-! ## The nodes in pre-order -/

theorem tree_entries_eq (t : LayerCollection) (here : List Nat) :
    tree_entries t here = (here, t) :: forest_entries t.layer_collections here 0 := by
  cases t; rfl

theorem find_eq (t : LayerCollection) (sc : Nat) :
    find_layer_collection_by_scene_collection t sc
      = if t.scene_collection = sc then some []
        else find_in_layer_collections t.layer_collections sc 0 := by
  cases t; rfl

theorem entries_fst_of_tree (cs : List LayerCollection)
    (ih : ∀ c ∈ cs, ∀ here k,
      (forest_entries c.layer_collections here k).map Prod.fst
        = forest_paths c.layer_collections here k)
    (here : List Nat) (k : Nat) :
    (forest_entries cs here k).map Prod.fst = forest_paths cs here k := by
  induction cs generalizing k with
  | nil => rfl
  | cons c cs ihc =>
    rw [forest_entries, forest_paths, List.map_append, tree_entries_eq, tree_paths_eq,
      List.map_cons, ih c (List.mem_cons_self _ _),
      ihc (fun c hc => ih c (List.mem_cons_of_mem _ hc))]

theorem entries_fst_children (t : LayerCollection) :
    ∀ here k, (forest_entries t.layer_collections here k).map Prod.fst
      = forest_paths t.layer_collections here k := by
  induction t using layer_collection_induct with
  | h sc f ls cs ih => exact entries_fst_of_tree cs ih

/-- The pointers of the pre-order list of nodes are the pre-order list of pointers. -/
theorem forest_entries_fst (cs : List LayerCollection) (here : List Nat) (k : Nat) :
    (forest_entries cs here k).map Prod.fst = forest_paths cs here k :=
  entries_fst_of_tree cs (fun c _ => entries_fst_children c) here k

theorem tree_get_cons (t : LayerCollection) (j : Nat) (q : List Nat) (c : LayerCollection)
    (hc : t.layer_collections[j]? = some c) : t.get (j :: q) = c.get q := by
  cases t with
  | mk s f ls cs =>
    simp only [LayerCollection.layer_collections] at hc
    simp only [LayerCollection.get, hc]

theorem entries_spec_of_tree (cs : List LayerCollection)
    (ih : ∀ c ∈ cs, EntriesSpec c.layer_collections) : EntriesSpec cs := by
  induction cs with
  | nil => intro here k e he; simp [forest_entries] at he
  | cons c cs ihc =>
    intro here k e he
    rw [forest_entries, List.mem_append, tree_entries_eq, List.mem_cons] at he
    rcases he with (rfl | he) | he
    · exact ⟨0, c, [], by simp, by simp, tree_get_nil c⟩
    · obtain ⟨j, c', q, h1, h2, h3⟩ := ih c (List.mem_cons_self _ _) (here ++ [k]) 0 e he
      refine ⟨0, c, j :: q, by simp [h1], by simp, ?_⟩
      rw [tree_get_cons c j q c' h2]
      exact h3
    · obtain ⟨j, c', q, h1, h2, h3⟩ :=
        ihc (fun c hc => ih c (List.mem_cons_of_mem _ hc)) here (k + 1) e he
      exact ⟨j + 1, c', q, by rw [h1]; simp; omega, by simpa using h2, h3⟩

theorem entries_spec_children (t : LayerCollection) : EntriesSpec t.layer_collections := by
  induction t using layer_collection_induct with
  | h sc f ls cs ih => exact entries_spec_of_tree cs ih

theorem entries_spec (cs : List LayerCollection) : EntriesSpec cs :=
  entries_spec_of_tree cs (fun c _ => entries_spec_children c)

theorem tree_entries_get (t : LayerCollection) (e : List Nat × LayerCollection)
    (he : e ∈ tree_entries t []) : t.get e.1 = some e.2 := by
  rw [tree_entries_eq, List.mem_cons] at he
  rcases he with rfl | he
  · exact tree_get_nil t
  · obtain ⟨j, c, q, h1, h2, h3⟩ := entries_spec t.layer_collections [] 0 e he
    simp only [List.nil_append, Nat.zero_add] at h1
    rw [h1, tree_get_cons t j q c h2]
    exact h3

theorem forest_entries_get (forest : List LayerCollection) (e : List Nat × LayerCollection)
    (he : e ∈ forest_entries forest [] 0) : forest_get forest e.1 = some e.2 := by
  obtain ⟨j, c, q, h1, h2, h3⟩ := entries_spec forest [] 0 e he
  simp only [List.nil_append, Nat.zero_add] at h1
  rw [h1]
  simp only [forest_get, h2]
  exact h3

/-! ## The search returns the first node in pre-order -/

theorem find_first_tree (sc : Nat) (t : LayerCollection)
    (h : FindFirstSpec sc t.layer_collections) (here : List Nat) :
    (find_layer_collection_by_scene_collection t sc).map (fun p => here ++ p)
      = ((tree_entries t here).find? (fun e => e.2.scene_collection == sc)).map Prod.fst := by
  rw [find_eq, tree_entries_eq, List.find?_cons]
  by_cases hs : t.scene_collection = sc
  · simp [hs]
  · have hb : (t.scene_collection == sc) = false := by simpa using hs
    simp only [hs, if_false, hb]
    exact h here 0

theorem find_first_of_tree (sc : Nat) (cs : List LayerCollection)
    (ih : ∀ c ∈ cs, FindFirstSpec sc c.layer_collections) : FindFirstSpec sc cs := by
  induction cs with
  | nil => intro here k; rfl
  | cons c cs ihc =>
    intro here k
    have hc := find_first_tree sc c (ih c (List.mem_cons_self _ _)) (here ++ [k])
    have hrest := ihc (fun c hc => ih c (List.mem_cons_of_mem _ hc)) here (k + 1)
    rw [find_in_layer_collections, forest_entries, List.find?_append]
    cases hf : find_layer_collection_by_scene_collection c sc with
    | some p =>
      rw [hf] at hc
      simp only [Option.map_some'] at hc
      cases hfe : (tree_entries c (here ++ [k])).find? (fun e => e.2.scene_collection == sc) with
      | none => rw [hfe] at hc; cases hc
      | some e =>
        rw [hfe] at hc
        simp only [Option.map_some', Option.some.injEq] at hc
        simp [← hc]
    | none =>
      rw [hf] at hc
      cases hfe : (tree_entries c (here ++ [k])).find? (fun e => e.2.scene_collection == sc) with
      | some e => rw [hfe] at hc; cases hc
      | none =>
        simp only [Option.none_or]
        exact hrest

theorem find_first_children (sc : Nat) (t : LayerCollection) :
    FindFirstSpec sc t.layer_collections := by
  induction t using layer_collection_induct with
  | h s f ls cs ih => exact find_first_of_tree sc cs ih

theorem tree_mirrored_eq (t : LayerCollection) :
    tree_mirrored t = t.scene_collection :: forest_mirrored t.layer_collections := by
  cases t; rfl

theorem mirrored_entries_of_tree (cs : List LayerCollection)
    (ih : ∀ c ∈ cs, ∀ here k,
      forest_mirrored c.layer_collections
        = (forest_entries c.layer_collections here k).map (fun e => e.2.scene_collection))
    (here : List Nat) (k : Nat) :
    forest_mirrored cs = (forest_entries cs here k).map (fun e => e.2.scene_collection) := by
  induction cs generalizing k with
  | nil => rfl
  | cons c cs ihc =>
    rw [forest_entries, forest_mirrored, List.map_append, tree_entries_eq, tree_mirrored_eq,
      List.map_cons, ← ih c (List.mem_cons_self _ _),
      ← ihc (fun c hc => ih c (List.mem_cons_of_mem _ hc))]

theorem mirrored_entries_children (t : LayerCollection) :
    ∀ here k, forest_mirrored t.layer_collections
      = (forest_entries t.layer_collections here k).map (fun e => e.2.scene_collection) := by
  induction t using layer_collection_induct with
  | h sc f ls cs ih => exact mirrored_entries_of_tree cs ih

/-- The mirrored scene collections of a forest are those of its nodes in pre-order. -/
theorem forest_mirrored_entries (cs : List LayerCollection) (here : List Nat) (k : Nat) :
    forest_mirrored cs = (forest_entries cs here k).map (fun e => e.2.scene_collection) :=
  mirrored_entries_of_tree cs (fun c _ => mirrored_entries_children c) here k

theorem tree_mirrored_entries (t : LayerCollection) (here : List Nat) :
    tree_mirrored t = (tree_entries t here).map (fun e => e.2.scene_collection) := by
  rw [tree_mirrored_eq, tree_entries_eq, List.map_cons, ← forest_mirrored_entries]

theorem has_collection_iff (sl : SceneLayer) (sc : Nat) :
    BKE_scene_layer_has_collection sl sc = true ↔ sc ∈ forest_mirrored sl.layer_collections := by
  rw [BKE_scene_layer_has_collection, List.any_eq_true, forest_mirrored_mem]
  constructor
  · rintro ⟨c, hc, h⟩
    refine ⟨c, hc, ?_⟩
    by_contra hn
    rw [(find_eq_none_iff c sc).mpr hn] at h
    cases h
  · rintro ⟨c, hc, h⟩
    refine ⟨c, hc, ?_⟩
    cases hf : find_layer_collection_by_scene_collection c sc with
    | none => exact absurd h ((find_eq_none_iff c sc).mp hf)
    | some p => rfl

/-- C24: `find_layer_collection_by_scene_collection` returns no node exactly when no node of
the tree has the scene collection, and otherwise the pointer of the first such node of the
pre-order list, whose entries pair each pointer with the node it designates;
`BKE_scene_layer_has_collection` is true exactly when some node of the forest has it. -/
theorem find_first_preorder (t : LayerCollection) (sc : Nat) (sl : SceneLayer) :
    (find_layer_collection_by_scene_collection t sc = none ↔
      ∀ e ∈ tree_entries t [], e.2.scene_collection ≠ sc) ∧
    find_layer_collection_by_scene_collection t sc
      = ((tree_entries t []).find? (fun e => e.2.scene_collection == sc)).map Prod.fst ∧
    (∀ e ∈ tree_entries t [], t.get e.1 = some e.2) ∧
    (BKE_scene_layer_has_collection sl sc = true ↔
      ∃ e ∈ forest_entries sl.layer_collections [] 0, e.2.scene_collection = sc) := by
  have h1 := find_first_tree sc t (find_first_children sc t) []
  simp only [List.nil_append, Option.map_id'] at h1
  refine ⟨?_, h1, fun e he => tree_entries_get t e he, ?_⟩
  · rw [find_eq_none_iff, tree_mirrored_entries t [], List.mem_map]
    constructor
    · intro h e he hs
      exact h ⟨e, he, hs⟩
    · rintro h ⟨e, he, hs⟩
      exact h e he hs
  · rw [has_collection_iff, forest_mirrored_entries sl.layer_collections [] 0, List.mem_map]

/-! ## Writes of the link loop, bit by bit -/

theorem flag_write_overwrite (f m1 m2 : Nat) (v s v' s' : Bool) :
    (if s' then (if v' then (if s then (if v then f ||| m1 else flag_clear f m1) ||| m2
        else flag_clear (if v then f ||| m1 else flag_clear f m1) m2) ||| m1
      else flag_clear (if s then (if v then f ||| m1 else flag_clear f m1) ||| m2
        else flag_clear (if v then f ||| m1 else flag_clear f m1) m2) m1) ||| m2
     else flag_clear (if v' then (if s then (if v then f ||| m1 else flag_clear f m1) ||| m2
        else flag_clear (if v then f ||| m1 else flag_clear f m1) m2) ||| m1
      else flag_clear (if s then (if v then f ||| m1 else flag_clear f m1) ||| m2
        else flag_clear (if v then f ||| m1 else flag_clear f m1) m2) m1) m2)
    = (if s' then (if v' then f ||| m1 else flag_clear f m1) ||| m2
       else flag_clear (if v' then f ||| m1 else flag_clear f m1) m2) := by
  apply Nat.eq_of_testBit_eq
  intro i
  cases v <;> cases s <;> cases v' <;> cases s' <;>
    simp only [flag_clear, Nat.testBit_and, Nat.testBit_xor, Nat.testBit_or, if_true,
      Bool.false_eq_true, if_false] <;>
    cases f.testBit i <;> cases m1.testBit i <;> cases m2.testBit i <;> rfl

theorem base_set_derived_overwrite (v s v' s' : Bool) (b : ObjectBase) :
    base_set_derived v' s' (base_set_derived v s b) = base_set_derived v' s' b := by
  simp only [base_set_derived]
  rw [flag_write_overwrite]

theorem flag_clear_or_comm (f m k : Nat) (h : m &&& k = 0) :
    flag_clear f k ||| m = flag_clear (f ||| m) k := by
  apply Nat.eq_of_testBit_eq
  intro i
  have hi : (m &&& k).testBit i = false := by rw [h]; exact Nat.zero_testBit i
  simp only [flag_clear, Nat.testBit_and, Nat.testBit_xor, Nat.testBit_or] at hi ⊢
  revert hi
  cases f.testBit i <;> cases m.testBit i <;> cases k.testBit i <;> simp

theorem flag_clear_comm (f m k : Nat) :
    flag_clear (flag_clear f k) m = flag_clear (flag_clear f m) k := by
  apply Nat.eq_of_testBit_eq
  intro i
  simp only [flag_clear, Nat.testBit_and, Nat.testBit_xor]
  cases f.testBit i <;> cases m.testBit i <;> cases k.testBit i <;> rfl

theorem flag_clear_idem (f m : Nat) : flag_clear (flag_clear f m) m = flag_clear f m := by
  apply Nat.eq_of_testBit_eq
  intro i
  simp only [flag_clear, Nat.testBit_and, Nat.testBit_xor]
  cases f.testBit i <;> cases m.testBit i <;> rfl

theorem base_set_derived_clear_comm (v s : Bool) (b : ObjectBase) :
    base_set_derived v s (clear_selected b) = clear_selected (base_set_derived v s b) := by
  have h1 : BASE_VISIBLED &&& BASE_SELECTED = 0 := by decide
  have h2 : BASE_SELECTABLED &&& BASE_SELECTED = 0 := by decide
  cases v <;> cases s <;>
    simp only [base_set_derived, clear_selected, if_true, Bool.false_eq_true, if_false,
      flag_clear_or_comm _ _ _ h1, flag_clear_or_comm _ _ _ h2,
      flag_clear_comm _ BASE_VISIBLED BASE_SELECTED,
      flag_clear_comm _ BASE_SELECTABLED BASE_SELECTED]

theorem base_set_derived_other (v s : Bool) (b : ObjectBase) (k : Nat)
    (h1 : BASE_VISIBLED &&& k = 0) (h2 : BASE_SELECTABLED &&& k = 0) :
    (base_set_derived v s b).flag &&& k = b.flag &&& k := by
  cases v <;> cases s <;>
    simp only [base_set_derived, if_true, Bool.false_eq_true, if_false,
      flag_or_and_other _ _ _ h1, flag_or_and_other _ _ _ h2,
      flag_clear_and_other _ _ _ h1, flag_clear_and_other _ _ _ h2]

theorem write_alike_addr (b b' : ObjectBase) (h : WriteAlike b b') : b.addr = b'.addr := by
  show (base_set_derived true true b).addr = (base_set_derived true true b').addr
  rw [h true true]

theorem write_alike_trans {a b c : ObjectBase} (h1 : WriteAlike a b) (h2 : WriteAlike b c) :
    WriteAlike a c :=
  fun v s => (h1 v s).trans (h2 v s)

theorem flag_write_id : FlagWrite (fun b => b) :=
  ⟨fun _ _ _ => Or.inr ⟨rfl, rfl⟩, fun _ _ _ => rfl, fun _ => rfl, fun _ _ _ _ => rfl⟩

theorem flag_write_step (l : Nat) (v s : Bool) :
    FlagWrite (fun b => if b.addr = l then base_set_derived v s b else b) := by
  refine ⟨?_, ?_, ?_, ?_⟩
  · intro b b' h
    have ha := write_alike_addr b b' h
    by_cases hl : b.addr = l
    · left
      simp only [hl, ha ▸ hl, if_true]
      exact h v s
    · right
      have hl' : ¬ b'.addr = l := ha ▸ hl
      simp only [hl, hl', if_false, and_self]
  · intro b v' s'
    split
    · exact (base_set_derived_overwrite v s v' s' b).symm
    · rfl
  · intro b
    show (if b.addr = l then base_set_derived v s (clear_selected b) else clear_selected b)
      = clear_selected (if b.addr = l then base_set_derived v s b else b)
    split
    · exact base_set_derived_clear_comm v s b
    · rfl
  · intro b k h1 h2
    dsimp only
    split
    · exact base_set_derived_other v s b k h1 h2
    · rfl

theorem flag_write_comp (f g : ObjectBase → ObjectBase) (hf : FlagWrite f) (hg : FlagWrite g) :
    FlagWrite (fun b => g (f b)) := by
  refine ⟨?_, ?_, ?_, ?_⟩
  · intro b b' h
    rcases hf.alike b b' h with he | ⟨h1, h2⟩
    · left
      show g (f b) = g (f b')
      rw [he]
    · show g (f b) = g (f b') ∨ (g (f b) = b ∧ g (f b') = b')
      rw [h1, h2]
      exact hg.alike b b' h
  · intro b
    exact write_alike_trans (hf.absorbed b) (hg.absorbed (f b))
  · intro b
    show g (f (clear_selected b)) = clear_selected (g (f b))
    rw [hf.clear_comm, hg.clear_comm]
  · intro b k h1 h2
    show (g (f b)).flag &&& k = b.flag &&& k
    rw [hg.other _ k h1 h2, hf.other b k h1 h2]

theorem flag_write_links (links : List Nat) (v s : Bool) : FlagWrite (links_write links v s) := by
  induction links with
  | nil => exact flag_write_id
  | cons l ls ih => exact flag_write_comp _ (links_write ls v s) (flag_write_step l v s) ih

theorem flag_write_forest_of_tree (cs : List LayerCollection)
    (ih : ∀ c ∈ cs, ∀ v s, FlagWrite (tree_write c v s)) (v s : Bool) :
    FlagWrite (forest_write cs v s) := by
  induction cs with
  | nil => exact flag_write_id
  | cons c cs ihc =>
    exact flag_write_comp (tree_write c v s) (forest_write cs v s)
      (ih c (List.mem_cons_self _ _) v s) (ihc (fun c hc => ih c (List.mem_cons_of_mem _ hc)))

theorem flag_write_tree (t : LayerCollection) : ∀ v s, FlagWrite (tree_write t v s) := by
  induction t using layer_collection_induct with
  | h sc f ls cs ih =>
    intro v s
    exact flag_write_comp (links_write ls _ _) (forest_write cs _ _)
      (flag_write_links ls _ _) (flag_write_forest_of_tree cs ih _ _)

theorem flag_write_forest (cs : List LayerCollection) (v s : Bool) :
    FlagWrite (forest_write cs v s) :=
  flag_write_forest_of_tree cs (fun c _ => flag_write_tree c) v s

theorem flag_write_idem {f : ObjectBase → ObjectBase} (hf : FlagWrite f) (b : ObjectBase) :
    f (f b) = f b := by
  rcases hf.alike b (f b) (hf.absorbed b) with h | ⟨_, h⟩
  · exact h.symm
  · exact h

theorem recalculate_base_eq (forest : List LayerCollection) (b : ObjectBase) :
    recalculate_base forest b
      = if (forest_write forest true true b).flag &&& BASE_SELECTABLED = 0 then
          clear_selected (forest_write forest true true b)
        else forest_write forest true true b := rfl

theorem clear_selected_selectabled (b : ObjectBase) :
    (clear_selected b).flag &&& BASE_SELECTABLED = b.flag &&& BASE_SELECTABLED :=
  flag_clear_and_other _ _ _ (by decide)

theorem clear_selected_idem (b : ObjectBase) : clear_selected (clear_selected b) = clear_selected b := by
  simp only [clear_selected, flag_clear_idem]

/-- Recalculating a base a second time changes nothing. -/
theorem recalculate_base_idem (forest : List LayerCollection) (b : ObjectBase) :
    recalculate_base forest (recalculate_base forest b) = recalculate_base forest b := by
  have hw := flag_write_forest forest true true
  by_cases h0 : (forest_write forest true true b).flag &&& BASE_SELECTABLED = 0
  · have hr : recalculate_base forest b = clear_selected (forest_write forest true true b) := by
      rw [recalculate_base_eq, if_pos h0]
    rw [hr, recalculate_base_eq, hw.clear_comm, flag_write_idem hw, clear_selected_selectabled,
      if_pos h0, clear_selected_idem]
  · have hr : recalculate_base forest b = forest_write forest true true b := by
      rw [recalculate_base_eq, if_neg h0]
    rw [hr, recalculate_base_eq, flag_write_idem hw, if_neg h0]

theorem recalculate_base_other (forest : List LayerCollection) (b : ObjectBase) (k : Nat)
    (h0 : BASE_SELECTED &&& k = 0) (h1 : BASE_VISIBLED &&& k = 0)
    (h2 : BASE_SELECTABLED &&& k = 0) :
    (recalculate_base forest b).flag &&& k = b.flag &&& k := by
  have hw := flag_write_forest forest true true
  rw [recalculate_base_eq]
  split
  · show flag_clear _ BASE_SELECTED &&& k = _
    rw [flag_clear_and_other _ _ _ h0, hw.other b k h1 h2]
  · exact hw.other b k h1 h2

theorem recalculate_base_not_selected (forest : List LayerCollection) (b : ObjectBase)
    (h : (recalculate_base forest b).flag &&& BASE_SELECTED ≠ 0) :
    b.flag &&& BASE_SELECTED ≠ 0 := by
  have hw := flag_write_forest forest true true
  rw [recalculate_base_eq] at h
  split at h
  · exact absurd (flag_clear_and_self _ _) h
  · rwa [hw.other b BASE_SELECTED (by decide) (by decide)] at h

/-- C25: `BKE_scene_layer_base_flag_recalculate` is idempotent, and it keeps the forest,
`basact`, `active_collection`, and the registry base by base in order: address, object and
refcount are kept, every flag bit outside `BASE_SELECTED`, `BASE_VISIBLED` and
`BASE_SELECTABLED` is kept, and `BASE_SELECTED` is set afterwards only if it was before. -/
theorem recalculate_idempotent_frame (sl : SceneLayer) :
    BKE_scene_layer_base_flag_recalculate (BKE_scene_layer_base_flag_recalculate sl)
      = BKE_scene_layer_base_flag_recalculate sl ∧
    (BKE_scene_layer_base_flag_recalculate sl).layer_collections = sl.layer_collections ∧
    (BKE_scene_layer_base_flag_recalculate sl).basact = sl.basact ∧
    (BKE_scene_layer_base_flag_recalculate sl).active_collection = sl.active_collection ∧
    (BKE_scene_layer_base_flag_recalculate sl).flag = sl.flag ∧
    (BKE_scene_layer_base_flag_recalculate sl).addr = sl.addr ∧
    List.Forall₂
      (fun b b' => SameBase b b' ∧
        (∀ k, BASE_SELECTED &&& k = 0 → BASE_VISIBLED &&& k = 0 → BASE_SELECTABLED &&& k = 0 →
          b'.flag &&& k = b.flag &&& k) ∧
        (b'.flag &&& BASE_SELECTED ≠ 0 → b.flag &&& BASE_SELECTED ≠ 0))
      sl.object_bases (BKE_scene_layer_base_flag_recalculate sl).object_bases := by
  refine ⟨?_, rfl, rfl, rfl, rfl, rfl, ?_⟩
  · have h1 := recalculate_bases (BKE_scene_layer_base_flag_recalculate sl)
    rw [recalculate_forest, recalculate_bases sl, List.map_map] at h1
    have h2 : (recalculate_base sl.layer_collections ∘ recalculate_base sl.layer_collections)
        = recalculate_base sl.layer_collections := by
      funext b
      exact recalculate_base_idem _ b
    rw [h2, ← recalculate_bases sl] at h1
    have e : ∀ s : SceneLayer, BKE_scene_layer_base_flag_recalculate s
        = { s with object_bases := (BKE_scene_layer_base_flag_recalculate s).object_bases } :=
      fun s => rfl
    rw [e (BKE_scene_layer_base_flag_recalculate sl), h1]
  · rw [recalculate_bases, List.forall₂_map_right_iff, List.forall₂_same]
    intro b _
    exact ⟨recalculate_base_same _ b, recalculate_base_other _ b, recalculate_base_not_selected _ b⟩

/-! ## The last node that links a base -/

theorem last_link_append (a : Nat) (l1 l2 : List (List Nat × LayerCollection)) :
    last_link a (l1 ++ l2) = (last_link a l2).or (last_link a l1) := by
  simp only [last_link, List.filter_append, List.getLast?_append]

theorem last_link_singleton (a : Nat) (x : List Nat × LayerCollection) :
    last_link a [x] = if a ∈ x.2.object_bases then some x else none := by
  by_cases h : a ∈ x.2.object_bases
  · simp [last_link, h]
  · simp [last_link, h]

theorem last_link_none_iff (a : Nat) (l : List (List Nat × LayerCollection)) :
    last_link a l = none ↔ ∀ e ∈ l, a ∉ e.2.object_bases := by
  simp [last_link, List.getLast?_eq_none_iff, List.filter_eq_nil_iff]

theorem last_link_mem (a : Nat) (l : List (List Nat × LayerCollection))
    (e : List Nat × LayerCollection) (h : last_link a l = some e) :
    e ∈ l ∧ a ∈ e.2.object_bases := by
  induction l with
  | nil => cases h
  | cons x l ih =>
    have hx : x :: l = [x] ++ l := rfl
    rw [hx, last_link_append] at h
    cases hl : last_link a l with
    | some e' =>
      rw [hl] at h
      simp only [Option.or, Option.some.injEq] at h
      subst h
      exact ⟨List.mem_cons_of_mem _ (ih hl).1, (ih hl).2⟩
    | none =>
      rw [hl, Option.none_or, last_link_singleton] at h
      split at h
      · rename_i hm
        simp only [Option.some.injEq] at h
        subst h
        exact ⟨List.mem_cons_self _ _, hm⟩
      · cases h

theorem tree_links_eq (t : LayerCollection) :
    tree_links t = t.object_bases ++ forest_links t.layer_collections := by
  cases t; rfl

theorem links_entries_of_tree (cs : List LayerCollection)
    (ih : ∀ c ∈ cs, ∀ here k,
      forest_links c.layer_collections
        = (forest_entries c.layer_collections here k).flatMap (fun e => e.2.object_bases))
    (here : List Nat) (k : Nat) :
    forest_links cs = (forest_entries cs here k).flatMap (fun e => e.2.object_bases) := by
  induction cs generalizing k with
  | nil => rfl
  | cons c cs ihc =>
    rw [forest_entries, forest_links, List.flatMap_append, tree_entries_eq, tree_links_eq,
      List.flatMap_cons, ← ih c (List.mem_cons_self _ _),
      ← ihc (fun c hc => ih c (List.mem_cons_of_mem _ hc))]

theorem links_entries_children (t : LayerCollection) :
    ∀ here k, forest_links t.layer_collections
      = (forest_entries t.layer_collections here k).flatMap (fun e => e.2.object_bases) := by
  induction t using layer_collection_induct with
  | h sc f ls cs ih => exact links_entries_of_tree cs ih

/-- The links of a forest are those of its nodes in pre-order. -/
theorem forest_links_entries (cs : List LayerCollection) (here : List Nat) (k : Nat) :
    forest_links cs = (forest_entries cs here k).flatMap (fun e => e.2.object_bases) :=
  links_entries_of_tree cs (fun c _ => links_entries_children c) here k

theorem last_link_none_forest (a : Nat) (cs : List LayerCollection) (here : List Nat) (k : Nat) :
    last_link a (forest_entries cs here k) = none ↔ a ∉ forest_links cs := by
  rw [last_link_none_iff, forest_links_entries cs here k, List.mem_flatMap]
  constructor
  · rintro h ⟨e, he, ha⟩
    exact h e he ha
  · intro h e he ha
    exact h ⟨e, he, ha⟩

/-! ## The derived flags after the writes -/

theorem base_set_derived_as (v s : Bool) (b : ObjectBase) :
    DerivedAs (base_set_derived v s b) v s := by
  have h1 : BASE_SELECTABLED &&& BASE_VISIBLED = 0 := by decide
  have h2 : BASE_VISIBLED ≠ 0 := by decide
  have h3 : BASE_SELECTABLED ≠ 0 := by decide
  cases v <;> cases s <;>
    simp only [DerivedAs, base_set_derived, if_true, Bool.false_eq_true, if_false,
      flag_or_and_self, flag_clear_and_self, flag_or_and_other _ _ _ h1,
      flag_clear_and_other _ _ _ h1, ne_eq, not_true_eq_false, h2, h3, not_false_eq_true,
      and_self]

theorem links_write_last (links : List Nat) (v s : Bool) (b : ObjectBase)
    (h : b.addr ∈ links) : ∃ x, links_write links v s b = base_set_derived v s x := by
  induction links generalizing b with
  | nil => cases h
  | cons l ls ih =>
    have hstep : links_write (l :: ls) v s b
        = links_write ls v s (if b.addr = l then base_set_derived v s b else b) := rfl
    have haddr : (if b.addr = l then base_set_derived v s b else b).addr = b.addr := by
      split <;> rfl
    by_cases hm : b.addr ∈ ls
    · rw [hstep]
      exact ih _ (by rw [haddr]; exact hm)
    · have hl : b.addr = l := by
        rcases List.mem_cons.mp h with h | h
        · exact h
        · exact absurd h hm
      rw [hstep, links_write_of_not_mem ls v s _ (by rw [haddr]; exact hm), if_pos hl]
      exact ⟨b, rfl⟩

theorem tree_path_all_nil (pred : LayerCollection → Bool) (t : LayerCollection) :
    tree_path_all pred t [] = pred t := by
  cases t; rfl

theorem tree_path_all_cons (pred : LayerCollection → Bool) (t : LayerCollection) (j : Nat)
    (q : List Nat) (c : LayerCollection) (hc : t.layer_collections[j]? = some c) :
    tree_path_all pred t (j :: q) = (pred t && tree_path_all pred c q) := by
  cases t with
  | mk sc f ls cs =>
    simp only [LayerCollection.layer_collections] at hc
    simp only [tree_path_all, hc]

theorem tree_write_eq (t : LayerCollection) (v s : Bool) (b : ObjectBase) :
    tree_write t v s b
      = forest_write t.layer_collections (v && collection_visible t)
          (s && (v && collection_visible t) && (t.flag &&& COLLECTION_SELECTABLE != 0))
          (links_write t.object_bases (v && collection_visible t)
            (s && (v && collection_visible t) && (t.flag &&& COLLECTION_SELECTABLE != 0)) b) := by
  cases t; rfl

theorem tree_last (t : LayerCollection) (h : ForestLastSpec t.layer_collections)
    (here : List Nat) (v s : Bool) (b : ObjectBase) (e : List Nat × LayerCollection)
    (he : last_link b.addr (tree_entries t here) = some e) :
    ∃ q, e.1 = here ++ q ∧ t.get q = some e.2 ∧
      DerivedAs (tree_write t v s b) (v && tree_path_all collection_visible t q)
        (s && v && tree_path_all collection_visible_selectable t q) := by
  have hx : tree_entries t here = [(here, t)] ++ forest_entries t.layer_collections here 0 := by
    rw [tree_entries_eq]; rfl
  rw [hx, last_link_append] at he
  have haddr := links_write_addr t.object_bases (v && collection_visible t)
    (s && (v && collection_visible t) && (t.flag &&& COLLECTION_SELECTABLE != 0)) b
  rw [tree_write_eq]
  cases hF : last_link b.addr (forest_entries t.layer_collections here 0) with
  | some e' =>
    rw [hF] at he
    simp only [Option.or, Option.some.injEq] at he
    subst he
    rw [← haddr] at hF
    obtain ⟨j, c, q, h1, h2, h3, h4⟩ := h here 0 _ _ _ e' hF
    refine ⟨j :: q, by simpa using h1, by rw [tree_get_cons t j q c h2]; exact h3, ?_⟩
    rw [tree_path_all_cons _ t j q c h2, tree_path_all_cons _ t j q c h2]
    have e1 : (v && (collection_visible t && tree_path_all collection_visible c q))
        = (v && collection_visible t && tree_path_all collection_visible c q) := by
      rw [Bool.and_assoc]
    have e2 : (s && v && (collection_visible_selectable t &&
          tree_path_all collection_visible_selectable c q))
        = (s && (v && collection_visible t) && (t.flag &&& COLLECTION_SELECTABLE != 0) &&
          (v && collection_visible t) && tree_path_all collection_visible_selectable c q) := by
      simp only [collection_visible_selectable, collection_visible]
      cases s <;> cases v <;> cases (t.flag &&& COLLECTION_VISIBLE != 0) <;>
        cases (t.flag &&& COLLECTION_SELECTABLE != 0) <;> rfl
    rw [e1, e2]
    exact h4
  | none =>
    rw [hF, Option.none_or, last_link_singleton] at he
    split at he
    · rename_i hm
      simp only [Option.some.injEq] at he
      subst he
      have hnl := (last_link_none_forest _ _ _ _).mp hF
      rw [← haddr] at hnl
      rw [forest_write_of_not_linked _ _ _ _ hnl]
      refine ⟨[], by simp, tree_get_nil t, ?_⟩
      obtain ⟨x, hx⟩ := links_write_last t.object_bases (v && collection_visible t)
        (s && (v && collection_visible t) && (t.flag &&& COLLECTION_SELECTABLE != 0)) b hm
      rw [hx, tree_path_all_nil, tree_path_all_nil]
      have e2 : (s && v && collection_visible_selectable t)
          = (s && (v && collection_visible t) && (t.flag &&& COLLECTION_SELECTABLE != 0)) := by
        simp only [collection_visible_selectable, collection_visible]
        cases s <;> cases v <;> cases (t.flag &&& COLLECTION_VISIBLE != 0) <;>
          cases (t.flag &&& COLLECTION_SELECTABLE != 0) <;> rfl
      rw [e2]
      exact base_set_derived_as _ _ x
    · cases he

theorem forest_last_of_tree (cs : List LayerCollection)
    (ih : ∀ c ∈ cs, ForestLastSpec c.layer_collections) : ForestLastSpec cs := by
  induction cs with
  | nil => intro here k v s b e he; cases he
  | cons c cs ihc =>
    intro here k v s b e he
    rw [forest_entries, last_link_append] at he
    have hw : forest_write (c :: cs) v s b = forest_write cs v s (tree_write c v s b) := rfl
    have haddr := tree_write_addr c v s b
    rw [hw]
    cases hF : last_link b.addr (forest_entries cs here (k + 1)) with
    | some e' =>
      rw [hF] at he
      simp only [Option.or, Option.some.injEq] at he
      subst he
      rw [← haddr] at hF
      obtain ⟨j, c', q, h1, h2, h3, h4⟩ :=
        ihc (fun c hc => ih c (List.mem_cons_of_mem _ hc)) here (k + 1) v s _ e' hF
      exact ⟨j + 1, c', q, by rw [h1]; simp; omega, by simpa using h2, h3, h4⟩
    | none =>
      rw [hF, Option.none_or] at he
      have hnl := (last_link_none_forest _ _ _ _).mp hF
      rw [← haddr] at hnl
      rw [forest_write_of_not_linked _ _ _ _ hnl]
      obtain ⟨q, h1, h2, h3⟩ := tree_last c (ih c (List.mem_cons_self _ _)) (here ++ [k]) v s b e he
      exact ⟨0, c, q, by rw [h1]; simp, by simp, h2, h3⟩

theorem forest_last_children (t : LayerCollection) : ForestLastSpec t.layer_collections := by
  induction t using layer_collection_induct with
  | h sc f ls cs ih => exact forest_last_of_tree cs ih

theorem forest_last_spec (cs : List LayerCollection) : ForestLastSpec cs :=
  forest_last_of_tree cs (fun c _ => forest_last_children c)

theorem recalculate_base_derived (forest : List LayerCollection) (b : ObjectBase) (v s : Bool)
    (h : DerivedAs (forest_write forest true true b) v s) :
    DerivedAs (recalculate_base forest b) v s := by
  rw [recalculate_base_eq]
  split
  · unfold DerivedAs clear_selected
    rw [flag_clear_and_other _ _ _ (by decide), flag_clear_and_other _ _ _ (by decide)]
    exact h
  · exact h

/-- C22: after `BKE_scene_layer_base_flag_recalculate`, a base linked by at least one node
has a last node in pre-order that links it; the base has `BASE_VISIBLED` exactly when every
node on the way from the root down to that node has `COLLECTION_VISIBLE`, and
`BASE_SELECTABLED` exactly when every node on that way has both `COLLECTION_VISIBLE` and
`COLLECTION_SELECTABLE`, whatever earlier nodes that link the base wrote. -/
theorem recalculate_last_link (sl : SceneLayer) (b : ObjectBase)
    (hb : b ∈ (BKE_scene_layer_base_flag_recalculate sl).object_bases)
    (hl : b.addr ∈ forest_links sl.layer_collections) :
    ∃ p n, last_link b.addr (forest_entries sl.layer_collections [] 0) = some (p, n) ∧
      forest_get sl.layer_collections p = some n ∧ b.addr ∈ n.object_bases ∧
      (b.flag &&& BASE_VISIBLED ≠ 0 ↔
        forest_path_all collection_visible sl.layer_collections p = true) ∧
      (b.flag &&& BASE_SELECTABLED ≠ 0 ↔
        forest_path_all collection_visible_selectable sl.layer_collections p = true) := by
  rw [recalculate_bases, List.mem_map] at hb
  obtain ⟨b0, _, rfl⟩ := hb
  have haddr : (recalculate_base sl.layer_collections b0).addr = b0.addr :=
    (recalculate_base_same _ b0).1
  rw [haddr] at hl ⊢
  cases hF : last_link b0.addr (forest_entries sl.layer_collections [] 0) with
  | none => exact absurd hl ((last_link_none_forest _ _ _ _).mp hF)
  | some e =>
    obtain ⟨j, c, q, h1, h2, h3, h4⟩ := forest_last_spec sl.layer_collections [] 0 true true b0 e hF
    simp only [List.nil_append, Nat.zero_add, Bool.true_and] at h1 h4
    have hp : forest_get sl.layer_collections e.1 = some e.2 := by
      rw [h1]
      simp only [forest_get, h2]
      exact h3
    have hpa : ∀ pred, forest_path_all pred sl.layer_collections e.1 = tree_path_all pred c q := by
      intro pred
      rw [h1]
      simp only [forest_path_all, h2]
    have hd := recalculate_base_derived _ b0 _ _ h4
    exact ⟨e.1, e.2, rfl, hp, (last_link_mem _ _ _ hF).2, by rw [hpa]; exact hd.1,
      by rw [hpa]; exact hd.2⟩

theorem recalculate_last_link_witness :
    (⟨2, 102, 6, 1⟩ : ObjectBase) ∈ (BKE_scene_layer_base_flag_recalculate demo_layer).object_bases ∧
    2 ∈ forest_links demo_layer.layer_collections ∧
    ∃ p n, last_link 2 (forest_entries demo_layer.layer_collections [] 0) = some (p, n) ∧
      forest_get demo_layer.layer_collections p = some n ∧ 2 ∈ n.object_bases ∧
      ((6 : Nat) &&& BASE_VISIBLED ≠ 0 ↔
        forest_path_all collection_visible demo_layer.layer_collections p = true) ∧
      ((6 : Nat) &&& BASE_SELECTABLED ≠ 0 ↔
        forest_path_all collection_visible_selectable demo_layer.layer_collections p = true) :=
  ⟨by decide, by decide,
    recalculate_last_link demo_layer ⟨2, 102, 6, 1⟩ (by decide) (by decide)⟩

/-! ## One base per object -/

theorem base_update_objects (p : Nat) (f : ObjectBase → ObjectBase)
    (hf : ∀ x, (f x).object = x.object) (l : List ObjectBase) :
    (base_update p f l).map (fun b => b.object) = l.map (fun b => b.object) := by
  rw [base_update, List.map_map]
  apply List.map_congr_left
  intro x _
  show (if x.addr = p then f x else x).object = x.object
  split
  · exact hf x
  · rfl

theorem object_base_add_unique (alloc : List Nat → Nat) (sl : SceneLayer) (ob : Nat)
    (h : RegistryUnique sl) : RegistryUnique (object_base_add alloc sl ob).1 := by
  unfold RegistryUnique at h ⊢
  unfold object_base_add
  cases hf : BKE_scene_layer_base_find sl ob with
  | some base =>
    show ((base_update _ _ sl.object_bases).map (fun b => b.object)).Nodup
    rw [base_update_objects _ (fun b => { b with refcount := b.refcount + 1 }) (fun _ => rfl)]
    exact h
  | none =>
    show ((base_update _ _ (sl.object_bases ++ [_])).map (fun b => b.object)).Nodup
    rw [base_update_objects _ (fun b => { b with refcount := b.refcount + 1 }) (fun _ => rfl),
      List.map_append, List.map_singleton]
    have hn : ob ∉ sl.object_bases.map (fun b => b.object) := by
      intro hm
      obtain ⟨x, hx, hxo⟩ := List.mem_map.mp hm
      have := List.find?_eq_none.mp hf x hx
      simp [hxo] at this
    exact List.Nodup.append h (List.nodup_singleton _)
      (by
        intro a ha hb
        rw [List.mem_singleton] at hb
        have hb2 : a = ob := hb
        rw [hb2] at ha
        exact hn ha)

theorem recalculate_objects (sl : SceneLayer) :
    (BKE_scene_layer_base_flag_recalculate sl).object_bases.map (fun b => b.object)
      = sl.object_bases.map (fun b => b.object) := by
  rw [recalculate_bases, List.map_map]
  apply List.map_congr_left
  intro x _
  exact (recalculate_base_same _ x).2.1

theorem recalculate_unique (sl : SceneLayer) (h : RegistryUnique sl) :
    RegistryUnique (BKE_scene_layer_base_flag_recalculate sl) := by
  unfold RegistryUnique at h ⊢
  rw [recalculate_objects]
  exact h

theorem object_add_unique (alloc : List Nat → Nat) (sl : SceneLayer) (lc : List Nat) (ob : Nat)
    (h : RegistryUnique sl) : RegistryUnique (layer_collection_object_add alloc sl lc ob) := by
  unfold layer_collection_object_add
  simp only []
  split
  · exact object_base_add_unique alloc sl ob h
  · exact recalculate_unique _ (object_base_add_unique alloc sl ob h)

theorem objects_populate_unique (alloc : List Nat → Nat) (sl : SceneLayer) (lc : List Nat)
    (objects : List Nat) (h : RegistryUnique sl) :
    RegistryUnique (layer_collection_objects_populate alloc sl lc objects) := by
  unfold layer_collection_objects_populate
  exact foldl_preserves RegistryUnique _ objects sl
    (fun s hs ob _ => object_add_unique alloc s lc ob hs) h

theorem add_children_unique (alloc : List Nat → Nat) (children : List SceneCollection)
    (ih : ∀ c ∈ children, ∀ sl lb, RegistryUnique sl →
      RegistryUnique (layer_collection_add alloc c sl lb).1)
    (sl : SceneLayer) (lc : List Nat) (h : RegistryUnique sl) :
    RegistryUnique (layer_collection_add_children alloc children sl lc) := by
  induction children generalizing sl with
  | nil => exact h
  | cons c cs ihc =>
    rw [layer_collection_add_children]
    exact ihc (fun c hc => ih c (List.mem_cons_of_mem _ hc)) _
      (ih c (List.mem_cons_self _ _) sl lc h)

theorem layer_collection_add_unique (alloc : List Nat → Nat) (sc : SceneCollection) :
    ∀ sl lb, RegistryUnique sl → RegistryUnique (layer_collection_add alloc sc sl lb).1 := by
  induction sc using scene_collection_induct with
  | h id objs filt children ih =>
    intro sl lb h
    rw [layer_collection_add]
    simp only []
    apply add_children_unique alloc children ih
    apply objects_populate_unique
    apply objects_populate_unique
    exact h

theorem unref_unique (sl : SceneLayer) (base : Nat) (h : RegistryUnique sl) :
    RegistryUnique (scene_layer_object_base_unref sl base) := by
  unfold RegistryUnique at h ⊢
  have hu : ((base_update base (fun b => { b with refcount := b.refcount - 1 })
      sl.object_bases).map (fun b => b.object)).Nodup := by
    rw [base_update_objects _ (fun b => { b with refcount := b.refcount - 1 }) (fun _ => rfl)]
    exact h
  unfold scene_layer_object_base_unref
  simp only []
  split
  · exact h
  · split
    · exact List.Nodup.sublist (List.Sublist.map _ (List.filter_sublist _)) hu
    · exact hu

theorem layer_collection_free_unique (t : LayerCollection) (sl : SceneLayer)
    (h : RegistryUnique sl) : RegistryUnique (layer_collection_free t sl) := by
  rw [free_eq_foldl]
  exact foldl_preserves RegistryUnique _ _ sl (fun s hs b _ => unref_unique s b hs) h

theorem collection_free_unique (sl : SceneLayer) (lc : List Nat) (h : RegistryUnique sl) :
    RegistryUnique (BKE_layer_collection_free sl lc) := by
  unfold BKE_layer_collection_free
  split
  · exact h
  · exact layer_collection_free_unique _ sl h

theorem collection_unlink_unique (sl : SceneLayer) (lc : List Nat) (h : RegistryUnique sl) :
    RegistryUnique (BKE_collection_unlink sl lc) :=
  recalculate_unique _ (collection_free_unique sl lc h)

theorem collection_link_unique (alloc : List Nat → Nat) (sl : SceneLayer) (sc : SceneCollection)
    (h : RegistryUnique sl) : RegistryUnique (BKE_collection_link alloc sl sc).1 :=
  layer_collection_add_unique alloc sc sl [] h

theorem object_remove_unique (sl : SceneLayer) (lc : List Nat) (ob : Nat)
    (h : RegistryUnique sl) : RegistryUnique (layer_collection_object_remove sl lc ob) := by
  unfold layer_collection_object_remove
  split
  · exact h
  · exact unref_unique _ _ h

theorem sync_layer_collections_preserves (P : SceneLayer → Prop) (sc : Nat)
    (body : SceneLayer → List Nat → SceneLayer) (hb : ∀ s p, P s → P (body s p))
    (sl : SceneLayer) (h : P sl) : P (sync_layer_collections sc body sl) := by
  unfold sync_layer_collections
  apply foldl_preserves P _ _ sl _ h
  intro s hs i _
  unfold sync_round
  split
  · exact hs
  · split
    · exact hs
    · exact hb _ _ hs

theorem layer_update_mem (f : SceneLayer → SceneLayer) (l : List SceneLayer) (i : Nat)
    (x : SceneLayer) (hx : x ∈ layer_update f l i) : x ∈ l ∨ ∃ y ∈ l, x = f y := by
  induction l generalizing i with
  | nil => cases hx
  | cons a l ih =>
    cases i with
    | zero =>
      rw [layer_update, List.mem_cons] at hx
      rcases hx with rfl | hx
      · exact Or.inr ⟨a, List.mem_cons_self _ _, rfl⟩
      · exact Or.inl (List.mem_cons_of_mem _ hx)
    | succ i =>
      rw [layer_update, List.mem_cons] at hx
      rcases hx with rfl | hx
      · exact Or.inl (List.mem_cons_self _ _)
      · rcases ih i hx with h | ⟨y, hy, rfl⟩
        · exact Or.inl (List.mem_cons_of_mem _ h)
        · exact Or.inr ⟨y, List.mem_cons_of_mem _ hy, rfl⟩

theorem layer_update_preserves (P : SceneLayer → Prop) (f : SceneLayer → SceneLayer)
    (hf : ∀ s, P s → P (f s)) (l : List SceneLayer) (i : Nat) (h : ∀ s ∈ l, P s) :
    ∀ s ∈ layer_update f l i, P s := by
  intro s hs
  rcases layer_update_mem f l i s hs with h1 | ⟨y, hy, rfl⟩
  · exact h s h1
  · exact hf y (h y hy)

theorem map_preserves (P : SceneLayer → Prop) (f : SceneLayer → SceneLayer)
    (hf : ∀ s, P s → P (f s)) (l : List SceneLayer) (h : ∀ s ∈ l, P s) :
    ∀ s ∈ l.map f, P s := by
  intro s hs
  obtain ⟨y, hy, rfl⟩ := List.mem_map.mp hs
  exact hf y (h y hy)

theorem reachable_unique (alloc : List Nat → Nat) (scene : Scene) (h : Reachable alloc scene) :
    ∀ sl ∈ scene.render_layers, RegistryUnique sl := by
  induction h with
  | start scene h0 => intro sl hsl; rw [h0] at hsl; cases hsl
  | collection scene c _ ih => exact ih
  | layer_add scene _ ih =>
    intro sl hsl
    rcases List.mem_append.mp hsl with h1 | h1
    · exact ih sl h1
    · rw [List.mem_singleton] at h1
      rw [h1]
      exact layer_collection_add_unique alloc _ _ [] List.nodup_nil
  | link scene i sc _ ih =>
    exact layer_update_preserves _ _ (fun s hs => collection_link_unique alloc s sc hs) _ i ih
  | unlink scene i lc _ ih =>
    exact layer_update_preserves _ _ (fun s hs => collection_unlink_unique s lc hs) _ i ih
  | sync_new scene sc_parent sc _ ih =>
    exact map_preserves _ _ (fun s hs => sync_layer_collections_preserves _ _ _
      (fun s p hs => layer_collection_add_unique alloc sc s p hs) s hs) _ ih
  | sync_link scene sc ob _ ih =>
    exact map_preserves _ _ (fun s hs => sync_layer_collections_preserves _ _ _
      (fun s p hs => object_add_unique alloc s p ob hs) s hs) _ ih
  | sync_unlink scene sc ob _ ih =>
    exact map_preserves _ _ (fun s hs => recalculate_unique _
      (sync_layer_collections_preserves _ sc _
        (fun s p hs => object_remove_unique s p ob hs) s hs)) _ ih

theorem find_of_unique (sl : SceneLayer) (h : RegistryUnique sl) (b : ObjectBase)
    (hb : b ∈ sl.object_bases) : BKE_scene_layer_base_find sl b.object = some b := by
  unfold BKE_scene_layer_base_find
  cases hf : sl.object_bases.find? (fun x => x.object == b.object) with
  | none =>
    have := List.find?_eq_none.mp hf b hb
    simp at this
  | some x =>
    have hx := List.mem_of_find?_eq_some hf
    have hxo : x.object = b.object := by simpa using List.find?_some hf
    rw [List.inj_on_of_nodup_map h hx hb hxo]

/-- C26: in every layer of a scene reachable from a scene without layers by
`BKE_scene_layer_add`, `BKE_collection_link`, `BKE_collection_unlink` and the three sync
functions, no two bases of the registry reference the same object;
`BKE_scene_layer_base_find` returns the base of an object that has one, and none exactly
when no base references the object. -/
theorem reachable_registry_unique (alloc : List Nat → Nat) (scene : Scene)
    (h : Reachable alloc scene) (sl : SceneLayer) (hsl : sl ∈ scene.render_layers) :
    (sl.object_bases.map (fun b => b.object)).Nodup ∧
    (∀ b ∈ sl.object_bases, BKE_scene_layer_base_find sl b.object = some b) ∧
    (∀ ob, BKE_scene_layer_base_find sl ob = none ↔ ∀ b ∈ sl.object_bases, b.object ≠ ob) := by
  have hu := reachable_unique alloc scene h sl hsl
  refine ⟨hu, fun b hb => find_of_unique sl hu b hb, ?_⟩
  intro ob
  unfold BKE_scene_layer_base_find
  rw [List.find?_eq_none]
  simp

theorem reachable_registry_unique_witness :
    Reachable bump_alloc (BKE_scene_layer_add bump_alloc demo_scene_filter).1 ∧
    (⟨1, 1, [.mk 10 7 [1] []], [⟨1, 101, 0, 2⟩], none, 0⟩ : SceneLayer)
      ∈ (BKE_scene_layer_add bump_alloc demo_scene_filter).1.render_layers ∧
    ([101] : List Nat).Nodup ∧
    (∀ b ∈ [(⟨1, 101, 0, 2⟩ : ObjectBase)],
      BKE_scene_layer_base_find ⟨1, 1, [.mk 10 7 [1] []], [⟨1, 101, 0, 2⟩], none, 0⟩ b.object
        = some b) ∧
    (∀ ob, BKE_scene_layer_base_find ⟨1, 1, [.mk 10 7 [1] []], [⟨1, 101, 0, 2⟩], none, 0⟩ ob = none
      ↔ ∀ b ∈ [(⟨1, 101, 0, 2⟩ : ObjectBase)], b.object ≠ ob) :=
  ⟨Reachable.layer_add _ (Reachable.start _ rfl), List.mem_singleton.mpr rfl,
    reachable_registry_unique bump_alloc (BKE_scene_layer_add bump_alloc demo_scene_filter).1
      (Reachable.layer_add _ (Reachable.start _ rfl)) _ (List.mem_singleton.mpr rfl)⟩

/-! ## The registry as a map from addresses to objects -/

theorem base_object_map (g : ObjectBase → ObjectBase)
    (hg : ∀ x, (g x).addr = x.addr ∧ (g x).object = x.object) (l : List ObjectBase) (a : Nat) :
    base_object (l.map g) a = base_object l a := by
  unfold base_object
  rw [find_addr_map g (fun x => (hg x).1), Option.map_map]
  cases l.find? (fun b => b.addr == a) with
  | none => rfl
  | some b => exact congrArg some (hg b).2

theorem well_formed_map (g : ObjectBase → ObjectBase)
    (hg : ∀ x, (g x).addr = x.addr ∧ (g x).object = x.object) (l : List ObjectBase)
    (h : RegistryWellFormed l) : RegistryWellFormed (l.map g) := by
  have h1 : (l.map g).map (fun b => b.addr) = l.map (fun b => b.addr) := by
    rw [List.map_map]
    exact List.map_congr_left (fun x _ => (hg x).1)
  have h2 : (l.map g).map (fun b => b.object) = l.map (fun b => b.object) := by
    rw [List.map_map]
    exact List.map_congr_left (fun x _ => (hg x).2)
  unfold RegistryWellFormed
  rw [h1, h2]
  exact h

theorem base_object_mem (l : List ObjectBase) (a o : Nat) (h : base_object l a = some o) :
    ∃ b ∈ l, b.addr = a ∧ b.object = o := by
  unfold base_object at h
  cases hf : l.find? (fun b => b.addr == a) with
  | none => rw [hf] at h; cases h
  | some b =>
    rw [hf] at h
    simp only [Option.map_some', Option.some.injEq] at h
    exact ⟨b, List.mem_of_find?_eq_some hf, by simpa using List.find?_some hf, h⟩

theorem base_object_of_mem (l : List ObjectBase) (h : RegistryWellFormed l) (b : ObjectBase)
    (hb : b ∈ l) : base_object l b.addr = some b.object := by
  unfold base_object
  rw [find_addr_of_mem l b h.1 hb]
  rfl

theorem base_object_inj (l : List ObjectBase) (h : RegistryWellFormed l) (a a' o : Nat)
    (h1 : base_object l a = some o) (h2 : base_object l a' = some o) : a = a' := by
  obtain ⟨b, hb, hba, hbo⟩ := base_object_mem l a o h1
  obtain ⟨b', hb', hba', hbo'⟩ := base_object_mem l a' o h2
  have e : b = b' := List.inj_on_of_nodup_map h.2 hb hb' (hbo.trans hbo'.symm)
  rw [← hba, ← hba', e]

theorem registry_extends_refl (l : List ObjectBase) : RegistryExtends l l :=
  fun _ _ h => h

theorem registry_extends_trans {l1 l2 l3 : List ObjectBase} (h1 : RegistryExtends l1 l2)
    (h2 : RegistryExtends l2 l3) : RegistryExtends l1 l3 :=
  fun a o h => h2 a o (h1 a o h)

theorem registry_extends_map (g : ObjectBase → ObjectBase)
    (hg : ∀ x, (g x).addr = x.addr ∧ (g x).object = x.object) (l : List ObjectBase) :
    RegistryExtends l (l.map g) := by
  intro a o h
  rw [base_object_map g hg]
  exact h

theorem registry_extends_append (l : List ObjectBase) (x : ObjectBase) :
    RegistryExtends l (l ++ [x]) := by
  intro a o h
  unfold base_object at h ⊢
  rw [List.find?_append]
  cases hf : l.find? (fun b => b.addr == a) with
  | none => rw [hf] at h; cases h
  | some b => rw [hf] at h; exact h

theorem links_objects_extends (l l' : List ObjectBase) (h : RegistryExtends l l')
    (links : List Nat) (seen : List Nat)
    (hl : links.map (base_object l) = seen.map some) :
    links.map (base_object l') = seen.map some := by
  induction links generalizing seen with
  | nil => exact hl
  | cons a links ih =>
    cases seen with
    | nil => cases hl
    | cons o seen =>
      simp only [List.map_cons, List.cons.injEq] at hl ⊢
      exact ⟨h a o hl.1, ih seen hl.2⟩

theorem base_update_eq_map (p : Nat) (f : ObjectBase → ObjectBase) (l : List ObjectBase) :
    base_update p f l = l.map (fun b => if b.addr = p then f b else b) := rfl

theorem object_base_add_well_formed (alloc : List Nat → Nat)
    (hfresh : ∀ used, alloc used ∉ used) (sl : SceneLayer) (ob : Nat)
    (h : RegistryWellFormed sl.object_bases) :
    RegistryWellFormed (object_base_add alloc sl ob).1.object_bases ∧
    RegistryExtends sl.object_bases (object_base_add alloc sl ob).1.object_bases ∧
    base_object (object_base_add alloc sl ob).1.object_bases (object_base_add alloc sl ob).2
      = some ob := by
  have hg : ∀ (p : Nat) (x : ObjectBase),
      (if x.addr = p then ({ x with refcount := x.refcount + 1 } : ObjectBase) else x).addr = x.addr ∧
      (if x.addr = p then ({ x with refcount := x.refcount + 1 } : ObjectBase) else x).object
        = x.object := by
    intro p x
    split <;> exact ⟨rfl, rfl⟩
  cases hf : BKE_scene_layer_base_find sl ob with
  | some base =>
    rw [object_base_add_found alloc sl ob base hf]
    show RegistryWellFormed (base_update _ _ sl.object_bases) ∧
      RegistryExtends sl.object_bases (base_update _ _ sl.object_bases) ∧
      base_object (base_update _ _ sl.object_bases) base.addr = some ob
    rw [base_update_eq_map]
    refine ⟨well_formed_map _ (hg _) _ h, registry_extends_map _ (hg _) _, ?_⟩
    rw [base_object_map _ (hg _)]
    unfold BKE_scene_layer_base_find at hf
    have hm := List.mem_of_find?_eq_some hf
    have ho : base.object = ob := by simpa using List.find?_some hf
    rw [base_object_of_mem _ h base hm, ho]
  | none =>
    have hn : ob ∉ sl.object_bases.map (fun b => b.object) := by
      intro hm
      obtain ⟨x, hx, hxo⟩ := List.mem_map.mp hm
      have := List.find?_eq_none.mp hf x hx
      simp [hxo] at this
    have hwf : RegistryWellFormed (sl.object_bases ++
        [{ addr := alloc (sl.object_bases.map (fun b => b.addr)), object := ob, flag := 0,
           refcount := 0 }]) := by
      constructor
      · rw [List.map_append, List.map_singleton]
        refine List.Nodup.append h.1 (List.nodup_singleton _) ?_
        intro a ha hb
        rw [List.mem_singleton] at hb
        have hb2 : a = alloc (sl.object_bases.map (fun b => b.addr)) := hb
        rw [hb2] at ha
        exact hfresh _ ha
      · rw [List.map_append, List.map_singleton]
        refine List.Nodup.append h.2 (List.nodup_singleton _) ?_
        intro a ha hb
        rw [List.mem_singleton] at hb
        have hb2 : a = ob := hb
        rw [hb2] at ha
        exact hn ha
    simp only [object_base_add, hf]
    rw [base_update_eq_map]
    refine ⟨well_formed_map _ (hg _) _ hwf,
      registry_extends_trans (registry_extends_append _ _) (registry_extends_map _ (hg _) _), ?_⟩
    rw [base_object_map _ (hg _)]
    exact base_object_of_mem _ hwf
      { addr := alloc (sl.object_bases.map (fun b => b.addr)), object := ob, flag := 0,
        refcount := 0 }
      (List.mem_append_right _ (List.mem_singleton_self _))

theorem recalculate_well_formed (sl : SceneLayer) (h : RegistryWellFormed sl.object_bases) :
    RegistryWellFormed (BKE_scene_layer_base_flag_recalculate sl).object_bases := by
  rw [recalculate_bases]
  exact well_formed_map _
    (fun x => ⟨(recalculate_base_same _ x).1, (recalculate_base_same _ x).2.1⟩) _ h

theorem recalculate_base_object (sl : SceneLayer) (a : Nat) :
    base_object (BKE_scene_layer_base_flag_recalculate sl).object_bases a
      = base_object sl.object_bases a := by
  rw [recalculate_bases]
  exact base_object_map _
    (fun x => ⟨(recalculate_base_same _ x).1, (recalculate_base_same _ x).2.1⟩) _ a

/-! ## First occurrences -/

theorem seen_fold (objects : List Nat) :
    ∀ acc : List Nat, objects.foldl seen_step acc
      = acc ++ (first_occurrences objects).filter (fun y => decide (y ∉ acc)) := by
  induction objects with
  | nil => intro acc; simp [first_occurrences]
  | cons x xs ih =>
    intro acc
    rw [List.foldl_cons, ih, first_occurrences]
    by_cases hx : x ∈ acc
    · have e : seen_step acc x = acc := if_pos hx
      rw [e, List.filter_cons_of_neg (by simpa using hx), List.filter_filter]
      congr 1
      apply List.filter_congr
      intro y _
      by_cases hy : y ∈ acc
      · simp [hy]
      · have : y ≠ x := fun e => hy (e ▸ hx)
        simp [hy, this]
    · have e : seen_step acc x = acc ++ [x] := if_neg hx
      rw [e, List.filter_cons_of_pos (by simpa using hx), List.filter_filter, List.append_assoc]
      congr 1
      simp only [List.singleton_append, List.cons.injEq, true_and]
      apply List.filter_congr
      intro y _
      by_cases hy : y ∈ acc <;> by_cases hyx : y = x <;> simp [hy, hyx]

theorem seen_fold_nil (objects : List Nat) :
    objects.foldl seen_step [] = first_occurrences objects := by
  rw [seen_fold]
  simp

/-! ## The node just added -/

theorem tree_get_addtail (n : LayerCollection) (q : List Nat) :
    ∀ (t x : LayerCollection), t.get q = some x →
      (t.modify (LayerCollection.appendChild n) q).get (q ++ [x.layer_collections.length])
        = some n := by
  induction q with
  | nil =>
    intro t x h
    rw [tree_get_nil] at h
    cases h
    rw [tree_modify_nil]
    cases t with
    | mk s fl ls cs =>
      simp [LayerCollection.appendChild, LayerCollection.get, LayerCollection.layer_collections]
  | cons i q ih =>
    intro t x h
    cases t with
    | mk s fl ls cs =>
      simp only [LayerCollection.get] at h
      cases hc : cs[i]? with
      | none => simp [hc] at h
      | some c =>
        simp only [hc] at h
        have hi : i < cs.length := (List.getElem?_eq_some_iff.mp hc).1
        simp only [LayerCollection.modify, hc, List.cons_append, LayerCollection.get]
        rw [List.getElem?_set_self (by simpa using hi)]
        exact ih c x h

theorem valid_list_root (forest : List LayerCollection) (lb : List Nat)
    (h : ValidList forest lb) : ∃ x, (forest_root forest).get lb = some x := by
  rcases h with rfl | h
  · exact ⟨_, tree_get_nil _⟩
  · cases lb with
    | nil => simp [forest_get] at h
    | cons i p =>
      rw [forest_get_eq_root] at h
      exact Option.isSome_iff_exists.mp h

theorem forest_get_addtail (forest : List LayerCollection) (lb : List Nat)
    (h : ValidList forest lb) (n : LayerCollection) :
    forest_get (forest_addtail forest lb n) (lb ++ [forest_listlen forest lb]) = some n := by
  obtain ⟨x, hx⟩ := valid_list_root forest lb h
  have hne : ∃ i p, lb ++ [forest_listlen forest lb] = i :: p := by
    cases lb with
    | nil => exact ⟨_, _, rfl⟩
    | cons i p => exact ⟨i, _, rfl⟩
  obtain ⟨i, p, hip⟩ := hne
  rw [hip, forest_get_eq_root, ← hip, forest_root_addtail, forest_listlen_eq_root, hx]
  exact tree_get_addtail n lb _ x hx

/-! ## Links of the node while it is populated -/

theorem append_link_fields (b : Nat) (n : LayerCollection) :
    (LayerCollection.appendLink b n).scene_collection = n.scene_collection ∧
    (LayerCollection.appendLink b n).flag = n.flag ∧
    (LayerCollection.appendLink b n).layer_collections = n.layer_collections ∧
    (LayerCollection.appendLink b n).object_bases = n.object_bases ++ [b] := by
  cases n; exact ⟨rfl, rfl, rfl, rfl⟩

theorem append_child_fields (t n : LayerCollection) :
    (LayerCollection.appendChild t n).scene_collection = n.scene_collection ∧
    (LayerCollection.appendChild t n).flag = n.flag ∧
    (LayerCollection.appendChild t n).layer_collections = n.layer_collections ++ [t] ∧
    (LayerCollection.appendChild t n).object_bases = n.object_bases := by
  cases n; exact ⟨rfl, rfl, rfl, rfl⟩

theorem object_add_links (alloc : List Nat → Nat) (hfresh : ∀ used, alloc used ∉ used)
    (forest : List LayerCollection) (lb : List Nat) (hlb : ValidList forest lb)
    (sl : SceneLayer) (n : LayerCollection) (seen : List Nat) (ob : Nat)
    (hf : sl.layer_collections = forest_addtail forest lb n)
    (hwf : RegistryWellFormed sl.object_bases)
    (hl : n.object_bases.map (base_object sl.object_bases) = seen.map some) :
    ∃ n', (layer_collection_object_add alloc sl (lb ++ [forest_listlen forest lb])
            ob).layer_collections = forest_addtail forest lb n' ∧
      n'.scene_collection = n.scene_collection ∧ n'.flag = n.flag ∧
      n'.layer_collections = n.layer_collections ∧
      RegistryWellFormed (layer_collection_object_add alloc sl (lb ++ [forest_listlen forest lb])
        ob).object_bases ∧
      RegistryExtends sl.object_bases (layer_collection_object_add alloc sl
        (lb ++ [forest_listlen forest lb]) ob).object_bases ∧
      n'.object_bases.map (base_object (layer_collection_object_add alloc sl
        (lb ++ [forest_listlen forest lb]) ob).object_bases) = (seen_step seen ob).map some := by
  obtain ⟨h1, h2, h3⟩ := object_base_add_well_formed alloc hfresh sl ob hwf
  have hforest := object_base_add_forest alloc sl ob
  have hl1 := links_objects_extends _ _ h2 _ _ hl
  have hget : forest_get (object_base_add alloc sl ob).1.layer_collections
      (lb ++ [forest_listlen forest lb]) = some n := by
    rw [hforest, hf]
    exact forest_get_addtail forest lb hlb n
  unfold layer_collection_object_add
  simp only [hget]
  by_cases hm : (object_base_add alloc sl ob).2 ∈ n.object_bases
  · rw [if_pos hm]
    have hseen : ob ∈ seen := by
      have : some ob ∈ n.object_bases.map (base_object (object_base_add alloc sl ob).1.object_bases) :=
        List.mem_map.mpr ⟨_, hm, h3⟩
      rw [hl1] at this
      simpa using this
    have e : seen_step seen ob = seen := if_pos hseen
    rw [e]
    exact ⟨n, hforest.trans hf, rfl, rfl, rfl, h1, h2, hl1⟩
  · rw [if_neg hm]
    have hseen : ob ∉ seen := by
      intro hs
      have : some ob ∈ seen.map some := List.mem_map.mpr ⟨ob, hs, rfl⟩
      rw [← hl1] at this
      obtain ⟨a, ha, hao⟩ := List.mem_map.mp this
      have := base_object_inj _ h1 _ _ _ hao h3
      exact hm (this ▸ ha)
    have e : seen_step seen ob = seen ++ [ob] := if_neg hseen
    obtain ⟨f1, f2, f3, f4⟩ := append_link_fields (object_base_add alloc sl ob).2 n
    refine ⟨LayerCollection.appendLink (object_base_add alloc sl ob).2 n, ?_, f1, f2, f3,
      recalculate_well_formed _ h1, ?_, ?_⟩
    · show forest_modify _ (object_base_add alloc sl ob).1.layer_collections _ = _
      rw [hforest, hf, forest_modify_addtail]
    · intro a o hao
      show base_object (BKE_scene_layer_base_flag_recalculate _).object_bases a = some o
      rw [recalculate_base_object]
      exact h2 a o hao
    · have hb : base_object (BKE_scene_layer_base_flag_recalculate
          (object_base_add alloc sl ob).1).object_bases
          = base_object (object_base_add alloc sl ob).1.object_bases := by
        funext a
        exact recalculate_base_object _ a
      show List.map (base_object (BKE_scene_layer_base_flag_recalculate _).object_bases) _ = _
      rw [hb, f4, e, List.map_append, List.map_append, hl1, List.map_singleton,
        List.map_singleton, h3]

theorem objects_populate_links (alloc : List Nat → Nat) (hfresh : ∀ used, alloc used ∉ used)
    (forest : List LayerCollection) (lb : List Nat) (hlb : ValidList forest lb)
    (objects : List Nat) :
    ∀ (sl : SceneLayer) (n : LayerCollection) (seen : List Nat),
      sl.layer_collections = forest_addtail forest lb n →
      RegistryWellFormed sl.object_bases →
      n.object_bases.map (base_object sl.object_bases) = seen.map some →
      ∃ n', (layer_collection_objects_populate alloc sl (lb ++ [forest_listlen forest lb])
              objects).layer_collections = forest_addtail forest lb n' ∧
        n'.scene_collection = n.scene_collection ∧ n'.flag = n.flag ∧
        n'.layer_collections = n.layer_collections ∧
        RegistryWellFormed (layer_collection_objects_populate alloc sl
          (lb ++ [forest_listlen forest lb]) objects).object_bases ∧
        RegistryExtends sl.object_bases (layer_collection_objects_populate alloc sl
          (lb ++ [forest_listlen forest lb]) objects).object_bases ∧
        n'.object_bases.map (base_object (layer_collection_objects_populate alloc sl
          (lb ++ [forest_listlen forest lb]) objects).object_bases)
          = (objects.foldl seen_step seen).map some := by
  induction objects with
  | nil =>
    intro sl n seen hf hwf hl
    exact ⟨n, hf, rfl, rfl, rfl, hwf, registry_extends_refl _, hl⟩
  | cons ob rest ih =>
    intro sl n seen hf hwf hl
    obtain ⟨n1, g1, g2, g3, g4, g5, g6, g7⟩ :=
      object_add_links alloc hfresh forest lb hlb sl n seen ob hf hwf hl
    obtain ⟨n2, k1, k2, k3, k4, k5, k6, k7⟩ := ih _ n1 _ g1 g5 g7
    unfold layer_collection_objects_populate at k1 k5 k6 k7 ⊢
    rw [List.foldl_cons, List.foldl_cons]
    exact ⟨n2, k1, k2.trans g2, k3.trans g3, k4.trans g4, k5, registry_extends_trans g6 k6, k7⟩

/-! ## The mirror in a larger registry -/

theorem mirrors_links_list_extends (l l' : List ObjectBase) (cs : List LayerCollection)
    (ih : ∀ c ∈ cs, ∀ sc, mirrors_links l c sc = true → mirrors_links l' c sc = true) :
    ∀ scs, mirrors_links_list l cs scs = true → mirrors_links_list l' cs scs = true := by
  induction cs with
  | nil => intro scs h; exact h
  | cons c cs ihc =>
    intro scs h
    cases scs with
    | nil => simp [mirrors_links_list] at h
    | cons sc rest =>
      simp only [mirrors_links_list, Bool.and_eq_true] at h ⊢
      exact ⟨ih c (List.mem_cons_self _ _) sc h.1,
        ihc (fun c hc => ih c (List.mem_cons_of_mem _ hc)) rest h.2⟩

theorem mirrors_links_extends (l l' : List ObjectBase) (h : RegistryExtends l l')
    (t : LayerCollection) :
    ∀ sc, mirrors_links l t sc = true → mirrors_links l' t sc = true := by
  induction t using layer_collection_induct with
  | h s f ls cs ih =>
    intro sc hm
    simp only [mirrors_links, Bool.and_eq_true, beq_iff_eq] at hm ⊢
    exact ⟨⟨⟨hm.1.1.1, hm.1.1.2⟩, links_objects_extends l l' h ls _ hm.1.2⟩,
      mirrors_links_list_extends l l' cs ih _ hm.2⟩

/-! ## The children and the whole tree -/

theorem add_children_links (alloc : List Nat → Nat) (forest : List LayerCollection)
    (lb : List Nat) (hlb : ValidList forest lb) (children : List SceneCollection)
    (ih : ∀ c ∈ children, AddsMirrorLinks alloc c) :
    ∀ (sl : SceneLayer) (n : LayerCollection),
      sl.layer_collections = forest_addtail forest lb n →
      RegistryWellFormed sl.object_bases →
      ∃ n' ts, (layer_collection_add_children alloc children sl
                (lb ++ [forest_listlen forest lb])).layer_collections
                  = forest_addtail forest lb n' ∧
        n'.scene_collection = n.scene_collection ∧ n'.flag = n.flag ∧
        n'.object_bases = n.object_bases ∧
        n'.layer_collections = n.layer_collections ++ ts ∧
        RegistryWellFormed (layer_collection_add_children alloc children sl
          (lb ++ [forest_listlen forest lb])).object_bases ∧
        RegistryExtends sl.object_bases (layer_collection_add_children alloc children sl
          (lb ++ [forest_listlen forest lb])).object_bases ∧
        mirrors_links_list (layer_collection_add_children alloc children sl
          (lb ++ [forest_listlen forest lb])).object_bases ts children = true := by
  induction children with
  | nil =>
    intro sl n h hwf
    exact ⟨n, [], h, rfl, rfl, rfl, by simp, hwf, registry_extends_refl _, rfl⟩
  | cons c rest ihr =>
    intro sl n h hwf
    rw [layer_collection_add_children]
    have hv : ValidList sl.layer_collections (lb ++ [forest_listlen forest lb]) := by
      right
      rw [h, forest_get_addtail forest lb hlb n]
      rfl
    obtain ⟨t, ht, hwf1, hext1, hm⟩ :=
      ih c (List.mem_cons_self _ _) sl (lb ++ [forest_listlen forest lb]) hv hwf
    have hne : ∃ i p, lb ++ [forest_listlen forest lb] = i :: p := by
      cases lb with
      | nil => exact ⟨_, _, rfl⟩
      | cons i p => exact ⟨i, _, rfl⟩
    obtain ⟨i, p, hip⟩ := hne
    have ht2 : (layer_collection_add alloc c sl (lb ++ [forest_listlen forest lb])).1.layer_collections
        = forest_addtail forest lb (LayerCollection.appendChild t n) := by
      rw [ht, hip, forest_addtail_of_ne_nil, ← hip, h, forest_modify_addtail]
    obtain ⟨n', ts, h1, h2, h3, h4, h5, h6, h7, h8⟩ :=
      ihr (fun c hc => ih c (List.mem_cons_of_mem _ hc)) _ _ ht2 hwf1
    obtain ⟨f1, f2, f3, f4⟩ := append_child_fields t n
    refine ⟨n', t :: ts, h1, h2.trans f1, h3.trans f2, h4.trans f4, ?_, h6,
      registry_extends_trans hext1 h7, ?_⟩
    · rw [h5, f3, List.append_assoc]
      rfl
    · simp only [mirrors_links_list, Bool.and_eq_true]
      exact ⟨mirrors_links_extends _ _ h7 t c hm, h8⟩

theorem layer_collection_add_mirrors_links (alloc : List Nat → Nat)
    (hfresh : ∀ used, alloc used ∉ used) (sc : SceneCollection) : AddsMirrorLinks alloc sc := by
  induction sc using scene_collection_induct with
  | h id objs filt children ih =>
    intro sl lb hlb hwf
    rw [layer_collection_add]
    simp only []
    obtain ⟨n1, a1, a2, a3, a4, a5, a6, a7⟩ :=
      objects_populate_links alloc hfresh sl.layer_collections lb hlb objs
        { sl with
          layer_collections := forest_addtail sl.layer_collections lb
            (.mk id (COLLECTION_VISIBLE + COLLECTION_SELECTABLE + COLLECTION_FOLDED) [] []) }
        _ [] rfl hwf rfl
    obtain ⟨n2, b1, b2, b3, b4, b5, b6, b7⟩ :=
      objects_populate_links alloc hfresh sl.layer_collections lb hlb filt _ n1 _ a1 a5 a7
    obtain ⟨n3, ts, c1, c2, c3, c4, c5, c6, c7, c8⟩ :=
      add_children_links alloc sl.layer_collections lb hlb children ih _ n2 b1 b5
    refine ⟨n3, c1, c6, registry_extends_trans a6 (registry_extends_trans b6 c7), ?_⟩
    have hlinks := links_objects_extends _ _ c7 _ _ b7
    rw [← List.foldl_append, seen_fold_nil, ← c4] at hlinks
    cases n3 with
    | mk s f l c =>
      rw [b2, a2] at c2
      rw [b3, a3] at c3
      rw [b4, a4] at c5
      simp only [LayerCollection.scene_collection, LayerCollection.layer_collections,
        LayerCollection.flag, LayerCollection.object_bases, List.nil_append] at c2 c3 c5 hlinks
      subst c2 c3 c5
      simp only [mirrors_links, SceneCollection.id, SceneCollection.objects,
        SceneCollection.filter_objects, SceneCollection.scene_collections, Bool.and_eq_true,
        beq_iff_eq]
      exact ⟨⟨⟨trivial, by decide⟩, hlinks⟩, c8⟩

theorem foldl_max_le (used : List Nat) :
    ∀ acc : Nat, acc ≤ used.foldl max acc ∧ ∀ x ∈ used, x ≤ used.foldl max acc := by
  induction used with
  | nil => intro acc; exact ⟨Nat.le_refl _, fun x hx => by cases hx⟩
  | cons y ys ih =>
    intro acc
    rw [List.foldl_cons]
    obtain ⟨h1, h2⟩ := ih (max acc y)
    refine ⟨Nat.le_trans (Nat.le_max_left _ _) h1, ?_⟩
    intro x hx
    rcases List.mem_cons.mp hx with rfl | hx
    · exact Nat.le_trans (Nat.le_max_right _ _) h1
    · exact h2 x hx

/-- The allocator of the concrete runs returns a block not in use. -/
theorem bump_alloc_fresh (used : List Nat) : bump_alloc used ∉ used := by
  intro h
  have := (foldl_max_le used 0).2 _ h
  unfold bump_alloc at this
  omega

/-- C23: in a heap where the allocator returns a block not in use and the registry holds
distinct bases, one per object, `layer_collection_add(sl, lb, sc)` appends to the list `lb`
one node, the one its returned pointer designates, whose tree mirrors `sc`: same scene
collection, children one to one in order, every node with flag
`COLLECTION_VISIBLE | COLLECTION_SELECTABLE | COLLECTION_FOLDED`, and the links of every
node reference the distinct objects of `objects` followed by `filter_objects` in the order
of their first occurrence. -/
theorem layer_collection_add_shape (alloc : List Nat → Nat)
    (hfresh : ∀ used, alloc used ∉ used) (sc : SceneCollection) (sl : SceneLayer)
    (lb : List Nat) (hlb : lb = [] ∨ (forest_get sl.layer_collections lb).isSome = true)
    (hwf : (sl.object_bases.map (fun b => b.addr)).Nodup ∧
      (sl.object_bases.map (fun b => b.object)).Nodup) :
    ∃ t, (layer_collection_add alloc sc sl lb).1.layer_collections
          = forest_addtail sl.layer_collections lb t ∧
      forest_get (layer_collection_add alloc sc sl lb).1.layer_collections
        (layer_collection_add alloc sc sl lb).2 = some t ∧
      mirrors_links (layer_collection_add alloc sc sl lb).1.object_bases t sc = true := by
  obtain ⟨t, h1, _, _, h4⟩ := layer_collection_add_mirrors_links alloc hfresh sc sl lb hlb hwf
  refine ⟨t, h1, ?_, h4⟩
  rw [h1, layer_collection_add_pointer]
  exact forest_get_addtail _ lb hlb t

theorem layer_collection_add_shape_witness :
    (∀ used, bump_alloc used ∉ used) ∧
    (([] : List Nat) = [] ∨ (forest_get demo_layer_empty.layer_collections []).isSome = true) ∧
    ((demo_layer_empty.object_bases.map (fun b => b.addr)).Nodup ∧
      (demo_layer_empty.object_bases.map (fun b => b.object)).Nodup) ∧
    ∃ t, (layer_collection_add bump_alloc demo_collection_repeats demo_layer_empty
            []).1.layer_collections
          = forest_addtail demo_layer_empty.layer_collections [] t ∧
      forest_get (layer_collection_add bump_alloc demo_collection_repeats demo_layer_empty
          []).1.layer_collections
        (layer_collection_add bump_alloc demo_collection_repeats demo_layer_empty [] ).2 = some t ∧
      mirrors_links (layer_collection_add bump_alloc demo_collection_repeats demo_layer_empty
          []).1.object_bases t demo_collection_repeats = true :=
  ⟨bump_alloc_fresh, Or.inl rfl, ⟨by decide, by decide⟩,
    layer_collection_add_shape bump_alloc bump_alloc_fresh demo_collection_repeats
      demo_layer_empty [] (Or.inl rfl) ⟨by decide, by decide⟩⟩

/-- The same call, evaluated: one root with the three distinct objects linked in
the order of their first occurrence and one child that links the base of 101 again. -/
theorem layer_collection_add_repeats_run :
    ((layer_collection_add bump_alloc demo_collection_repeats demo_layer_empty
        []).1.layer_collections.map
      (fun t => (t.scene_collection, t.flag, t.object_bases,
        t.layer_collections.map (fun c => (c.scene_collection, c.flag, c.object_bases))))
      = [(10, 7, [1, 2, 3], [(11, 7, [1])])]) ∧
    (layer_collection_add bump_alloc demo_collection_repeats demo_layer_empty
        []).1.object_bases.map (fun b => (b.addr, b.object)) = [(1, 101), (2, 102), (3, 103)] :=
  ⟨rfl, rfl⟩


end Layer
